import Mathlib

/-!
Verification of the ruzzt ZZT engine reimplementation against its
natural-language specification.

The definitions below are a shallow embedding of the Rust sources:
  - `src/zzt_file_format/src/lib.rs` and `dosstring.rs` (world model and the
    binary serializer),
  - `src/ruzzt_engine/src/board_simulator.rs` (tile grid, status list,
    action reducer, partial-step scheduler),
  - `src/ruzzt_engine/src/oop_parser.rs` (the OOP script interpreter),
  - `src/ruzzt_engine/src/zzt_behaviours/*.rs` (element behaviours),
  - `src/ruzzt_engine/src/engine.rs` (the time-elapsed block of the step loop).

Rust `u8` fields are modelled as `Nat` (the serializer theorems carry
explicit `< 256` well-formedness hypotheses where it matters), `i16`/`isize`
as `Int` (with explicit range hypotheses where overflow could matter), byte
strings (`DosString`) as `List Nat`, and fallible streams as `Option`.
Dynamic dispatch over `Behaviour` trait objects is modelled as a closed
inductive of the behaviours exercised here, dispatched by total functions,
mirroring the way `load_zzt_behaviours` populates the table.  Randomness
(`rand::thread_rng`) is modelled by an explicit oracle threaded through the
functions that consume it.  Rust loops without a structural termination
argument take an explicit fuel parameter.
-/

set_option maxRecDepth 8000

namespace Ruzzt

/-- Byte strings (`DosString` from `dosstring.rs`): a plain vector of bytes. -/
abbrev DosStr := List Nat

/-- ASCII uppercase of one byte (`make_ascii_uppercase` acts byte-wise). -/
def upperByte (b : Nat) : Nat := if 97 ≤ b ∧ b ≤ 122 then b - 32 else b

/-- ASCII lowercase of one byte (`make_ascii_lowercase` acts byte-wise). -/
def lowerByte (b : Nat) : Nat := if 65 ≤ b ∧ b ≤ 90 then b + 32 else b

/-- `DosString::to_upper` from `dosstring.rs`. -/
def toUpper (s : DosStr) : DosStr := s.map upperByte

/-- `DosString::to_lower` from `dosstring.rs`. -/
def toLower (s : DosStr) : DosStr := s.map lowerByte

/-- Helper turning a Lean string literal of ASCII characters into the byte
list the engine works with. -/
def bytes (s : String) : DosStr := s.toList.map Char.toNat

/-- `BoardTile` from `zzt_file_format/src/lib.rs`: element kind plus colour. -/
structure BoardTile where
  element_id : Nat
  colour : Nat
deriving DecidableEq, Repr

/-- `CodeSource` from `zzt_file_format/src/lib.rs`: a status either owns its
script code or is bound to the code of the status at another index. -/
inductive CodeSource where
  | owned : DosStr → CodeSource
  | bound : Nat → CodeSource
deriving DecidableEq, Repr

/-- `StatusElement` from `zzt_file_format/src/lib.rs`. -/
structure StatusElement where
  location_x : Nat
  location_y : Nat
  step_x : Int
  step_y : Int
  cycle : Int
  param1 : Nat
  param2 : Nat
  param3 : Nat
  follower : Int
  leader : Int
  under_element_id : Nat
  under_colour : Nat
  code_current_instruction : Int
  code_source : CodeSource
deriving DecidableEq, Repr

/-- `StatusElement::default()` from `zzt_file_format/src/lib.rs`. -/
def StatusElement.default : StatusElement where
  location_x := 0
  location_y := 0
  step_x := 0
  step_y := 0
  cycle := 1
  param1 := 0
  param2 := 0
  param3 := 0
  follower := -1
  leader := -1
  under_element_id := 0
  under_colour := 0
  code_current_instruction := 0
  code_source := CodeSource.owned []

/-- `WorldType` from `zzt_file_format/src/lib.rs`. -/
inductive WorldType where
  | zzt
  | superZzt
deriving DecidableEq, Repr

/-- `WorldHeader` from `zzt_file_format/src/lib.rs`. -/
structure WorldHeader where
  world_type : WorldType
  num_boards_except_title : Int
  player_ammo : Int
  player_gems : Int
  player_keys : List Bool
  player_health : Int
  player_board : Int
  player_torches : Option Int
  torch_cycles : Option Int
  energy_cycles : Int
  player_score : Int
  world_name : DosStr
  flag_names : List DosStr
  time_passed : Int
  time_passed_ticks : Int
  locked : Bool
  player_stones : Option Int
deriving DecidableEq, Repr

/-- `WorldHeader::zzt_default()` from `zzt_file_format/src/lib.rs`. -/
def WorldHeader.zzt_default : WorldHeader where
  world_type := WorldType.zzt
  num_boards_except_title := 0
  player_ammo := 0
  player_gems := 0
  player_keys := List.replicate 7 false
  player_health := 100
  player_board := 0
  player_torches := some 0
  torch_cycles := some 0
  energy_cycles := 0
  player_score := 0
  world_name := []
  flag_names := List.replicate 10 []
  time_passed := 0
  time_passed_ticks := 0
  locked := false
  player_stones := none

/-- `WorldHeader::first_empty_flag` helper loop (enumerate with base index). -/
def firstEmptyFlagAux : List DosStr → Nat → Option Nat
  | [], _ => none
  | f :: rest, i => if f = [] then some i else firstEmptyFlagAux rest (i + 1)

/-- `WorldHeader::first_empty_flag` from `zzt_file_format/src/lib.rs`: index
of the first empty slot in the flag table. -/
def WorldHeader.first_empty_flag (wh : WorldHeader) : Option Nat :=
  firstEmptyFlagAux wh.flag_names 0

/-- `WorldHeader::last_matching_flag` helper loop: the source iterates the
flag list in reverse (`.rev()`) looking for equality with the uppercased
query; this recursion prefers the match found in the tail. -/
def lastMatchingFlagAux : List DosStr → DosStr → Nat → Option Nat
  | [], _, _ => none
  | f :: rest, c, i =>
    match lastMatchingFlagAux rest c (i + 1) with
    | some j => some j
    | none => if c = f then some i else none

/-- `WorldHeader::last_matching_flag` from `zzt_file_format/src/lib.rs`:
index of the last slot equal to the uppercased query. -/
def WorldHeader.last_matching_flag (wh : WorldHeader) (check : DosStr) : Option Nat :=
  lastMatchingFlagAux wh.flag_names (toUpper check) 0

/-- `Action::SetFlag` branch of `BoardSimulator::apply_action`
(`board_simulator.rs` lines 882-890): insert the uppercased name into the
first empty slot unless a matching flag already exists. -/
def applySetFlag (wh : WorldHeader) (name : DosStr) : WorldHeader :=
  if (wh.last_matching_flag name).isNone then
    match wh.first_empty_flag with
    | some flag_index => { wh with flag_names := wh.flag_names.set flag_index (toUpper name) }
    | none => wh
  else
    wh

/-- `Action::ClearFlag` branch of `BoardSimulator::apply_action`
(`board_simulator.rs` lines 891-895): empty the last matching slot. -/
def applyClearFlag (wh : WorldHeader) (name : DosStr) : WorldHeader :=
  match wh.last_matching_flag name with
  | some flag_index => { wh with flag_names := wh.flag_names.set flag_index [] }
  | none => wh

/-- Flag-table well-formedness used by the spec: no two nonempty slots hold
the same name. -/
def flagsNodup (l : List DosStr) : Prop :=
  ∀ i j, i < l.length → j < l.length → i ≠ j →
    l.getD i [] ≠ [] → l.getD i [] ≠ l.getD j []

/-- Simulation grid width from `board_simulator.rs` (60 board columns plus a
`BoardEdge` sentinel on each side). -/
def BOARD_WIDTH : Nat := 62

/-- Simulation grid height from `board_simulator.rs` (25 board rows plus a
`BoardEdge` sentinel on each side). -/
def BOARD_HEIGHT : Nat := 27

/-- `ElementType` discriminants (from the `ElementType` enum in
`zzt_file_format/src/lib.rs`); only the ones the development refers to. -/
def ET_EMPTY : Nat := 0
def ET_BOARD_EDGE : Nat := 1
def ET_MONITOR : Nat := 3
def ET_PLAYER : Nat := 4
def ET_SCROLL : Nat := 10
def ET_PASSAGE : Nat := 11
def ET_DUPLICATOR : Nat := 12
def ET_BOMB : Nat := 13
def ET_ENERGIZER : Nat := 14
def ET_STAR : Nat := 15
def ET_CLOCKWISE : Nat := 16
def ET_COUNTER : Nat := 17
def ET_BULLET : Nat := 18
def ET_WATER : Nat := 19
def ET_FOREST : Nat := 20
def ET_SOLID : Nat := 21
def ET_NORMAL : Nat := 22
def ET_BREAKABLE : Nat := 23
def ET_BOULDER : Nat := 24
def ET_SLIDER_NS : Nat := 25
def ET_SLIDER_EW : Nat := 26
def ET_FAKE : Nat := 27
def ET_INVISIBLE : Nat := 28
def ET_BLINK_WALL : Nat := 29
def ET_TRANSPORTER : Nat := 30
def ET_LINE : Nat := 31
def ET_RICOCHET : Nat := 32
def ET_BEAR : Nat := 34
def ET_RUFFIAN : Nat := 35
def ET_OBJECT : Nat := 36
def ET_SLIME : Nat := 37
def ET_SHARK : Nat := 38
def ET_SPINNING_GUN : Nat := 39
def ET_PUSHER : Nat := 40
def ET_LION : Nat := 41
def ET_TIGER : Nat := 42
def ET_HEAD : Nat := 44
def ET_SEGMENT : Nat := 45

/-- Closed set of element behaviours modelled here, mirroring the trait
impls wired up by `load_zzt_behaviours` (`zzt_behaviours.rs`); kinds with no
registered behaviour (e.g. `Solid`, `Normal`, `Line`) fall back to
`DefaultBehaviour` exactly as in `behaviour_for_element_id`. -/
inductive Behaviour where
  | defaultB
  | emptyB
  | boardEdgeB
  | bulletB
  | breakableB
  | waterB
  | fakeB
  | ricochetB
  | boulderB
deriving DecidableEq, Repr

/-- `BoardMetaData` from `zzt_file_format/src/lib.rs`. -/
structure BoardMetaData where
  board_name : DosStr
  max_player_shots : Nat
  is_dark : Bool
  exit_north : Nat
  exit_south : Nat
  exit_west : Nat
  exit_east : Nat
  restart_on_zap : Bool
  message : Option DosStr
  player_enter_x : Nat
  player_enter_y : Nat
  camera_x : Option Int
  camera_y : Option Int
  time_limit : Int
deriving DecidableEq, Repr

/-- `BoardMetaData::default()` from `zzt_file_format/src/lib.rs`. -/
def BoardMetaData.default : BoardMetaData where
  board_name := bytes ("Default Board")
  max_player_shots := 255
  is_dark := false
  exit_north := 0
  exit_south := 0
  exit_west := 0
  exit_east := 0
  restart_on_zap := false
  message := none
  player_enter_x := 0
  player_enter_y := 0
  camera_x := none
  camera_y := none
  time_limit := 0

/-- `BoardSimulator` state from `board_simulator.rs` (minus the behaviour
`Rc`s, which are modelled as the closed `Behaviour` kind per element id). -/
structure BoardSim where
  world_header : WorldHeader
  board_meta_data : BoardMetaData
  status_elements : List StatusElement
  tiles : List BoardTile
  behaviours : List (Option Behaviour)
deriving DecidableEq, Repr

/-- Tile layout built by `BoardSimulator::new`: a 62 by 27 grid in row-first
order whose outermost ring is `BoardEdge` and whose interior is `Empty`. -/
def initialTiles : List BoardTile :=
  (List.range (BOARD_HEIGHT * BOARD_WIDTH)).map (fun i =>
    let x := i % BOARD_WIDTH
    let y := i / BOARD_WIDTH
    if x = 0 ∨ x = BOARD_WIDTH - 1 ∨ y = 0 ∨ y = BOARD_HEIGHT - 1 then
      { element_id := ET_BOARD_EDGE, colour := 0 }
    else
      { element_id := ET_EMPTY, colour := 0 })

/-- `BoardSimulator::new` from `board_simulator.rs` (behaviour table starts
empty, to be populated via `set_behaviour`). -/
def BoardSim.new (world_header : WorldHeader) : BoardSim where
  world_header := world_header
  board_meta_data := BoardMetaData.default
  status_elements := []
  tiles := initialTiles
  behaviours := []

/-- `BoardSimulator::set_tile` from `board_simulator.rs` lines 131-141.  The
bounds check is on the flattened index `x + y*62` only.  (In the source the
index is computed in `i16`; the embedding uses unbounded `Int`, which agrees
with the source wherever the `i16` computation does not overflow — overflow
is a Rust debug panic.)  Returns the updated simulator and the `bool` result. -/
def set_tile (sim : BoardSim) (x y : Int) (tile : BoardTile) : BoardSim × Bool :=
  let index : Int := x + y * (BOARD_WIDTH : Int)
  if 0 ≤ index ∧ index < (sim.tiles.length : Int) then
    ({ sim with tiles := sim.tiles.set index.toNat tile }, true)
  else
    (sim, false)

/-- `BoardSimulator::get_tile` from `board_simulator.rs` lines 143-151; same
flattened-index bounds check as `set_tile`.  (`get_tile_mut`, lines 153-162,
performs the identical index computation and guard.) -/
def get_tile (sim : BoardSim) (x y : Int) : Option BoardTile :=
  let index : Int := x + y * (BOARD_WIDTH : Int)
  if 0 ≤ index ∧ index < (sim.tiles.length : Int) then
    sim.tiles.get? index.toNat
  else
    none

/-- Cycle guard of `BoardSimulatorStepState::process_status`
(`board_simulator.rs` lines 1075-1080): the behaviour's step function runs
exactly when this is true.  `Int.tmod` is Rust's `%` on `isize` (truncated,
sign of the dividend). -/
def statusShouldStep (global_cycle : Nat) (status_index : Nat) (cycle : Int) : Bool :=
  0 < cycle ∧ Int.tmod ((global_cycle : Int) - Int.tmod (status_index : Int) cycle) cycle = 0

section ListLemmas

variable {α : Type _}

theorem getD_set_self (l : List α) (k : Nat) (u d : α) (h : k < l.length) :
    (l.set k u).getD k d = u := by
  induction l generalizing k with
  | nil => simp at h
  | cons a t ih =>
    cases k with
    | zero => simp [List.set, List.getD]
    | succ k =>
      simp only [List.set, List.getD_cons_succ]
      exact ih k (by simpa using h)

theorem getD_set_ne (l : List α) (k i : Nat) (u d : α) (h : k ≠ i) :
    (l.set k u).getD i d = l.getD i d := by
  induction l generalizing k i with
  | nil => simp [List.set]
  | cons a t ih =>
    cases k with
    | zero =>
      cases i with
      | zero => exact absurd rfl h
      | succ i => simp [List.set]
    | succ k =>
      cases i with
      | zero => simp [List.set]
      | succ i =>
        simp only [List.set, List.getD_cons_succ]
        exact ih k i (fun hk => h (by rw [hk]))

theorem getD_mem (l : List α) (i : Nat) (d : α) (h : i < l.length) :
    l.getD i d ∈ l := by
  induction l generalizing i with
  | nil => simp at h
  | cons a t ih =>
    cases i with
    | zero => simp [List.getD]
    | succ i =>
      simp only [List.getD_cons_succ]
      exact List.mem_cons_of_mem _ (ih i (by simpa using h))

theorem mem_set_self (l : List α) (k : Nat) (u : α) (h : k < l.length) :
    u ∈ l.set k u := by
  have hlen : k < (l.set k u).length := by simpa using h
  have := getD_mem (l.set k u) k u hlen
  rwa [getD_set_self l k u u h] at this

end ListLemmas

/-- Characterisation of `lastMatchingFlagAux` returning `none`: no list
element equals the query. -/
theorem lastMatchingFlagAux_eq_none_iff (l : List DosStr) (c : DosStr) (i : Nat) :
    lastMatchingFlagAux l c i = none ↔ ∀ f ∈ l, c ≠ f := by
  induction l generalizing i with
  | nil => simp [lastMatchingFlagAux]
  | cons a t ih =>
    simp only [lastMatchingFlagAux]
    cases htail : lastMatchingFlagAux t c (i + 1) with
    | some j =>
      simp only [reduceCtorEq, false_iff]
      intro hall
      have : lastMatchingFlagAux t c (i + 1) = none := by
        rw [ih (i + 1)]
        intro f hf
        exact hall f (List.mem_cons_of_mem _ hf)
      rw [this] at htail
      exact Option.noConfusion htail
    | none =>
      by_cases hca : c = a
      · simp only [if_pos hca, reduceCtorEq, false_iff]
        intro hall
        exact hall a (List.mem_cons_self a t) hca
      · simp only [if_neg hca]
        constructor
        · intro _ f hf
          rcases List.mem_cons.mp hf with h | h
          · rw [h]; exact hca
          · exact ((ih (i + 1)).mp htail) f h
        · intro _; trivial

/-- When `firstEmptyFlagAux` finds a slot, that slot is in bounds and empty. -/
theorem firstEmptyFlagAux_some (l : List DosStr) (i j : Nat)
    (h : firstEmptyFlagAux l i = some j) :
    ∃ k, j = i + k ∧ k < l.length ∧ l.getD k [] = [] := by
  induction l generalizing i with
  | nil => simp [firstEmptyFlagAux] at h
  | cons a t ih =>
    simp only [firstEmptyFlagAux] at h
    by_cases ha : a = []
    · rw [if_pos ha] at h
      have hij : i = j := Option.some.inj h
      exact ⟨0, by omega, by simp, by simpa using ha⟩
    · rw [if_neg ha] at h
      rcases ih (i + 1) h with ⟨k, hk, hlen, hempty⟩
      exact ⟨k + 1, by omega, by simpa using Nat.succ_lt_succ hlen, by simpa [List.getD] using hempty⟩

/-- Uppercasing a byte twice equals uppercasing once. -/
theorem upperByte_idem (b : Nat) : upperByte (upperByte b) = upperByte b := by
  unfold upperByte
  by_cases h : 97 ≤ b ∧ b ≤ 122
  · rw [if_pos h, if_neg (by omega)]
  · rw [if_neg h, if_neg h]

/-- Uppercasing a byte string twice equals uppercasing once. -/
theorem toUpper_idem (s : DosStr) : toUpper (toUpper s) = toUpper s := by
  unfold toUpper
  rw [List.map_map]
  exact List.map_congr_left (fun b _ => upperByte_idem b)

/-- A table whose slots are all empty has no duplicate nonempty slots. -/
theorem flagsNodup_all_empty (n : Nat) : flagsNodup (List.replicate n []) := by
  intro i j hi hj _ hne
  exfalso
  apply hne
  have hmem := getD_mem (List.replicate n ([] : DosStr)) i [] (by simpa using hi)
  exact List.eq_of_mem_replicate hmem

/-- C2 (counterexample): the bounds check of `set_tile`/`get_tile` is on the
flattened index `x + 62*y` only, so the out-of-grid coordinate (62, 0) — `x`
equals the grid width — aliases the in-grid cell (0, 1): writing there
succeeds (returns `true`) and lands on cell (0, 1), and reading there
returns that in-grid cell rather than `None`.  This refutes the claim that
every out-of-grid access is a no-op returning `false`/`None`. -/
theorem c2_counterexample :
    ¬ ((62 : Int) < (BOARD_WIDTH : Int)) ∧
    (set_tile (BoardSim.new WorldHeader.zzt_default) 62 0
        { element_id := ET_SOLID, colour := 14 }).2 = true ∧
    get_tile (set_tile (BoardSim.new WorldHeader.zzt_default) 62 0
        { element_id := ET_SOLID, colour := 14 }).1 0 1 =
      some { element_id := ET_SOLID, colour := 14 } ∧
    get_tile (BoardSim.new WorldHeader.zzt_default) 62 0 =
      get_tile (BoardSim.new WorldHeader.zzt_default) 0 1 ∧
    get_tile (BoardSim.new WorldHeader.zzt_default) 62 0 ≠ none := by
  refine ⟨by decide, ?_, ?_, ?_, ?_⟩ <;> decide

/-- C2 (amended): a tile write no-ops (returning `false`) and a tile read
returns `None` exactly when the flattened index `x + 62*y` falls outside the
tile buffer; an out-of-grid coordinate whose flattened index is nonetheless
in range aliases the in-grid cell at that index (both for reads and writes),
so such accesses do touch in-grid cells. -/
theorem c2_amended (sim : BoardSim) (x y : Int) (tile : BoardTile)
    (hlen : sim.tiles.length = BOARD_WIDTH * BOARD_HEIGHT)
    (hout : ¬ (0 ≤ x ∧ x < (BOARD_WIDTH : Int) ∧ 0 ≤ y ∧ y < (BOARD_HEIGHT : Int))) :
    (¬ (0 ≤ x + y * (BOARD_WIDTH : Int) ∧
        x + y * (BOARD_WIDTH : Int) < ((BOARD_WIDTH * BOARD_HEIGHT : Nat) : Int)) →
      set_tile sim x y tile = (sim, false) ∧ get_tile sim x y = none) ∧
    ((0 ≤ x + y * (BOARD_WIDTH : Int) ∧
        x + y * (BOARD_WIDTH : Int) < ((BOARD_WIDTH * BOARD_HEIGHT : Nat) : Int)) →
      ∃ x' y' : Int, 0 ≤ x' ∧ x' < (BOARD_WIDTH : Int) ∧ 0 ≤ y' ∧ y' < (BOARD_HEIGHT : Int) ∧
        get_tile sim x y = get_tile sim x' y' ∧
        set_tile sim x y tile = set_tile sim x' y' tile ∧
        (set_tile sim x y tile).2 = true) := by
  clear hout
  constructor
  · intro hbad
    have hcond : ¬ (0 ≤ x + y * (BOARD_WIDTH : Int) ∧
        x + y * (BOARD_WIDTH : Int) < (sim.tiles.length : Int)) := by
      rw [hlen]; exact hbad
    exact ⟨by simp only [set_tile, if_neg hcond], by simp only [get_tile, if_neg hcond]⟩
  · intro hgood
    obtain ⟨h0, hlt⟩ := hgood
    set i : Int := x + y * (BOARD_WIDTH : Int) with hi
    have hid : i % (BOARD_WIDTH : Int) + (i / (BOARD_WIDTH : Int)) * (BOARD_WIDTH : Int) =
        x + y * (BOARD_WIDTH : Int) := by
      have hdm := Int.emod_add_ediv i (BOARD_WIDTH : Int)
      rw [← hi]; linarith
    refine ⟨i % (BOARD_WIDTH : Int), i / (BOARD_WIDTH : Int), ?_, ?_, ?_, ?_, ?_, ?_, ?_⟩
    · exact Int.emod_nonneg i (by norm_num [BOARD_WIDTH])
    · exact Int.emod_lt_of_pos i (by norm_num [BOARD_WIDTH])
    · exact Int.ediv_nonneg h0 (by norm_num [BOARD_WIDTH])
    · have hw : (0 : Int) < (BOARD_WIDTH : Int) := by norm_num [BOARD_WIDTH]
      rw [Int.ediv_lt_iff_lt_mul hw]
      calc i < ((BOARD_WIDTH * BOARD_HEIGHT : Nat) : Int) := hlt
        _ = (BOARD_HEIGHT : Int) * (BOARD_WIDTH : Int) := by push_cast; ring
    · simp only [get_tile, hid]
    · simp only [set_tile, hid]
    · have hcond : 0 ≤ i ∧ i < (sim.tiles.length : Int) := by
        refine ⟨h0, ?_⟩; rw [hlen]; exact hlt
      simp only [set_tile, ← hi, if_pos hcond]

/-- C2 (amended, witness): evaluating the amended theorem at the concrete
out-of-grid coordinate (-5, 0), whose flattened index -5 is out of range:
the write no-ops returning `false` and the read returns `None`. -/
theorem c2_amended_witness :
    set_tile (BoardSim.new WorldHeader.zzt_default) (-5) 0
        { element_id := ET_SOLID, colour := 14 } =
      (BoardSim.new WorldHeader.zzt_default, false) ∧
    get_tile (BoardSim.new WorldHeader.zzt_default) (-5) 0 = none :=
  (c2_amended (BoardSim.new WorldHeader.zzt_default) (-5) 0
    { element_id := ET_SOLID, colour := 14 } (by decide) (by decide)).1 (by decide)

/-- When a matching flag already exists, `applySetFlag` leaves the world
header unchanged. -/
theorem applySetFlag_of_matched (wh : WorldHeader) (F : DosStr) (j : Nat)
    (h : wh.last_matching_flag F = some j) : applySetFlag wh F = wh := by
  simp [applySetFlag, h]

/-- C7: `#set` flag semantics on the flag table.  If a matching flag already
exists the table is unchanged; setting a flag twice equals setting it once;
setting never creates duplicate nonempty slots; when the flag is absent,
clearing then setting equals just setting; and when absent with an empty
slot available, the uppercased name is written into the first empty slot. -/
theorem c7_set_flag (wh : WorldHeader) (F : DosStr) :
    (∀ j, wh.last_matching_flag F = some j → applySetFlag wh F = wh) ∧
    applySetFlag (applySetFlag wh F) F = applySetFlag wh F ∧
    (flagsNodup wh.flag_names → flagsNodup (applySetFlag wh F).flag_names) ∧
    (wh.last_matching_flag F = none →
      applySetFlag (applyClearFlag wh F) F = applySetFlag wh F) ∧
    (wh.last_matching_flag F = none → ∀ k, wh.first_empty_flag = some k →
      applySetFlag wh F = { wh with flag_names := wh.flag_names.set k (toUpper F) }) := by
  refine ⟨applySetFlag_of_matched wh F, ?_, ?_, ?_, ?_⟩
  · -- Idempotence.
    cases hm : wh.last_matching_flag F with
    | some j => rw [applySetFlag_of_matched wh F j hm, applySetFlag_of_matched wh F j hm]
    | none =>
      cases hfe : wh.first_empty_flag with
      | none =>
        have hid : applySetFlag wh F = wh := by simp [applySetFlag, hm, hfe]
        rw [hid, hid]
      | some k =>
        have hset : applySetFlag wh F =
            { wh with flag_names := wh.flag_names.set k (toUpper F) } := by
          simp [applySetFlag, hm, hfe]
        obtain ⟨k', hk', hklen, _⟩ :=
          firstEmptyFlagAux_some wh.flag_names 0 k (by simpa [WorldHeader.first_empty_flag] using hfe)
        have hklen' : k < wh.flag_names.length := by omega
        have hmem : toUpper F ∈ wh.flag_names.set k (toUpper F) :=
          mem_set_self wh.flag_names k (toUpper F) hklen'
        cases hlm : (applySetFlag wh F).last_matching_flag F with
        | some j => exact applySetFlag_of_matched (applySetFlag wh F) F j hlm
        | none =>
          exfalso
          rw [hset] at hlm
          have hall := (lastMatchingFlagAux_eq_none_iff
            (wh.flag_names.set k (toUpper F)) (toUpper F) 0).mp hlm
          exact hall (toUpper F) hmem rfl
  · -- No-duplicate preservation.
    intro hnd
    cases hm : wh.last_matching_flag F with
    | some j => rw [applySetFlag_of_matched wh F j hm]; exact hnd
    | none =>
      cases hfe : wh.first_empty_flag with
      | none =>
        have hid : applySetFlag wh F = wh := by simp [applySetFlag, hm, hfe]
        rw [hid]; exact hnd
      | some k =>
        have hset : applySetFlag wh F =
            { wh with flag_names := wh.flag_names.set k (toUpper F) } := by
          simp [applySetFlag, hm, hfe]
        obtain ⟨k', hk', hklen, _⟩ :=
          firstEmptyFlagAux_some wh.flag_names 0 k (by simpa [WorldHeader.first_empty_flag] using hfe)
        have hklen' : k < wh.flag_names.length := by omega
        have hall := (lastMatchingFlagAux_eq_none_iff
          wh.flag_names (toUpper F) 0).mp hm
        rw [hset]
        intro i j hi hj hij hne
        simp only [List.length_set] at hi hj
        by_cases hik : i = k
        · subst hik
          rw [getD_set_self wh.flag_names i (toUpper F) [] hklen']
          rw [getD_set_ne wh.flag_names i j (toUpper F) [] (fun h => hij h)]
          exact hall (wh.flag_names.getD j []) (getD_mem wh.flag_names j [] hj)
        · rw [getD_set_ne wh.flag_names k i (toUpper F) [] (fun h => hik h.symm)]
          by_cases hjk : j = k
          · subst hjk
            rw [getD_set_self wh.flag_names j (toUpper F) [] hklen']
            exact fun h => hall (wh.flag_names.getD i []) (getD_mem wh.flag_names i [] hi) h.symm
          · rw [getD_set_ne wh.flag_names k j (toUpper F) [] (fun h => hjk h.symm)]
            rw [getD_set_ne wh.flag_names k i (toUpper F) [] (fun h => hik h.symm)] at hne
            exact hnd i j hi hj hij hne
  · -- Clear of an absent flag is the identity.
    intro hm
    have : applyClearFlag wh F = wh := by simp [applyClearFlag, hm]
    rw [this]
  · -- Absent flag with an empty slot: write into the first empty slot.
    intro hm k hk
    simp [applySetFlag, hm, hk]

/-- C7 (witness): evaluating the flag theorem on the default (all-empty)
flag table with flag name "torch": set-set equals set, the table after a set
has no duplicates, and clear-then-set equals set. -/
theorem c7_witness :
    applySetFlag (applySetFlag WorldHeader.zzt_default (bytes ("torch"))) (bytes ("torch")) =
      applySetFlag WorldHeader.zzt_default (bytes ("torch")) ∧
    flagsNodup (applySetFlag WorldHeader.zzt_default (bytes ("torch"))).flag_names ∧
    applySetFlag (applyClearFlag WorldHeader.zzt_default (bytes ("torch"))) (bytes ("torch")) =
      applySetFlag WorldHeader.zzt_default (bytes ("torch")) := by
  have h := c7_set_flag WorldHeader.zzt_default (bytes ("torch"))
  refine ⟨h.2.1, h.2.2.1 ?_, h.2.2.2.1 (by decide)⟩
  exact flagsNodup_all_empty 10

/-! ## The binary world serializer (`zzt_file_format/src/lib.rs`)

The Rust code reads from a `std::io::Read` stream and writes to a
`std::io::Write` stream.  The embedding models the stream as a byte list:
parsers consume a `List Nat` and return the value plus the unconsumed
suffix (reads are strictly sequential, so this is the positional stream);
the single absolute `seek(0x200/0x400)` in `World::parse` is modelled as
`List.drop` on the original list.  Writers return the emitted bytes, or
`none` where the source returns `Err`. -/

/-- `read_u8`: pop one byte. -/
def readU8 : List Nat → Option (Nat × List Nat)
  | [] => none
  | b :: rest => some (b, rest)

/-- `read_i16::<LittleEndian>`: two bytes, least significant first. -/
def readI16 (s : List Nat) : Option (Int × List Nat) := do
  let (b0, s) ← readU8 s
  let (b1, s) ← readU8 s
  let n := b0 + 256 * b1
  pure ((if n < 32768 then (n : Int) else (n : Int) - 65536), s)

/-- Skip `n` bytes (used for padding and the discarded `i32` pointer). -/
def readSkip : Nat → List Nat → Option (List Nat)
  | 0, s => some s
  | n + 1, s => do
    let (_, s) ← readU8 s
    readSkip n s

/-- Read exactly `n` bytes into a list (used for owned status code). -/
def readBytesN : Nat → List Nat → Option (DosStr × List Nat)
  | 0, s => some ([], s)
  | n + 1, s => do
    let (b, s) ← readU8 s
    let (rest, s) ← readBytesN n s
    pure (b :: rest, s)

/-- Fixed-capacity length-prefixed string payload: the source reads `count`
bytes and keeps byte `i` only while `i < len`. -/
def readPadded : Nat → Nat → List Nat → Option (DosStr × List Nat)
  | 0, _, s => some ([], s)
  | count + 1, len, s => do
    let (c, s) ← readU8 s
    let (str, s) ← readPadded count (len - 1) s
    pure ((if 0 < len then c :: str else str), s)

/-- The seven key-state bytes (`key_state > 0` becomes `true`). -/
def readKeys : Nat → List Nat → Option (List Bool × List Nat)
  | 0, s => some ([], s)
  | n + 1, s => do
    let (b, s) ← readU8 s
    let (rest, s) ← readKeys n s
    pure ((0 < b) :: rest, s)

/-- Rust's `as i16` cast of an unsigned size (wrap modulo 2^16). -/
def i16cast (n : Nat) : Int :=
  if n % 65536 < 32768 then ((n % 65536 : Nat) : Int) else ((n % 65536 : Nat) : Int) - 65536

/-- Rust's `i16` negation (`-32768` would overflow; the writer only negates
bound indices, which are nonnegative, so this matches `-(idx as i16)`). -/
def negI16 (v : Int) : Int := if v = -32768 then -32768 else -v

/-- `write_u8` (one byte). -/
def writeU8 (b : Nat) : List Nat := [b]

/-- `write_i16::<LittleEndian>` of an in-range `i16` value. -/
def writeI16 (v : Int) : List Nat :=
  let n := (v % 65536).toNat
  [n % 256, n / 256]

/-- Fixed-capacity padded string payload: byte `i` is `str[i]` while in
range and `0` afterwards. -/
def writePadded : Nat → DosStr → List Nat
  | 0, _ => []
  | count + 1, [] => 0 :: writePadded count []
  | count + 1, b :: str => b :: writePadded count str

/-- Key states: one byte per entry, `1` for `true` and `0` for `false`. -/
def writeKeys (keys : List Bool) : List Nat :=
  keys.map (fun k => if k then 1 else 0)

/-- The flag-name loop inside `WorldHeader::parse`. -/
def parseFlagNames : Nat → List Nat → Option (List DosStr × List Nat)
  | 0, s => some ([], s)
  | n + 1, s => do
    let (len, s) ← readU8 s
    let (name, s) ← readPadded 20 len s
    let (rest, s) ← parseFlagNames n s
    pure (name :: rest, s)

/-- The torches/torch-cycles fields of `WorldHeader::parse` (the Super ZZT
variant reads and discards one padding word). -/
def parseTorchesPart (world_type : WorldType) (s : List Nat) :
    Option ((Option Int × Option Int) × List Nat) :=
  match world_type with
  | WorldType.zzt => do
    let (player_torches, s) ← readI16 s
    let (torch_cycles, s) ← readI16 s
    pure ((some player_torches, some torch_cycles), s)
  | WorldType.superZzt => do
    let (_, s) ← readI16 s
    pure (((none : Option Int), (none : Option Int)), s)

/-- The energy-cycles/score fields of `WorldHeader::parse` (field order
differs between the two world types). -/
def parseEnergyScorePart (world_type : WorldType) (s : List Nat) :
    Option ((Int × Int) × List Nat) :=
  match world_type with
  | WorldType.zzt => do
    let (energy_cycles, s) ← readI16 s
    let (_, s) ← readI16 s
    let (player_score, s) ← readI16 s
    pure ((energy_cycles, player_score), s)
  | WorldType.superZzt => do
    let (player_score, s) ← readI16 s
    let (_, s) ← readI16 s
    let (energy_cycles, s) ← readI16 s
    pure ((energy_cycles, player_score), s)

/-- The stones/padding tail of `WorldHeader::parse`. -/
def parseStonesPart (world_type : WorldType) (s : List Nat) :
    Option (Option Int × List Nat) :=
  match world_type with
  | WorldType.zzt => do
    let s ← readSkip 14 s
    pure ((none : Option Int), s)
  | WorldType.superZzt => do
    let (player_stones, s) ← readI16 s
    let s ← readSkip 11 s
    pure (some player_stones, s)

/-- `WorldHeader::parse` from `zzt_file_format/src/lib.rs` lines 204-322.
(Written as a nested match chain rather than one long `do` block purely
because the Lean compiler is exponential in the length of a bind chain; the
read order is exactly the source's.) -/
def parseWorldHeader (s : List Nat) : Option (WorldHeader × List Nat) :=
  match readI16 s with
  | none => none
  | some (world_type_num, s) =>
  match (if world_type_num = -1 then some WorldType.zzt
         else if world_type_num = -2 then some WorldType.superZzt
         else none) with
  | none => none
  | some world_type =>
  match readI16 s with
  | none => none
  | some (num_boards_except_title, s) =>
  match readI16 s with
  | none => none
  | some (player_ammo, s) =>
  match readI16 s with
  | none => none
  | some (player_gems, s) =>
  match readKeys 7 s with
  | none => none
  | some (player_keys, s) =>
  match readI16 s with
  | none => none
  | some (player_health, s) =>
  match readI16 s with
  | none => none
  | some (player_board, s) =>
  match parseTorchesPart world_type s with
  | none => none
  | some (torches_pair, s) =>
  match parseEnergyScorePart world_type s with
  | none => none
  | some (energy_score_pair, s) =>
  match readU8 s with
  | none => none
  | some (world_name_len, s) =>
  match readPadded 20 world_name_len s with
  | none => none
  | some (world_name, s) =>
  match parseFlagNames
      (match world_type with
       | WorldType.zzt => 10
       | WorldType.superZzt => 16) s with
  | none => none
  | some (flag_names, s) =>
  match readI16 s with
  | none => none
  | some (time_passed, s) =>
  match readI16 s with
  | none => none
  | some (time_passed_ticks, s) =>
  match readU8 s with
  | none => none
  | some (locked_num, s) =>
  match parseStonesPart world_type s with
  | none => none
  | some (player_stones, s) =>
  some ({ world_type := world_type
          num_boards_except_title := num_boards_except_title
          player_ammo := player_ammo
          player_gems := player_gems
          player_keys := player_keys
          player_health := player_health
          player_board := player_board
          player_torches := torches_pair.1
          torch_cycles := torches_pair.2
          energy_cycles := energy_score_pair.1
          player_score := energy_score_pair.2
          world_name := world_name
          flag_names := flag_names
          time_passed := time_passed
          time_passed_ticks := time_passed_ticks
          locked := locked_num = 0
          player_stones := player_stones }, s)

/-- The flag-name loop inside `WorldHeader::write`. -/
def writeFlagNames : List DosStr → List Nat
  | [] => []
  | f :: rest => writeU8 (f.length % 256) ++ writePadded 20 f ++ writeFlagNames rest

/-- `WorldHeader::write` from `zzt_file_format/src/lib.rs` lines 324-421,
with the sequential `stream.write_*` calls collected into one
concatenation, in source order; the error cases return `none`. -/
def writeWorldHeader (wh : WorldHeader) : Option (List Nat) := do
  let world_type_num : Int :=
    match wh.world_type with
    | WorldType.zzt => -1
    | WorldType.superZzt => -2
  let torchesPart ←
    match wh.world_type with
    | WorldType.zzt => do
      let player_torches ← wh.player_torches
      let torch_cycles ← wh.torch_cycles
      pure (writeI16 player_torches ++ writeI16 torch_cycles)
    | WorldType.superZzt => pure (writeI16 0)
  let energyScorePart :=
    match wh.world_type with
    | WorldType.zzt =>
      writeI16 wh.energy_cycles ++ writeI16 0 ++ writeI16 wh.player_score
    | WorldType.superZzt =>
      writeI16 wh.player_score ++ writeI16 0 ++ writeI16 wh.energy_cycles
  let flag_names_count :=
    match wh.world_type with
    | WorldType.zzt => 10
    | WorldType.superZzt => 16
  if wh.flag_names.length = flag_names_count then
    let tailPart ←
      match wh.world_type with
      | WorldType.zzt => pure (List.replicate 14 0)
      | WorldType.superZzt => do
        let player_stones ← wh.player_stones
        pure (writeI16 player_stones ++ List.replicate 11 0)
    pure (writeI16 world_type_num ++
      writeI16 wh.num_boards_except_title ++
      writeI16 wh.player_ammo ++
      writeI16 wh.player_gems ++
      writeKeys wh.player_keys ++
      writeI16 wh.player_health ++
      writeI16 wh.player_board ++
      torchesPart ++
      energyScorePart ++
      writeU8 (wh.world_name.length % 256) ++ writePadded 20 wh.world_name ++
      writeFlagNames wh.flag_names ++
      writeI16 wh.time_passed ++
      writeI16 wh.time_passed_ticks ++
      writeU8 (if wh.locked then 0 else 1) ++
      tailPart)
  else
    none

/-- The code-source tail of `StatusElement::parse`: negative lengths are a
bound index, nonnegative lengths are that many owned code bytes. -/
def parseCodeSourcePart (code_length : Int) (s : List Nat) :
    Option (CodeSource × List Nat) :=
  if code_length < 0 then
    some (CodeSource.bound (-code_length).toNat, s)
  else
    match readBytesN code_length.toNat s with
    | none => none
    | some (code, s) => some (CodeSource.owned code, s)

/-- `StatusElement::parse` from `zzt_file_format/src/lib.rs` lines 1016-1071
(nested match chain; read order is the source's). -/
def parseStatusElement (world_type : WorldType) (s : List Nat) :
    Option (StatusElement × List Nat) :=
  match readU8 s with
  | none => none
  | some (location_x, s) =>
  match readU8 s with
  | none => none
  | some (location_y, s) =>
  match readI16 s with
  | none => none
  | some (step_x, s) =>
  match readI16 s with
  | none => none
  | some (step_y, s) =>
  match readI16 s with
  | none => none
  | some (cycle, s) =>
  match readU8 s with
  | none => none
  | some (param1, s) =>
  match readU8 s with
  | none => none
  | some (param2, s) =>
  match readU8 s with
  | none => none
  | some (param3, s) =>
  match readI16 s with
  | none => none
  | some (follower, s) =>
  match readI16 s with
  | none => none
  | some (leader, s) =>
  match readU8 s with
  | none => none
  | some (under_element_id, s) =>
  match readU8 s with
  | none => none
  | some (under_colour, s) =>
  match readSkip 4 s with
  | none => none
  | some s =>
  match readI16 s with
  | none => none
  | some (code_current_instruction, s) =>
  match readI16 s with
  | none => none
  | some (code_length, s) =>
  match (match world_type with
         | WorldType.zzt => readSkip 8 s
         | WorldType.superZzt => some s) with
  | none => none
  | some s =>
  match parseCodeSourcePart code_length s with
  | none => none
  | some (code_source, s) =>
  some ({ location_x := location_x
          location_y := location_y
          step_x := step_x
          step_y := step_y
          cycle := cycle
          param1 := param1
          param2 := param2
          param3 := param3
          follower := follower
          leader := leader
          under_element_id := under_element_id
          under_colour := under_colour
          code_current_instruction := code_current_instruction
          code_source := code_source }, s)

/-- `CodeSource::get_save_code_length` from `zzt_file_format/src/lib.rs`. -/
def getSaveCodeLength : CodeSource → Int
  | CodeSource.owned code => i16cast code.length
  | CodeSource.bound bound_index => negI16 (i16cast bound_index)

/-- `StatusElement::write` from `zzt_file_format/src/lib.rs` lines 1073-1106. -/
def writeStatusElement (st : StatusElement) (world_type : WorldType) : List Nat :=
  writeU8 st.location_x ++
  writeU8 st.location_y ++
  writeI16 st.step_x ++
  writeI16 st.step_y ++
  writeI16 st.cycle ++
  writeU8 st.param1 ++
  writeU8 st.param2 ++
  writeU8 st.param3 ++
  writeI16 st.follower ++
  writeI16 st.leader ++
  writeU8 st.under_element_id ++
  writeU8 st.under_colour ++
  List.replicate 4 0 ++
  writeI16 st.code_current_instruction ++
  writeI16 (getSaveCodeLength st.code_source) ++
  (match world_type with
   | WorldType.zzt => List.replicate 8 0
   | WorldType.superZzt => []) ++
  (match st.code_source with
   | CodeSource.owned code => code
   | CodeSource.bound _ => [])

/-- The run-length-decoding loop in `Board::parse` (`while tiles.len() <
tile_count`): reads three-byte runs until at least `needed` tiles have been
produced (a final run may overshoot, exactly as in the source). -/
def readTilesLoop : Nat → List Nat → Option (List BoardTile × List Nat)
  | 0, s => some ([], s)
  | n + 1, s => do
    let (rl0, s) ← readU8 s
    let (eid, s) ← readU8 s
    let (col, s) ← readU8 s
    let (rest, s) ← readTilesLoop (n + 1 - (if rl0 = 0 then 256 else rl0)) s
    pure (List.replicate (if rl0 = 0 then 256 else rl0)
      { element_id := eid, colour := col } ++ rest, s)
termination_by n _ => n
decreasing_by
  split <;> omega

/-- `write_tile_run` from `Board::write`: one three-byte run (`0` encodes a
run of 256); run lengths above 256 are an error. -/
def writeTileRun (tile : BoardTile) (runLen : Nat) : Option (List Nat) :=
  if 256 < runLen then none
  else some [(if runLen = 256 then 0 else runLen), tile.element_id, tile.colour]

/-- The run-length-encoding loop in `Board::write` lines 856-879, carrying
the `working_tile` and `current_run_len` state: flush the pending run when
the tile changes, bump the count, flush at 256, and flush any leftover at
the end. -/
def writeTilesLoop : List BoardTile → Option BoardTile → Nat → Option (List Nat)
  | [], working, runLen =>
    if 0 < runLen then do
      let w ← working
      writeTileRun w runLen
    else some []
  | t :: rest, working, runLen => do
    let flushed ←
      match working with
      | some w =>
        if w ≠ t then do
          let o ← writeTileRun w runLen
          pure (o, 0)
        else pure (([] : List Nat), runLen)
      | none => pure (([] : List Nat), runLen)
    let runLen2 := flushed.2 + 1
    let flushed2 ←
      if runLen2 = 256 then do
        let w ← working
        let o ← writeTileRun w 256
        pure (o, 0)
      else pure (([] : List Nat), runLen2)
    let tail ← writeTilesLoop rest (some t) flushed2.2
    pure (flushed.1 ++ flushed2.1 ++ tail)

/-- `Board` from `zzt_file_format/src/lib.rs`. -/
structure Board where
  tiles : List BoardTile
  status_elements : List StatusElement
  meta_data : BoardMetaData
deriving DecidableEq, Repr

/-- The status-element loop in `Board::parse`. -/
def parseStatusElements (world_type : WorldType) :
    Nat → List Nat → Option (List StatusElement × List Nat)
  | 0, s => some ([], s)
  | n + 1, s => do
    let (st, s) ← parseStatusElement world_type s
    let (rest, s) ← parseStatusElements world_type n s
    pure (st :: rest, s)

/-- The is-dark byte of `Board::parse` (ZZT only). -/
def parseIsDarkPart (world_type : WorldType) (s : List Nat) :
    Option (Bool × List Nat) :=
  match world_type with
  | WorldType.zzt => do
    let (is_dark_num, s) ← readU8 s
    pure (0 < is_dark_num, s)
  | WorldType.superZzt => pure (false, s)

/-- The board message of `Board::parse` (ZZT only, 58-byte field). -/
def parseMessagePart (world_type : WorldType) (s : List Nat) :
    Option (Option DosStr × List Nat) :=
  match world_type with
  | WorldType.zzt => do
    let (message_len, s) ← readU8 s
    let (message, s) ← readPadded 58 message_len s
    pure (some message, s)
  | WorldType.superZzt => pure ((none : Option DosStr), s)

/-- One camera coordinate of `Board::parse` (Super ZZT only). -/
def parseCameraPart (world_type : WorldType) (s : List Nat) :
    Option (Option Int × List Nat) :=
  match world_type with
  | WorldType.zzt => pure ((none : Option Int), s)
  | WorldType.superZzt => do
    let (v, s) ← readI16 s
    pure (some v, s)

/-- `Board::parse` from `zzt_file_format/src/lib.rs` lines 669-807 (nested
match chain; read order is the source's, including the `board_size < 0`
check sitting after the name read). -/
def parseBoard (world_type : WorldType) (s : List Nat) : Option (Board × List Nat) :=
  match readI16 s with
  | none => none
  | some (board_size, s) =>
  match readU8 s with
  | none => none
  | some (board_name_len, s) =>
  match readPadded
      (match world_type with
       | WorldType.zzt => 50
       | WorldType.superZzt => 60) board_name_len s with
  | none => none
  | some (board_name, s) =>
  if board_size < 0 then none
  else
  match readTilesLoop
      (match world_type with
       | WorldType.zzt => 60 * 25
       | WorldType.superZzt => 96 * 80) s with
  | none => none
  | some (tiles, s) =>
  match readU8 s with
  | none => none
  | some (max_player_shots, s) =>
  match parseIsDarkPart world_type s with
  | none => none
  | some (is_dark, s) =>
  match readU8 s with
  | none => none
  | some (exit_north, s) =>
  match readU8 s with
  | none => none
  | some (exit_south, s) =>
  match readU8 s with
  | none => none
  | some (exit_west, s) =>
  match readU8 s with
  | none => none
  | some (exit_east, s) =>
  match readU8 s with
  | none => none
  | some (restart_on_zap_num, s) =>
  match parseMessagePart world_type s with
  | none => none
  | some (message, s) =>
  match readU8 s with
  | none => none
  | some (player_enter_x, s) =>
  match readU8 s with
  | none => none
  | some (player_enter_y, s) =>
  match parseCameraPart world_type s with
  | none => none
  | some (camera_x, s) =>
  match parseCameraPart world_type s with
  | none => none
  | some (camera_y, s) =>
  match readI16 s with
  | none => none
  | some (time_limit, s) =>
  match readSkip
      (match world_type with
       | WorldType.zzt => 16
       | WorldType.superZzt => 14) s with
  | none => none
  | some s =>
  match readI16 s with
  | none => none
  | some (stat_element_count_minus_one, s) =>
  match parseStatusElements world_type (stat_element_count_minus_one + 1).toNat s with
  | none => none
  | some (status_elements, s) =>
  some ({ tiles := tiles
          status_elements := status_elements
          meta_data :=
            { board_name := board_name
              max_player_shots := max_player_shots
              is_dark := is_dark
              exit_north := exit_north
              exit_south := exit_south
              exit_west := exit_west
              exit_east := exit_east
              restart_on_zap := restart_on_zap_num = 1
              message := message
              player_enter_x := player_enter_x
              player_enter_y := player_enter_y
              camera_x := camera_x
              camera_y := camera_y
              time_limit := time_limit } }, s)

/-- The status write loop in `Board::write`. -/
def writeStatusElements (world_type : WorldType) : List StatusElement → List Nat
  | [] => []
  | st :: rest => writeStatusElement st world_type ++ writeStatusElements world_type rest

/-- The buffered board body of `Board::write` (`stream` in the source,
before the two size bytes are prepended); `none` on any of the source's
error returns, in source order. -/
def writeBoardInner (b : Board) (world_type : WorldType) : Option (List Nat) := do
  let max_board_name_bytes :=
    match world_type with
    | WorldType.zzt => 50
    | WorldType.superZzt => 60
  let tile_count :=
    match world_type with
    | WorldType.zzt => 60 * 25
    | WorldType.superZzt => 96 * 80
  if b.tiles.length = tile_count then do
    let rle ← writeTilesLoop b.tiles none 0
    let messagePart ←
      match world_type with
      | WorldType.zzt => do
        let message ← b.meta_data.message
        pure (writeU8 (message.length % 256) ++ writePadded 58 message)
      | WorldType.superZzt => pure ([] : List Nat)
    let cameraPart ←
      match world_type with
      | WorldType.zzt => pure ([] : List Nat)
      | WorldType.superZzt => do
        let camera_x ← b.meta_data.camera_x
        let camera_y ← b.meta_data.camera_y
        pure (writeI16 camera_x ++ writeI16 camera_y)
    let padding_byte_count :=
      match world_type with
      | WorldType.zzt => 16
      | WorldType.superZzt => 14
    if 1 ≤ b.status_elements.length ∧ b.status_elements.length ≤ 32767 then
      pure (writeU8 (b.meta_data.board_name.length % 256) ++
        writePadded max_board_name_bytes b.meta_data.board_name ++
        rle ++
        writeU8 b.meta_data.max_player_shots ++
        (match world_type with
         | WorldType.zzt => writeU8 (if b.meta_data.is_dark then 1 else 0)
         | WorldType.superZzt => []) ++
        writeU8 b.meta_data.exit_north ++
        writeU8 b.meta_data.exit_south ++
        writeU8 b.meta_data.exit_west ++
        writeU8 b.meta_data.exit_east ++
        writeU8 (if b.meta_data.restart_on_zap then 1 else 0) ++
        messagePart ++
        writeU8 b.meta_data.player_enter_x ++
        writeU8 b.meta_data.player_enter_y ++
        cameraPart ++
        writeI16 b.meta_data.time_limit ++
        List.replicate padding_byte_count 0 ++
        writeI16 (i16cast (b.status_elements.length - 1)) ++
        writeStatusElements world_type b.status_elements)
    else
      none
  else
    none

/-- `Board::write` from `zzt_file_format/src/lib.rs` lines 809-966: the
buffered body is prefixed with its byte length cast to `i16`. -/
def writeBoard (b : Board) (world_type : WorldType) : Option (List Nat) := do
  let inner ← writeBoardInner b world_type
  if b.status_elements.length ≤ 32767 then
    pure (writeI16 (i16cast inner.length) ++ inner)
  else
    none

/-- `World` from `zzt_file_format/src/lib.rs`. -/
structure World where
  world_header : WorldHeader
  boards : List Board
deriving DecidableEq, Repr

/-- The board loop in `World::parse`. -/
def parseBoards (world_type : WorldType) : Nat → List Nat → Option (List Board)
  | 0, _ => some []
  | n + 1, s => do
    let (b, s) ← parseBoard world_type s
    let rest ← parseBoards world_type n s
    pure (b :: rest)

/-- The board offset used by `World::parse` and `World::write` (`0x200` for
ZZT, `0x400` for Super ZZT). -/
def boardOffset : WorldType → Nat
  | WorldType.zzt => 0x200
  | WorldType.superZzt => 0x400

/-- `World::parse` from `zzt_file_format/src/lib.rs` lines 96-115: parse the
header from the start of the stream, seek to the board offset (modelled as
`List.drop` on the original byte list), then parse the boards. -/
def World.parse (data : List Nat) : Option World := do
  let (world_header, _) ← parseWorldHeader data
  let boardData := data.drop (boardOffset world_header.world_type)
  let boards ← parseBoards world_header.world_type
    (world_header.num_boards_except_title + 1).toNat boardData
  pure { world_header := world_header, boards := boards }

/-- The board write loop in `World::write`. -/
def writeBoards (world_type : WorldType) : List Board → Option (List Nat)
  | [] => some []
  | b :: rest => do
    let bs ← writeBoard b world_type
    let restBs ← writeBoards world_type rest
    pure (bs ++ restBs)

/-- `World::write` from `zzt_file_format/src/lib.rs` lines 117-138: the
header, zero padding up to the board offset, then each board in order. -/
def World.write (w : World) : Option (List Nat) := do
  let header_buf ← writeWorldHeader w.world_header
  let padding_count := boardOffset w.world_header.world_type - header_buf.length
  let boardsBs ← writeBoards w.world_header.world_type w.boards
  pure (header_buf ++ List.replicate padding_count 0 ++ boardsBs)

/-! ## Round-trip lemmas for the serializer -/

/-- A value fits in an `i16`. -/
def i16range (v : Int) : Bool := decide (-32768 ≤ v ∧ v < 32768)

theorem readI16_writeI16 (v : Int) (rest : List Nat) (h : i16range v = true) :
    readI16 (writeI16 v ++ rest) = some (v, rest) := by
  have hr := of_decide_eq_true h
  have hm0 : (0 : Int) ≤ v % 65536 := Int.emod_nonneg v (by norm_num)
  have hmlt : v % 65536 < 65536 := Int.emod_lt_of_pos v (by norm_num)
  have hcast : ((v % 65536).toNat : Int) = v % 65536 := Int.toNat_of_nonneg hm0
  have hval : v % 65536 = if v % 65536 < 32768 then v else v + 65536 := by
    split <;> omega
  simp only [writeI16, readI16, List.cons_append, readU8, Option.bind_eq_bind,
    Option.bind_some, Option.some_bind]
  have hsum : (v % 65536).toNat % 256 + 256 * ((v % 65536).toNat / 256) =
      (v % 65536).toNat := Nat.mod_add_div _ _
  rw [hsum]
  congr 1
  ext
  · split <;> omega
  · rfl

theorem readSkip_replicate (n : Nat) (rest : List Nat) :
    readSkip n (List.replicate n 0 ++ rest) = some rest := by
  induction n with
  | zero => simp [readSkip]
  | succ n ih => simp [readSkip, List.replicate_succ, readU8, ih]

theorem readBytesN_self (l rest : List Nat) :
    readBytesN l.length (l ++ rest) = some (l, rest) := by
  induction l with
  | nil => simp [readBytesN]
  | cons b t ih => simp [readBytesN, readU8, ih]

theorem readPadded_writePadded (count : Nat) (str : DosStr) (rest : List Nat)
    (h : str.length ≤ count) :
    readPadded count str.length (writePadded count str ++ rest) = some (str, rest) := by
  induction count generalizing str with
  | zero =>
    have : str = [] := List.eq_nil_of_length_eq_zero (Nat.le_zero.mp h)
    subst this
    simp [readPadded, writePadded]
  | succ count ih =>
    cases str with
    | nil =>
      have hz : ∀ c, readPadded c 0 (writePadded c [] ++ rest) = some ([], rest) := by
        intro c
        induction c with
        | zero => simp [readPadded, writePadded]
        | succ c ihc => simpa [readPadded, writePadded, readU8] using ihc
      exact hz (count + 1)
    | cons b str =>
      have hlen : str.length ≤ count := by simpa using h
      simp only [writePadded, List.length_cons, readPadded, List.cons_append, readU8,
        Option.bind_eq_bind, Option.some_bind, Nat.add_sub_cancel]
      rw [ih str hlen]
      simp

theorem readKeys_writeKeys (keys : List Bool) (rest : List Nat) :
    readKeys keys.length (writeKeys keys ++ rest) = some (keys, rest) := by
  induction keys with
  | nil => simp [readKeys, writeKeys]
  | cons k t ih =>
    simp only [writeKeys, List.map_cons, List.length_cons, readKeys, List.cons_append,
      readU8, Option.bind_eq_bind, Option.some_bind]
    rw [show writeKeys t = t.map (fun k => if k then 1 else 0) from rfl] at ih
    rw [ih]
    cases k <;> simp

theorem parseFlagNames_writeFlagNames (flags : List DosStr) (rest : List Nat)
    (h : ∀ f ∈ flags, f.length ≤ 20) :
    parseFlagNames flags.length (writeFlagNames flags ++ rest) = some (flags, rest) := by
  induction flags with
  | nil => simp [parseFlagNames, writeFlagNames]
  | cons f t ih =>
    have hf : f.length ≤ 20 := h f (List.mem_cons_self f t)
    have hmod : f.length % 256 = f.length := Nat.mod_eq_of_lt (by omega)
    simp only [writeFlagNames, writeU8, List.length_cons, parseFlagNames, List.cons_append,
      List.nil_append, List.append_assoc, readU8, Option.bind_eq_bind, Option.some_bind, hmod]
    rw [readPadded_writePadded 20 f _ hf]
    simp only [Option.some_bind]
    rw [ih (fun g hg => h g (List.mem_cons_of_mem f hg))]
    simp

/-- Writer-state invariant for the run-length encoder: a change of tile is
never hit while the pending run counter is 0 (that would make `Board::write`
emit a zero-length run, which decodes as 256 tiles). -/
def okRunsB (w : BoardTile) (r : Nat) : List BoardTile → Bool
  | [] => true
  | t :: rest =>
    if t = w then okRunsB w ((r + 1) % 256) rest
    else (decide (r ≠ 0) && okRunsB t 1 rest)

/-- Run condition for a whole tile list (initial encoder state). -/
def boardRunsOk : List BoardTile → Bool
  | [] => true
  | t :: rest => okRunsB t 1 rest

theorem writeTilesLoop_nil (w : BoardTile) (r : Nat) :
    writeTilesLoop [] (some w) r = if 0 < r then writeTileRun w r else some [] := by
  simp [writeTilesLoop]

theorem writeTilesLoop_start (t : BoardTile) (ts : List BoardTile) :
    writeTilesLoop (t :: ts) none 0 = writeTilesLoop ts (some t) 1 := by
  simp only [writeTilesLoop, Option.pure_def, Option.bind_eq_bind, Option.some_bind,
    if_neg (by omega : ¬ (0 + 1 = 256))]
  cases writeTilesLoop ts (some t) 1 <;> simp

theorem writeTilesLoop_same (w : BoardTile) (ts : List BoardTile) (r : Nat)
    (h256 : r + 1 ≠ 256) :
    writeTilesLoop (w :: ts) (some w) r = writeTilesLoop ts (some w) (r + 1) := by
  simp only [writeTilesLoop, ne_eq, not_true_eq_false, reduceIte, Option.pure_def,
    Option.bind_eq_bind, Option.some_bind, if_neg h256]
  cases writeTilesLoop ts (some w) (r + 1) <;> simp

theorem writeTilesLoop_flush256 (w : BoardTile) (ts : List BoardTile) (r : Nat)
    (h256 : r + 1 = 256) :
    writeTilesLoop (w :: ts) (some w) r =
      (writeTilesLoop ts (some w) 0).map
        (fun tail => [0, w.element_id, w.colour] ++ tail) := by
  simp only [writeTilesLoop, ne_eq, not_true_eq_false, reduceIte, Option.pure_def,
    Option.bind_eq_bind, Option.some_bind, if_pos h256, writeTileRun,
    if_neg (by omega : ¬ (256 < 256)), if_pos (rfl : (256 : Nat) = 256)]
  cases writeTilesLoop ts (some w) 0 <;> simp

theorem writeTilesLoop_change (w t : BoardTile) (ts : List BoardTile) (r : Nat)
    (hne : t ≠ w) (hr0 : 0 < r) (hr : r ≤ 255) :
    writeTilesLoop (t :: ts) (some w) r =
      (writeTilesLoop ts (some t) 1).map
        (fun tail => [r, w.element_id, w.colour] ++ tail) := by
  have hne' : w ≠ t := fun h => hne h.symm
  simp only [writeTilesLoop, ne_eq, hne', not_false_eq_true, reduceIte, writeTileRun,
    Option.pure_def, Option.bind_eq_bind, Option.some_bind,
    if_neg (by omega : ¬ (256 < r)), if_neg (by omega : ¬ (r = 256)),
    if_neg (by omega : ¬ (0 + 1 = 256))]
  cases writeTilesLoop ts (some t) 1 <;> simp

theorem readTilesLoop_cons (n b eid col : Nat) (s : List Nat) :
    readTilesLoop (n + 1) (b :: eid :: col :: s) =
      (readTilesLoop (n + 1 - (if b = 0 then 256 else b)) s).bind
        (fun r => some (List.replicate (if b = 0 then 256 else b)
          { element_id := eid, colour := col } ++ r.1, r.2)) := by
  rw [readTilesLoop]
  simp [readU8]

/-- Core round-trip of the run-length encoder against the decoder, carrying
the writer state: pending run of `r` copies of `w` (already `r ≤ 255`), and
the remaining tiles satisfying the run condition. -/
theorem rle_roundtrip (tiles : List BoardTile) :
    ∀ (w : BoardTile) (r : Nat) (out rest : List Nat),
    r ≤ 255 → okRunsB w r tiles = true →
    writeTilesLoop tiles (some w) r = some out →
    readTilesLoop (r + tiles.length) (out ++ rest) =
      some (List.replicate r w ++ tiles, rest) := by
  induction tiles with
  | nil =>
    intro w r out rest hr _ hw
    rw [writeTilesLoop_nil] at hw
    cases r with
    | zero =>
      simp only [if_neg (by omega : ¬ (0 < 0))] at hw
      cases hw
      simp [readTilesLoop]
    | succ r' =>
      simp only [if_pos (Nat.succ_pos r'), writeTileRun, if_neg (by omega : ¬ (256 < r' + 1)),
        if_neg (by omega : ¬ (r' + 1 = 256))] at hw
      cases hw
      simp only [List.length_nil, Nat.add_zero, List.cons_append]
      rw [readTilesLoop_cons]
      simp only [if_neg (by omega : ¬ (r' + 1 = 0)), Nat.sub_self, readTilesLoop,
        Option.bind_eq_bind, Option.some_bind]
      simp
  | cons t ts ih =>
    intro w r out rest hr hok hw
    by_cases ht : t = w
    · subst ht
      simp only [okRunsB, if_pos rfl] at hok
      by_cases h256 : r + 1 = 256
      · rw [writeTilesLoop_flush256 t ts r h256] at hw
        cases htail : writeTilesLoop ts (some t) 0 with
        | none => rw [htail] at hw; cases hw
        | some tail =>
          rw [htail] at hw
          simp only [Option.map_some'] at hw
          cases hw
          have hokts : okRunsB t 0 ts = true := by
            have : (r + 1) % 256 = 0 := by omega
            rwa [this] at hok
          have hread := ih t 0 tail rest (by omega) hokts htail
          have hr255 : r = 255 := by omega
          subst hr255
          have hneed : 255 + (t :: ts).length = (255 + ts.length) + 1 := by
            simp only [List.length_cons]; omega
          rw [hneed]
          simp only [List.cons_append, List.append_assoc]
          rw [readTilesLoop_cons]
          have hsub : 255 + ts.length + 1 - 256 = 0 + ts.length := by omega
          simp only [reduceIte, List.nil_append, hsub, hread]
          simp only [Option.bind_eq_bind, Option.some_bind, List.replicate_zero,
            List.nil_append, Option.some.injEq, Prod.mk.injEq]
          have hrep : List.replicate 256 t ++ ts = List.replicate 255 t ++ (t :: ts) := by
            rw [show (256 : Nat) = 255 + 1 from rfl, List.replicate_succ']
            simp
          simp [hrep]
      · rw [writeTilesLoop_same t ts r h256] at hw
        have hokts : okRunsB t (r + 1) ts = true := by
          have : (r + 1) % 256 = r + 1 := Nat.mod_eq_of_lt (by omega)
          rwa [this] at hok
        have hread := ih t (r + 1) out rest (by omega) hokts hw
        have hneed : r + (t :: ts).length = (r + 1) + ts.length := by
          simp only [List.length_cons]
          omega
        rw [hneed, hread]
        have : List.replicate (r + 1) t ++ ts = List.replicate r t ++ (t :: ts) := by
          rw [List.replicate_succ']
          simp
        rw [this]
    · have hne : ¬ (t = w) := ht
      simp only [okRunsB, if_neg hne, Bool.and_eq_true, decide_eq_true_eq] at hok
      obtain ⟨hr0, hokts⟩ := hok
      rw [writeTilesLoop_change w t ts r hne (by omega) hr] at hw
      cases htail : writeTilesLoop ts (some t) 1 with
      | none => rw [htail] at hw; cases hw
      | some tail =>
        rw [htail] at hw
        simp only [Option.map_some'] at hw
        cases hw
        have hread := ih t 1 tail rest (by omega) hokts htail
        obtain ⟨r', rfl⟩ : ∃ r', r = r' + 1 := ⟨r - 1, by omega⟩
        have hneed : (r' + 1) + (t :: ts).length = (r' + (t :: ts).length) + 1 := by omega
        rw [hneed]
        simp only [List.cons_append, List.append_assoc]
        rw [readTilesLoop_cons]
        have hsub : r' + (t :: ts).length + 1 - (r' + 1) = 1 + ts.length := by
          simp only [List.length_cons]
          omega
        simp only [if_neg (by omega : ¬ (r' + 1 = 0)), List.nil_append, hsub, hread]
        simp [List.replicate_succ]

/-- Round trip of the full tile RLE stage under the run condition. -/
theorem writeTiles_roundtrip (tiles : List BoardTile) (out rest : List Nat)
    (hok : boardRunsOk tiles = true)
    (hw : writeTilesLoop tiles none 0 = some out) :
    readTilesLoop tiles.length (out ++ rest) = some (tiles, rest) := by
  cases tiles with
  | nil =>
    simp only [writeTilesLoop] at hw
    norm_num at hw
    cases hw
    simp [readTilesLoop]
  | cons t ts =>
    rw [writeTilesLoop_start] at hw
    have hokts : okRunsB t 1 ts = true := hok
    have := rle_roundtrip ts t 1 out rest (by omega) hokts hw
    simpa [List.length_cons, Nat.add_comm] using this

theorem i16cast_small (n : Nat) (h : n ≤ 32767) : i16cast n = (n : Int) := by
  unfold i16cast
  have : n % 65536 = n := Nat.mod_eq_of_lt (by omega)
  rw [this, if_pos (by exact_mod_cast Nat.lt_of_le_of_lt h (by norm_num))]

theorem i16range_i16cast (n : Nat) : i16range (i16cast n) = true := by
  unfold i16range i16cast
  have h0 : n % 65536 < 65536 := Nat.mod_lt n (by norm_num)
  split <;> (rename_i hlt) <;> simp <;> omega

theorem i16range_intro (v : Int) (h1 : -32768 ≤ v) (h2 : v < 32768) : i16range v = true := by
  simp [i16range]; omega

theorem i16cast_nonneg_of_le (n : Nat) (h : n ≤ 32767) : ¬ (i16cast n < 0) := by
  rw [i16cast_small n h]
  omega

theorem writePadded_length (count : Nat) (str : DosStr) :
    (writePadded count str).length = count := by
  induction count generalizing str with
  | zero => simp [writePadded]
  | succ c ih =>
    cases str <;> simp [writePadded, ih]

theorem writeI16_length (v : Int) : (writeI16 v).length = 2 := rfl

theorem i16range_elim (v : Int) (h : i16range v = true) : -32768 ≤ v ∧ v < 32768 := by
  simpa [i16range] using h

theorem parseCodeSourcePart_owned (code : DosStr) (rest : List Nat) :
    parseCodeSourcePart (code.length : Int) (code ++ rest) =
      some (CodeSource.owned code, rest) := by
  unfold parseCodeSourcePart
  rw [if_neg (by omega : ¬ ((code.length : Int) < 0))]
  rw [show ((code.length : Int)).toNat = code.length from Int.toNat_natCast _]
  rw [readBytesN_self]

theorem parseCodeSourcePart_bound (idx : Nat) (rest : List Nat)
    (h1 : 1 ≤ idx) (h2 : idx ≤ 32767) :
    parseCodeSourcePart (negI16 (i16cast idx)) rest =
      some (CodeSource.bound idx, rest) := by
  rw [i16cast_small idx h2]
  unfold negI16
  rw [if_neg (by omega : ¬ ((idx : Int) = -32768))]
  unfold parseCodeSourcePart
  rw [if_pos (by omega : (-(idx : Int)) < 0)]
  simp only [Option.some.injEq, Prod.mk.injEq, CodeSource.bound.injEq]
  refine ⟨?_, trivial⟩
  omega

/-- Representation well-formedness of one status element: every `u8` field
fits in a byte, every `i16` field is in range, and the code source fits its
signed 16-bit length field (owned code at most 32767 bytes; bound index
between 1 and 32767). -/
def statusWfB (st : StatusElement) : Bool :=
  decide (st.location_x < 256) && decide (st.location_y < 256) &&
  i16range st.step_x && i16range st.step_y && i16range st.cycle &&
  decide (st.param1 < 256) && decide (st.param2 < 256) && decide (st.param3 < 256) &&
  i16range st.follower && i16range st.leader &&
  decide (st.under_element_id < 256) && decide (st.under_colour < 256) &&
  i16range st.code_current_instruction &&
  (match st.code_source with
   | CodeSource.owned code => decide (code.length ≤ 32767)
   | CodeSource.bound idx => decide (1 ≤ idx) && decide (idx ≤ 32767))

theorem parseStatus_writeStatus (world_type : WorldType) (st : StatusElement)
    (rest : List Nat) (hwf : statusWfB st = true) :
    parseStatusElement world_type (writeStatusElement st world_type ++ rest) =
      some (st, rest) := by
  unfold statusWfB at hwf
  simp only [Bool.and_eq_true, decide_eq_true_eq] at hwf
  obtain ⟨⟨⟨⟨⟨⟨⟨⟨⟨⟨⟨⟨⟨_, _⟩, hsx⟩, hsy⟩, hcy⟩, _⟩, _⟩, _⟩, hfo⟩, hle⟩, _⟩, _⟩, hci⟩, hcode⟩ := hwf
  have hrangecode : i16range (getSaveCodeLength st.code_source) = true := by
    cases hcs : st.code_source with
    | owned code => simp only [getSaveCodeLength]; exact i16range_i16cast _
    | bound idx =>
      rw [hcs] at hcode
      simp only [Bool.and_eq_true, decide_eq_true_eq] at hcode
      simp only [getSaveCodeLength]
      rw [i16cast_small idx hcode.2]
      unfold negI16
      rw [if_neg (by omega : ¬ ((idx : Int) = -32768))]
      apply i16range_intro <;> omega
  simp only [writeStatusElement, writeU8, List.cons_append, List.nil_append,
    List.append_assoc, parseStatusElement, readU8,
    readI16_writeI16, hsx, hsy, hcy, hfo, hle, hci, hrangecode,
    readSkip_replicate]
  cases world_type with
  | zzt =>
    simp only [readSkip_replicate]
    cases hcs : st.code_source with
    | owned code =>
      simp only [hcs, getSaveCodeLength, List.nil_append]
      rw [i16cast_small _ (by rw [hcs] at hcode; simpa using hcode)]
      rw [parseCodeSourcePart_owned]
      simp only [Option.some.injEq, Prod.mk.injEq]
      exact ⟨by rw [← hcs], trivial⟩
    | bound idx =>
      rw [hcs] at hcode
      simp only [Bool.and_eq_true, decide_eq_true_eq] at hcode
      simp only [hcs, getSaveCodeLength, List.nil_append]
      rw [parseCodeSourcePart_bound idx rest hcode.1 hcode.2]
      simp only [Option.some.injEq, Prod.mk.injEq]
      exact ⟨by rw [← hcs], trivial⟩
  | superZzt =>
    simp only [List.nil_append]
    cases hcs : st.code_source with
    | owned code =>
      simp only [hcs, getSaveCodeLength, List.nil_append]
      rw [i16cast_small _ (by rw [hcs] at hcode; simpa using hcode)]
      rw [parseCodeSourcePart_owned]
      simp only [Option.some.injEq, Prod.mk.injEq]
      exact ⟨by rw [← hcs], trivial⟩
    | bound idx =>
      rw [hcs] at hcode
      simp only [Bool.and_eq_true, decide_eq_true_eq] at hcode
      simp only [hcs, getSaveCodeLength, List.nil_append]
      rw [parseCodeSourcePart_bound idx rest hcode.1 hcode.2]
      simp only [Option.some.injEq, Prod.mk.injEq]
      exact ⟨by rw [← hcs], trivial⟩

theorem parseStatusElements_write (world_type : WorldType) (sts : List StatusElement)
    (rest : List Nat) (hwf : sts.all statusWfB = true) :
    parseStatusElements world_type sts.length
      (writeStatusElements world_type sts ++ rest) = some (sts, rest) := by
  induction sts with
  | nil => simp [parseStatusElements, writeStatusElements]
  | cons st sts ih =>
    simp only [List.all_cons, Bool.and_eq_true] at hwf
    simp only [writeStatusElements, List.length_cons, parseStatusElements,
      List.append_assoc, Option.bind_eq_bind]
    rw [parseStatus_writeStatus world_type st _ hwf.1]
    simp only [Option.some_bind]
    rw [ih hwf.2]
    simp

theorem decide_if10_eq_one (f : Bool) :
    (decide ((if f then (1 : Nat) else 0) = 1)) = f := by
  cases f <;> simp

theorem decide_zero_lt_if10 (f : Bool) :
    (decide (0 < (if f then (1 : Nat) else 0))) = f := by
  cases f <;> simp

theorem decide_if01_eq_zero (f : Bool) :
    (decide ((if f then (0 : Nat) else 1) = 0)) = f := by
  cases f <;> simp

theorem parseIsDarkPart_write (d : Bool) (rest : List Nat) :
    parseIsDarkPart WorldType.zzt ((if d then 1 else 0) :: rest) =
      some (d, rest) := by
  cases d <;> simp [parseIsDarkPart, readU8]

theorem parseMessagePart_write (m : DosStr) (rest : List Nat) (hm : m.length ≤ 58) :
    parseMessagePart WorldType.zzt
      ((m.length % 256) :: (writePadded 58 m ++ rest)) = some (some m, rest) := by
  have hmod : m.length % 256 = m.length := Nat.mod_eq_of_lt (by omega)
  simp only [parseMessagePart, readU8, hmod, Option.bind_eq_bind, Option.some_bind]
  rw [readPadded_writePadded 58 m rest hm]
  simp

theorem parseCameraPart_zzt (s : List Nat) :
    parseCameraPart WorldType.zzt s = some (none, s) := rfl

theorem parseCameraPart_szt (v : Int) (rest : List Nat) (hv : i16range v = true) :
    parseCameraPart WorldType.superZzt (writeI16 v ++ rest) = some (some v, rest) := by
  simp only [parseCameraPart, Option.bind_eq_bind]
  rw [readI16_writeI16 v rest hv]
  simp

/-- Representation well-formedness of a board for the given world type:
name and message fit their fixed fields, byte-sized metadata fits a byte,
the tile list satisfies the encoder run condition, fields absent from the
format are absent (ZZT: no camera; Super ZZT: no message, not dark), the
time limit is an `i16`, and every status element is well-formed. -/
def boardWfB (b : Board) (world_type : WorldType) : Bool :=
  decide (b.meta_data.board_name.length ≤
    (match world_type with
     | WorldType.zzt => 50
     | WorldType.superZzt => 60)) &&
  boardRunsOk b.tiles &&
  decide (b.meta_data.max_player_shots < 256) &&
  decide (b.meta_data.exit_north < 256) &&
  decide (b.meta_data.exit_south < 256) &&
  decide (b.meta_data.exit_west < 256) &&
  decide (b.meta_data.exit_east < 256) &&
  decide (b.meta_data.player_enter_x < 256) &&
  decide (b.meta_data.player_enter_y < 256) &&
  (match world_type, b.meta_data.message with
   | WorldType.zzt, some m => decide (m.length ≤ 58)
   | WorldType.superZzt, none => true
   | _, _ => false) &&
  (match world_type, b.meta_data.camera_x, b.meta_data.camera_y with
   | WorldType.zzt, none, none => true
   | WorldType.superZzt, some cx, some cy => i16range cx && i16range cy
   | _, _, _ => false) &&
  (match world_type with
   | WorldType.zzt => true
   | WorldType.superZzt => !b.meta_data.is_dark) &&
  i16range b.meta_data.time_limit &&
  b.status_elements.all statusWfB

/-- Round trip of one board: writing a well-formed board whose body is at
most 32767 bytes and parsing it back yields the identical board. -/
theorem parseBoard_writeBoard (b : Board) (out rest : List Nat)
    (hwf : boardWfB b WorldType.zzt = true)
    (hsize : ∀ ib, writeBoardInner b WorldType.zzt = some ib → ib.length ≤ 32767)
    (hw : writeBoard b WorldType.zzt = some out) :
    parseBoard WorldType.zzt (out ++ rest) = some (b, rest) := by
  unfold boardWfB at hwf
  simp only [Bool.and_eq_true, decide_eq_true_eq] at hwf
  obtain ⟨⟨⟨⟨⟨⟨⟨⟨⟨⟨⟨⟨⟨hname, hruns⟩, _⟩, _⟩, _⟩, _⟩, _⟩, _⟩, _⟩, hmsg⟩, hcam⟩, _⟩,
    htime⟩, hstwf⟩ := hwf
  -- Open up the successful writer run.
  unfold writeBoard at hw
  cases hinner : writeBoardInner b WorldType.zzt with
  | none => rw [hinner] at hw; cases hw
  | some inner =>
    rw [hinner] at hw
    simp only [Option.bind_eq_bind, Option.some_bind] at hw
    have hslen : b.status_elements.length ≤ 32767 := by
      by_contra hcon
      rw [if_neg hcon] at hw
      cases hw
    rw [if_pos hslen] at hw
    simp only [Option.pure_def, Option.some.injEq] at hw
    subst hw
    have hlenb := hsize inner hinner
    -- Decompose the successful body build.
    unfold writeBoardInner at hinner
    by_cases htc : b.tiles.length = 60 * 25
    swap
    · rw [if_neg (by simpa using htc)] at hinner; cases hinner
    rw [if_pos (by simpa using htc)] at hinner
    simp only [Option.bind_eq_bind] at hinner
    cases hrle : writeTilesLoop b.tiles none 0 with
    | none => rw [hrle] at hinner; cases hinner
    | some rle =>
      rw [hrle] at hinner
      simp only [Option.some_bind] at hinner
      cases hm : b.meta_data.message with
      | none => simp [hm] at hmsg
      | some msg =>
        rw [hm] at hinner
        simp only [Option.pure_def, Option.bind_eq_bind, Option.some_bind] at hinner
        have hst1 : 1 ≤ b.status_elements.length ∧ b.status_elements.length ≤ 32767 := by
          by_contra hcon
          rw [if_neg hcon] at hinner
          cases hinner
        rw [if_pos hst1] at hinner
        simp only [Option.some.injEq] at hinner
        -- Generalise the body length so the size guard stays readable after
        -- the body is expanded in the stream position.
        obtain ⟨n, hn⟩ : ∃ m, inner.length = m := ⟨_, rfl⟩
        rw [hn]
        rw [hn] at hlenb
        have hnn : ¬ (i16cast n < 0) := i16cast_nonneg_of_le n hlenb
        subst hinner
        -- The parse now proceeds byte for byte.
        rw [hm] at hmsg
        have hnamemod : b.meta_data.board_name.length % 256 =
            b.meta_data.board_name.length := Nat.mod_eq_of_lt (by omega)
        have hreadtiles : ∀ r, readTilesLoop b.tiles.length (rle ++ r) =
            some (b.tiles, r) := fun r => writeTiles_roundtrip b.tiles rle r hruns hrle
        have hcount : ((((b.status_elements.length - 1 : Nat) : Int)) + 1).toNat =
            b.status_elements.length := by omega
        simp only [decide_eq_true_eq] at hmsg
        have hcamxy : b.meta_data.camera_x = none ∧ b.meta_data.camera_y = none := by
          cases h1 : b.meta_data.camera_x with
          | none =>
            cases h2 : b.meta_data.camera_y with
            | none => exact ⟨rfl, rfl⟩
            | some cy => rw [h1, h2] at hcam; simp at hcam
          | some cx =>
            rw [h1] at hcam
            cases h2 : b.meta_data.camera_y <;> rw [h2] at hcam <;> simp at hcam
        obtain ⟨hcx, hcy⟩ := hcamxy
        have hc1 : i16cast (b.status_elements.length - 1) =
            ((b.status_elements.length - 1 : Nat) : Int) :=
          i16cast_small _ (by omega)
        unfold parseBoard
        simp only [List.append_assoc, writeU8, List.cons_append, List.nil_append,
          readI16_writeI16, i16range_i16cast, readU8, hnamemod,
          readPadded_writePadded, hname, readSkip_replicate]
        rw [if_neg hnn]
        rw [← htc, hreadtiles]
        have hrange2 : i16range (((b.status_elements.length - 1 : Nat) : Int)) = true :=
          i16range_intro _ (by omega) (by omega)
        simp only [readU8, parseIsDarkPart_write, parseMessagePart_write _ _ hmsg,
          parseCameraPart_zzt, readI16_writeI16 _ _ htime, readSkip_replicate,
          readI16_writeI16 _ _ hrange2, hc1, hcount,
          parseStatusElements_write _ _ _ hstwf, decide_if10_eq_one,
          Option.some.injEq, Prod.mk.injEq]
        obtain ⟨btiles, bsts, bmd⟩ := b
        obtain ⟨bname, bshots, bdark, ben, bes, bew, bee, brz, bmsgf, bpx, bpy,
          bcx, bcy, btl⟩ := bmd
        dsimp only at hm hcx hcy
        subst hm hcx hcy
        simp

theorem parseTorchesPart_zzt (pt tc : Int) (rest : List Nat)
    (h1 : i16range pt = true) (h2 : i16range tc = true) :
    parseTorchesPart WorldType.zzt (writeI16 pt ++ (writeI16 tc ++ rest)) =
      some ((some pt, some tc), rest) := by
  simp only [parseTorchesPart, Option.bind_eq_bind]
  rw [readI16_writeI16 _ _ h1]
  simp only [Option.some_bind]
  rw [readI16_writeI16 _ _ h2]
  simp

theorem parseEnergyScorePart_zzt (e sc : Int) (rest : List Nat)
    (h1 : i16range e = true) (h2 : i16range sc = true) :
    parseEnergyScorePart WorldType.zzt
      (writeI16 e ++ (writeI16 0 ++ (writeI16 sc ++ rest))) =
      some ((e, sc), rest) := by
  simp only [parseEnergyScorePart, Option.bind_eq_bind]
  rw [readI16_writeI16 _ _ h1]
  simp only [Option.some_bind]
  rw [readI16_writeI16 0 _ (by decide)]
  simp only [Option.some_bind]
  rw [readI16_writeI16 _ _ h2]
  simp

theorem parseStonesPart_zzt (rest : List Nat) :
    parseStonesPart WorldType.zzt (List.replicate 14 0 ++ rest) =
      some (none, rest) := by
  simp only [parseStonesPart, Option.bind_eq_bind]
  rw [readSkip_replicate]
  simp

theorem writeFlagNames_length (fs : List DosStr) :
    (writeFlagNames fs).length = 21 * fs.length := by
  induction fs with
  | nil => simp [writeFlagNames]
  | cons f t ih =>
    simp only [writeFlagNames, writeU8, List.length_append, List.length_cons,
      List.length_nil, writePadded_length, ih]
    omega

/-- Representation well-formedness of a ZZT-type world header: every `i16`
field is in range, the fields the ZZT variant requires are present
(torches) or absent (stones), and the name strings fit their padded
fields. -/
def headerWfB (wh : WorldHeader) : Bool :=
  (match wh.world_type with
   | WorldType.zzt => true
   | WorldType.superZzt => false) &&
  i16range wh.num_boards_except_title &&
  i16range wh.player_ammo &&
  i16range wh.player_gems &&
  decide (wh.player_keys.length = 7) &&
  i16range wh.player_health &&
  i16range wh.player_board &&
  (match wh.player_torches with
   | some pt => i16range pt
   | none => false) &&
  (match wh.torch_cycles with
   | some tc => i16range tc
   | none => false) &&
  i16range wh.energy_cycles &&
  i16range wh.player_score &&
  decide (wh.world_name.length ≤ 20) &&
  wh.flag_names.all (fun f => decide (f.length ≤ 20)) &&
  i16range wh.time_passed &&
  i16range wh.time_passed_ticks &&
  (match wh.player_stones with
   | none => true
   | some _ => false)

/-- Round trip of the world header: writing a well-formed ZZT header and
parsing it back yields the identical header and leaves the rest of the
stream untouched. -/
theorem parseWorldHeader_write (wh : WorldHeader) (out rest : List Nat)
    (hwf : headerWfB wh = true)
    (hw : writeWorldHeader wh = some out) :
    parseWorldHeader (out ++ rest) = some (wh, rest) := by
  unfold headerWfB at hwf
  simp only [Bool.and_eq_true, decide_eq_true_eq] at hwf
  obtain ⟨⟨⟨⟨⟨⟨⟨⟨⟨⟨⟨⟨⟨⟨⟨hty, hnum⟩, hammo⟩, hgems⟩, hkeys⟩, hhealth⟩, hboard⟩,
    htorch⟩, htcyc⟩, hecyc⟩, hscore⟩, hnm⟩, hfl⟩, htp⟩, htpt⟩, hstones⟩ := hwf
  cases hwt : wh.world_type with
  | superZzt => rw [hwt] at hty; simp at hty
  | zzt =>
  have hstones2 : wh.player_stones = none := by
    cases hs : wh.player_stones
    · rfl
    · rw [hs] at hstones; simp at hstones
  unfold writeWorldHeader at hw
  simp only [hwt, Option.bind_eq_bind, Option.pure_def] at hw
  cases hpt : wh.player_torches with
  | none => simp [hpt] at hw
  | some pt =>
  cases htc2 : wh.torch_cycles with
  | none => simp [hpt, htc2] at hw
  | some tc =>
  rw [hpt] at htorch
  rw [htc2] at htcyc
  simp only [hpt, htc2, Option.some_bind] at hw
  by_cases hf10 : wh.flag_names.length = 10
  swap
  · rw [if_neg hf10] at hw; simp at hw
  rw [if_pos hf10] at hw
  simp only [Option.some_bind, Option.some.injEq] at hw
  subst hw
  have hnamemod : wh.world_name.length % 256 = wh.world_name.length :=
    Nat.mod_eq_of_lt (by omega)
  have hkeysRT : ∀ r, readKeys 7 (writeKeys wh.player_keys ++ r) =
      some (wh.player_keys, r) := by
    intro r
    rw [← hkeys]
    exact readKeys_writeKeys _ r
  have hflag20 : ∀ f ∈ wh.flag_names, f.length ≤ 20 := by
    intro f hfm
    have h := List.all_eq_true.mp hfl f hfm
    simpa using h
  have hflagsRT : ∀ r, parseFlagNames 10 (writeFlagNames wh.flag_names ++ r) =
      some (wh.flag_names, r) := by
    intro r
    rw [← hf10]
    exact parseFlagNames_writeFlagNames _ r hflag20
  have hm1 : i16range (-1 : Int) = true := by decide
  unfold parseWorldHeader
  simp only [List.append_assoc, readI16_writeI16 _ _ hm1, readI16_writeI16 _ _ hnum,
    readI16_writeI16 _ _ hammo, readI16_writeI16 _ _ hgems, hkeysRT,
    readI16_writeI16 _ _ hhealth, readI16_writeI16 _ _ hboard,
    parseTorchesPart_zzt _ _ _ htorch htcyc,
    parseEnergyScorePart_zzt _ _ _ hecyc hscore,
    writeU8, List.cons_append, List.nil_append, readU8, hnamemod,
    readPadded_writePadded _ _ _ hnm, hflagsRT,
    readI16_writeI16 _ _ htp, readI16_writeI16 _ _ htpt,
    parseStonesPart_zzt, decide_if01_eq_zero, reduceIte,
    Option.some.injEq, Prod.mk.injEq]
  obtain ⟨wty, wnum, wammo, wgems, wkeys, whealth, wboard, wpt, wtc, wec, wsc,
    wname, wflags, wtpv, wtptv, wlocked, wstones⟩ := wh
  dsimp only at hwt hpt htc2 hstones2
  subst hwt hpt htc2 hstones2
  simp

theorem headerWfB_zzt (wh : WorldHeader) (h : headerWfB wh = true) :
    wh.world_type = WorldType.zzt := by
  unfold headerWfB at h
  simp only [Bool.and_eq_true] at h
  have h1 := h.1.1.1.1.1.1.1.1.1.1.1.1.1.1.1
  cases hwt : wh.world_type
  · rfl
  · rw [hwt] at h1; simp at h1

/-- Writing a well-formed ZZT header always produces exactly 279 bytes. -/
theorem writeWorldHeader_length (wh : WorldHeader) (out : List Nat)
    (hwf : headerWfB wh = true)
    (hw : writeWorldHeader wh = some out) : out.length = 279 := by
  have hz : wh.world_type = WorldType.zzt := headerWfB_zzt wh hwf
  unfold headerWfB at hwf
  simp only [Bool.and_eq_true, decide_eq_true_eq] at hwf
  have hkeys : wh.player_keys.length = 7 := hwf.1.1.1.1.1.1.1.1.1.1.1.2
  unfold writeWorldHeader at hw
  simp only [hz, Option.bind_eq_bind, Option.pure_def] at hw
  cases hpt : wh.player_torches with
  | none => simp [hpt] at hw
  | some pt =>
  cases htc : wh.torch_cycles with
  | none => simp [hpt, htc] at hw
  | some tc =>
  simp only [hpt, htc, Option.some_bind] at hw
  by_cases hf10 : wh.flag_names.length = 10
  swap
  · rw [if_neg hf10] at hw; simp at hw
  rw [if_pos hf10] at hw
  simp only [Option.some.injEq] at hw
  subst hw
  simp only [List.length_append, writeI16_length, writeU8, List.length_cons,
    List.length_nil, writePadded_length, writeFlagNames_length,
    List.length_replicate, writeKeys, List.length_map, hf10, hkeys]

/-- The board write loop round-trips against the board parse loop, for any
trailing bytes (the parse loop never looks past its boards). -/
theorem parseBoards_writeBoards (bs : List Board) : ∀ (out rest : List Nat),
    bs.all (fun b => boardWfB b WorldType.zzt) = true →
    bs.all (fun b =>
      match writeBoardInner b WorldType.zzt with
      | some ib => decide (ib.length ≤ 32767)
      | none => true) = true →
    writeBoards WorldType.zzt bs = some out →
    parseBoards WorldType.zzt bs.length (out ++ rest) = some bs := by
  induction bs with
  | nil =>
    intro out rest _ _ hw
    simp only [writeBoards, Option.some.injEq] at hw
    subst hw
    simp [parseBoards]
  | cons b t ih =>
    intro out rest hwf hsz hw
    simp only [List.all_cons, Bool.and_eq_true] at hwf hsz
    simp only [writeBoards, Option.bind_eq_bind] at hw
    cases hwb : writeBoard b WorldType.zzt with
    | none => rw [hwb] at hw; simp at hw
    | some bout =>
    rw [hwb] at hw
    simp only [Option.some_bind] at hw
    cases hwt : writeBoards WorldType.zzt t with
    | none => rw [hwt] at hw; simp at hw
    | some tout =>
    rw [hwt] at hw
    simp only [Option.some_bind, Option.pure_def, Option.some.injEq] at hw
    subst hw
    have hb : ∀ ib, writeBoardInner b WorldType.zzt = some ib →
        ib.length ≤ 32767 := by
      intro ib hib
      have h := hsz.1
      rw [hib] at h
      simpa using h
    simp only [List.length_cons, parseBoards, List.append_assoc, Option.bind_eq_bind]
    rw [parseBoard_writeBoard b bout _ hwf.1 hb hwb]
    simp only [Option.some_bind]
    rw [ih tout rest hwf.2 hsz.2 hwt]
    simp

/-- Representation well-formedness of a whole ZZT world: a well-formed
header, at least one board, a board count matching the header field, and
well-formed boards whose bodies fit in the `i16` size prefix. -/
def worldWfB (w : World) : Bool :=
  headerWfB w.world_header &&
  decide (1 ≤ w.boards.length) &&
  decide (w.world_header.num_boards_except_title = (w.boards.length : Int) - 1) &&
  w.boards.all (fun b => boardWfB b WorldType.zzt) &&
  w.boards.all (fun b =>
    match writeBoardInner b WorldType.zzt with
    | some ib => decide (ib.length ≤ 32767)
    | none => true)

/-- C1 (amended): for a representation-well-formed ZZT world (name strings
within their padded capacities, run-length condition on every tile grid,
`i16` fields in range, board count matching the header, board bodies within
the `i16` size prefix), writing the world and parsing the bytes back yields
the identical world, field for field. -/
theorem c1_roundtrip (w : World) (out : List Nat)
    (hwf : worldWfB w = true)
    (hw : World.write w = some out) :
    World.parse out = some w := by
  unfold worldWfB at hwf
  simp only [Bool.and_eq_true, decide_eq_true_eq] at hwf
  obtain ⟨⟨⟨⟨hh, hb1⟩, hnb⟩, hbwf⟩, hbsz⟩ := hwf
  have hzzt : w.world_header.world_type = WorldType.zzt := headerWfB_zzt _ hh
  unfold World.write at hw
  cases hwh : writeWorldHeader w.world_header with
  | none => rw [hwh] at hw; simp at hw
  | some hbuf =>
  rw [hwh] at hw
  simp only [Option.bind_eq_bind, Option.some_bind] at hw
  cases hwb : writeBoards w.world_header.world_type w.boards with
  | none => rw [hwb] at hw; simp at hw
  | some bbs =>
  rw [hwb] at hw
  simp only [Option.some_bind, Option.pure_def, Option.some.injEq] at hw
  subst hw
  rw [hzzt] at hwb
  have hlen : hbuf.length = 279 := writeWorldHeader_length _ _ hh hwh
  have hdropgen : ∀ (l2 l1 : List Nat), l1.length = 0x200 →
      (l1 ++ l2).drop 0x200 = l2 := by
    intro l2 l1 h
    rw [← h, List.drop_left]
  unfold World.parse
  rw [List.append_assoc]
  simp only [Option.bind_eq_bind]
  rw [parseWorldHeader_write w.world_header _ _ hh hwh]
  simp only [Option.some_bind]
  rw [← List.append_assoc]
  rw [hzzt]
  simp only [boardOffset]
  rw [hdropgen bbs _ (by
    simp only [List.length_append, List.length_replicate, hlen, hzzt, boardOffset])]
  rw [hnb]
  have hcnt : (((w.boards.length : Int) - 1) + 1).toNat = w.boards.length := by omega
  rw [hcnt]
  have hpb := parseBoards_writeBoards w.boards bbs [] hbwf hbsz hwb
  rw [List.append_nil] at hpb
  rw [hpb]
  rfl

/-- A world the serializer writes without error but whose parse does not
return it: `World::write` truncates the 21-byte world name to the header's
20-byte padded name field, so the reparsed world carries a different name.
(`num_boards_except_title = -1` with no boards keeps the example small;
the board list round-trips, only the name does not.) -/
def c1CexWorld : World where
  world_header :=
    { WorldHeader.zzt_default with
        world_name := List.replicate 21 65
        num_boards_except_title := -1 }
  boards := []

/-- C1 counterexample: the serializer accepts `c1CexWorld` but parsing the
written bytes does not give `c1CexWorld` back, refuting the unconditional
round-trip claim. -/
theorem c1_counterexample :
    (World.write c1CexWorld).isSome = true ∧
    (World.write c1CexWorld).bind World.parse ≠ some c1CexWorld := by
  decide

theorem okRunsB_replicate (w : BoardTile) (n : Nat) :
    ∀ r, okRunsB w r (List.replicate n w) = true := by
  induction n with
  | zero => intro r; simp [okRunsB]
  | succ n ih => intro r; simp [okRunsB, List.replicate_succ, ih]

theorem boardRunsOk_replicate (w : BoardTile) (n : Nat) :
    boardRunsOk (List.replicate n w) = true := by
  cases n with
  | zero => rfl
  | succ n => simp [List.replicate_succ, boardRunsOk, okRunsB_replicate]

/-- The run-length encoder always succeeds on a constant tile list and
writes at most one three-byte run per 255 tiles (bounded here simply by
`3 * n + 3`). -/
theorem writeTilesLoop_replicate_some (w : BoardTile) :
    ∀ (n r : Nat), r ≤ 255 →
    ∃ out, writeTilesLoop (List.replicate n w) (some w) r = some out ∧
      out.length ≤ 3 * n + 3 := by
  intro n
  induction n with
  | zero =>
    intro r hr
    rw [List.replicate_zero, writeTilesLoop_nil]
    by_cases h0 : 0 < r
    · rw [if_pos h0]
      refine ⟨[r, w.element_id, w.colour], ?_, by simp⟩
      unfold writeTileRun
      rw [if_neg (by omega), if_neg (by omega)]
    · rw [if_neg h0]
      exact ⟨[], rfl, by simp⟩
  | succ n ih =>
    intro r hr
    rw [List.replicate_succ]
    by_cases h256 : r + 1 = 256
    · rw [writeTilesLoop_flush256 w _ r h256]
      obtain ⟨out, hout, hlen⟩ := ih 0 (by omega)
      rw [hout]
      exact ⟨_, rfl, by simp only [Option.map_some', List.cons_append,
        List.nil_append, List.length_cons]; omega⟩
    · rw [writeTilesLoop_same w _ r h256]
      obtain ⟨out, hout, hlen⟩ := ih (r + 1) (by omega)
      exact ⟨out, hout, by omega⟩

theorem writeTiles_replicate_some (w : BoardTile) (n : Nat) (h : 1 ≤ n) :
    ∃ out, writeTilesLoop (List.replicate n w) none 0 = some out ∧
      out.length ≤ 3 * n := by
  obtain ⟨m, rfl⟩ : ∃ m, n = m + 1 := ⟨n - 1, by omega⟩
  rw [List.replicate_succ, writeTilesLoop_start]
  obtain ⟨out, hout, hlen⟩ := writeTilesLoop_replicate_some w m 1 (by omega)
  exact ⟨out, hout, by omega⟩

/-- A small well-formed world used to witness the amended round trip: the
default header and one blank board with a single default status. -/
def c1WitBoard : Board where
  tiles := List.replicate 1500 { element_id := 0, colour := 0 }
  status_elements := [StatusElement.default]
  meta_data := { BoardMetaData.default with message := some [] }

def c1WitWorld : World where
  world_header := WorldHeader.zzt_default
  boards := [c1WitBoard]

/-- The bytes the writer produces for the witness world. -/
def c1WitBytes : List Nat := (World.write c1WitWorld).getD []

theorem option_eq_some_getD {α : Type} (o : Option α) (d : α)
    (h : o.isSome = true) : o = some (o.getD d) := by
  cases o
  · cases h
  · rfl

theorem c1Wit_inner : ∃ ib, writeBoardInner c1WitBoard WorldType.zzt = some ib ∧
    ib.length ≤ 32767 := by
  obtain ⟨rle, hrle, hlen⟩ :=
    writeTiles_replicate_some { element_id := 0, colour := 0 } 1500 (by omega)
  have hst : (writeStatusElements WorldType.zzt c1WitBoard.status_elements).length ≤
      100 := by decide
  unfold writeBoardInner
  rw [show c1WitBoard.tiles =
    List.replicate 1500 { element_id := 0, colour := 0 } from rfl]
  simp only [List.length_replicate, Option.bind_eq_bind]
  rw [if_pos (by norm_num)]
  rw [hrle]
  simp only [Option.some_bind]
  rw [show c1WitBoard.meta_data.message = some ([] : DosStr) from rfl]
  simp only [Option.some_bind, Option.pure_def]
  rw [if_pos (by decide : 1 ≤ c1WitBoard.status_elements.length ∧
    c1WitBoard.status_elements.length ≤ 32767)]
  refine ⟨_, rfl, ?_⟩
  simp only [List.length_append, writeU8, List.length_cons, List.length_nil,
    writePadded_length, writeI16_length, List.length_replicate]
  omega

theorem c1Wit_write_eq : World.write c1WitWorld = some c1WitBytes := by
  apply option_eq_some_getD
  obtain ⟨ib, hib, _⟩ := c1Wit_inner
  have hwh := option_eq_some_getD (writeWorldHeader WorldHeader.zzt_default) []
    (by decide)
  unfold World.write
  rw [show c1WitWorld.world_header = WorldHeader.zzt_default from rfl, hwh]
  simp only [Option.bind_eq_bind, Option.some_bind]
  rw [show (WorldHeader.zzt_default).world_type = WorldType.zzt from rfl,
    show c1WitWorld.boards = [c1WitBoard] from rfl]
  unfold writeBoards writeBoards writeBoard
  rw [hib]
  simp only [Option.bind_eq_bind, Option.some_bind]
  rw [if_pos (by decide : c1WitBoard.status_elements.length ≤ 32767)]
  simp

theorem c1WitBoard_wf : boardWfB c1WitBoard WorldType.zzt = true := by
  unfold boardWfB
  rw [show c1WitBoard.tiles =
    List.replicate 1500 { element_id := 0, colour := 0 } from rfl,
    boardRunsOk_replicate]
  decide

theorem c1WitWorld_wf : worldWfB c1WitWorld = true := by
  obtain ⟨ib, hib, hbnd⟩ := c1Wit_inner
  unfold worldWfB
  rw [show c1WitWorld.boards = [c1WitBoard] from rfl]
  simp only [List.all_cons, List.all_nil, Bool.and_true, hib, c1WitBoard_wf,
    decide_eq_true hbnd]
  decide

theorem c1_roundtrip_witness :
    worldWfB c1WitWorld = true ∧ World.parse c1WitBytes = some c1WitWorld :=
  ⟨c1WitWorld_wf, c1_roundtrip c1WitWorld c1WitBytes c1WitWorld_wf c1Wit_write_eq⟩

/-! ## The OOP script parser (`oop_parser.rs`) -/

/-- `OopOperator` from `oop_parser.rs`. -/
inductive OopOperator where
  | name
  | move
  | tryMove
  | label
  | comment
  | command
  | text
  | eof
deriving DecidableEq, Repr

/-- The number of bytes `read_to_end_of_line` advances over: the count of
leading bytes before the first carriage return. -/
def scanToCR : List Nat → Nat
  | [] => 0
  | c :: rest => if c = 13 then 0 else scanToCR rest + 1

/-- The cursor after `OopParser::read_to_end_of_line` starting at `pos`
(the cursor stays on the `\r`, or at the end of the code). Inside
`find_label` the cursor starts at 0 and only ever advances, so positions
are naturals here. -/
def readToEOLPos (code : DosStr) (pos : Nat) : Nat := pos + scanToCR (code.drop pos)

/-- The cursor after `OopParser::skip_new_line`. -/
def skipNewLinePos (code : DosStr) (pos : Nat) : Nat :=
  match code[pos]? with
  | some c => if c = 13 then pos + 1 else pos
  | none => pos

/-- `OopParser::parse_operator` as a function of the cursor: the operator
read and the new cursor (the cursor advances past a recognised operator
character, and stays put for `Text` and `Eof`). -/
def parseOperatorAt (code : DosStr) (pos : Nat) : OopOperator × Nat :=
  if code.length ≤ pos then (OopOperator.eof, pos)
  else if pos = code.length - 1 ∧ code.getD pos 0 = 13 then (OopOperator.eof, pos)
  else
    let c := code.getD pos 0
    if c = 64 then (OopOperator.name, pos + 1)
    else if c = 47 then (OopOperator.move, pos + 1)
    else if c = 63 then (OopOperator.tryMove, pos + 1)
    else if c = 58 then (OopOperator.label, pos + 1)
    else if c = 39 then (OopOperator.comment, pos + 1)
    else if c = 35 then (OopOperator.command, pos + 1)
    else (OopOperator.text, pos)

/-- The inner matching loop of `OopParser::find_label`: the final value of
`current_index`. The source checks `parser.pos < parser.code.len()` (the
fixed label start, not the moving read index) and indexes
`code[pos + current_index]` unchecked; an out-of-range read (a panic in the
source) is modelled as byte 0, which matches no letter. -/
def labelMatchLen (code : DosStr) (pos : Nat) : List Nat → Nat → Nat
  | [], ci => ci
  | f :: fr, ci =>
    if pos < code.length ∧ lowerByte f = lowerByte (code.getD (pos + ci) 0) then
      labelMatchLen code pos fr (ci + 1)
    else ci

/-- Whether `char_after` blocks a label match in `find_label`
(a letter or an underscore). -/
def labelBlockChar (ca : Nat) : Bool :=
  (65 ≤ ca ∧ ca ≤ 90) ∨ (97 ≤ ca ∧ ca ≤ 122) ∨ ca = 95

mutual

/-- The `while parser.pos < parser.code.len()` loop of
`OopParser::find_label`, with fuel for the loop (each iteration advances
the cursor, and `find_label` supplies `code.length + 1` fuel). Each
iteration first reads to the end of the current line and skips the newline,
and only then examines an operator (`findLabelCheck`). -/
def findLabelLoop (lbl code : DosStr) : Nat → Nat → Option Int
  | 0, _ => none
  | fuel + 1, pos =>
    if pos < code.length then
      findLabelCheck lbl code fuel (skipNewLinePos code (readToEOLPos code pos))
    else none
termination_by f p => 2 * f
decreasing_by all_goals omega

/-- The operator examination inside one `find_label` loop iteration: on a
`Label` operator, run the matching loop; a blocked or failed match falls
back into the loop, a successful one reads to the end of the line and
returns that cursor. -/
def findLabelCheck (lbl code : DosStr) (fuel : Nat) (pos2 : Nat) : Option Int :=
  match parseOperatorAt code pos2 with
  | (OopOperator.label, pos3) =>
    let ci := labelMatchLen code pos3 lbl 0
    if ci = lbl.length then
      if labelBlockChar (code.getD (pos3 + ci) 0) then
        findLabelLoop lbl code fuel pos3
      else
        some ((readToEOLPos code pos3 : Nat) : Int)
    else
      findLabelLoop lbl code fuel pos3
  | (_, pos3) => findLabelLoop lbl code fuel pos3
termination_by 2 * fuel + 1
decreasing_by all_goals omega

end

/-- `OopParser::find_label` from `oop_parser.rs` lines 1433-1474: the
special `restart` label is position 0; otherwise the loop body reads to the
end of the current line and skips the newline before examining each line's
operator. -/
def findLabel (code label_to_find : DosStr) : Option Int :=
  if label_to_find = bytes ("restart") then some 0
  else findLabelLoop label_to_find code (code.length + 1) 0

theorem drop_eq_of_drop_eq (c1 c2 : List Nat) (k p : Nat) (hk : k ≤ p)
    (hdrop : c1.drop k = c2.drop k) : c1.drop p = c2.drop p := by
  have h1 : c1.drop p = (c1.drop k).drop (p - k) := by
    rw [List.drop_drop]
    congr 1
    omega
  have h2 : c2.drop p = (c2.drop k).drop (p - k) := by
    rw [List.drop_drop]
    congr 1
    omega
  rw [h1, h2, hdrop]

theorem getElem?_eq_of_drop_eq (c1 c2 : List Nat) (k p : Nat) (hk : k ≤ p)
    (hdrop : c1.drop k = c2.drop k) : c1[p]? = c2[p]? := by
  have h := drop_eq_of_drop_eq c1 c2 k p hk hdrop
  have e1 : c1[p]? = (c1.drop p)[0]? := by rw [List.getElem?_drop, Nat.add_zero]
  have e2 : c2[p]? = (c2.drop p)[0]? := by rw [List.getElem?_drop, Nat.add_zero]
  rw [e1, e2, h]

theorem getD_eq_of_drop_eq (c1 c2 : List Nat) (k p d : Nat) (hk : k ≤ p)
    (hdrop : c1.drop k = c2.drop k) : c1.getD p d = c2.getD p d := by
  rw [List.getD_eq_getElem?_getD, List.getD_eq_getElem?_getD,
    getElem?_eq_of_drop_eq c1 c2 k p hk hdrop]

theorem le_readToEOLPos (code : DosStr) (pos : Nat) : pos ≤ readToEOLPos code pos := by
  unfold readToEOLPos
  omega

theorem le_skipNewLinePos (code : DosStr) (pos : Nat) :
    pos ≤ skipNewLinePos code pos := by
  unfold skipNewLinePos
  split
  · split <;> omega
  · omega

theorem parseOperatorAt_pos_le (code : DosStr) (pos : Nat) :
    pos ≤ (parseOperatorAt code pos).2 := by
  unfold parseOperatorAt
  split_ifs <;> simp only [apply_ite (Prod.snd)] <;> first
    | omega
    | (split_ifs <;> simp)

theorem readToEOLPos_congr (c1 c2 : DosStr) (k pos : Nat) (hk : k ≤ pos)
    (hdrop : c1.drop k = c2.drop k) :
    readToEOLPos c1 pos = readToEOLPos c2 pos := by
  unfold readToEOLPos
  rw [drop_eq_of_drop_eq c1 c2 k pos hk hdrop]

theorem skipNewLinePos_congr (c1 c2 : DosStr) (k pos : Nat) (hk : k ≤ pos)
    (hdrop : c1.drop k = c2.drop k) :
    skipNewLinePos c1 pos = skipNewLinePos c2 pos := by
  unfold skipNewLinePos
  rw [getElem?_eq_of_drop_eq c1 c2 k pos hk hdrop]

theorem parseOperatorAt_congr (c1 c2 : DosStr) (k pos : Nat) (hk : k ≤ pos)
    (hlen : c1.length = c2.length) (hdrop : c1.drop k = c2.drop k) :
    parseOperatorAt c1 pos = parseOperatorAt c2 pos := by
  unfold parseOperatorAt
  rw [hlen, getD_eq_of_drop_eq c1 c2 k pos 0 hk hdrop]

theorem labelMatchLen_congr (c1 c2 : DosStr) (k pos : Nat) (hk : k ≤ pos)
    (hlen : c1.length = c2.length) (hdrop : c1.drop k = c2.drop k) :
    ∀ (l : List Nat) (ci : Nat),
      labelMatchLen c1 pos l ci = labelMatchLen c2 pos l ci := by
  intro l
  induction l with
  | nil => intro ci; rfl
  | cons f fr ih =>
    intro ci
    unfold labelMatchLen
    rw [hlen, getD_eq_of_drop_eq c1 c2 k (pos + ci) 0 (by omega) hdrop]
    split
    · exact ih (ci + 1)
    · rfl

/-- `findLabelCheck` only reads the code at or after its cursor, so it is
the same on two codes of equal length that agree from index `k` on,
provided the surrounding loop behaves the same. -/
theorem findLabelCheck_congr (lbl c1 c2 : DosStr) (k fuel : Nat)
    (hlen : c1.length = c2.length) (hdrop : c1.drop k = c2.drop k)
    (hloop : ∀ pos, k ≤ pos →
      findLabelLoop lbl c1 fuel pos = findLabelLoop lbl c2 fuel pos) :
    ∀ pos, k ≤ pos → findLabelCheck lbl c1 fuel pos = findLabelCheck lbl c2 fuel pos := by
  intro pos hk
  unfold findLabelCheck
  rw [parseOperatorAt_congr c1 c2 k pos hk hlen hdrop]
  rcases hop : parseOperatorAt c2 pos with ⟨op, pos3⟩
  have hpos3 : k ≤ pos3 := by
    have h := parseOperatorAt_pos_le c2 pos
    rw [hop] at h
    omega
  cases op with
  | label =>
    simp only
    rw [labelMatchLen_congr c1 c2 k pos3 hpos3 hlen hdrop,
      getD_eq_of_drop_eq c1 c2 k (pos3 + labelMatchLen c2 pos3 lbl 0) 0 (by omega) hdrop,
      readToEOLPos_congr c1 c2 k pos3 hpos3 hdrop]
    split
    · split
      · exact hloop pos3 hpos3
      · rfl
    · exact hloop pos3 hpos3
  | name => exact hloop pos3 hpos3
  | move => exact hloop pos3 hpos3
  | tryMove => exact hloop pos3 hpos3
  | comment => exact hloop pos3 hpos3
  | command => exact hloop pos3 hpos3
  | text => exact hloop pos3 hpos3
  | eof => exact hloop pos3 hpos3

/-- The `find_label` loop only reads the code at or after its cursor. -/
theorem findLabelLoop_congr (lbl c1 c2 : DosStr) (k : Nat)
    (hlen : c1.length = c2.length) (hdrop : c1.drop k = c2.drop k) :
    ∀ (fuel pos : Nat), k ≤ pos →
      findLabelLoop lbl c1 fuel pos = findLabelLoop lbl c2 fuel pos := by
  intro fuel
  induction fuel with
  | zero => intro pos _; simp only [findLabelLoop]
  | succ f ih =>
    intro pos hk
    unfold findLabelLoop
    rw [hlen, readToEOLPos_congr c1 c2 k pos hk hdrop,
      skipNewLinePos_congr c1 c2 k (readToEOLPos c2 pos) (by
        have := le_readToEOLPos c2 pos
        omega) hdrop]
    split
    · exact findLabelCheck_congr lbl c1 c2 k f hlen hdrop ih _ (by
        have h1 := le_readToEOLPos c2 pos
        have h2 := le_skipNewLinePos c2 (readToEOLPos c2 pos)
        omega)
    · rfl

theorem scanToCR_append_cr (l r : List Nat) (h : ∀ c ∈ l, c ≠ 13) :
    scanToCR (l ++ 13 :: r) = l.length := by
  induction l with
  | nil => simp [scanToCR]
  | cons c t ih =>
    have hc : c ≠ 13 := h c (List.mem_cons_self c t)
    simp only [List.cons_append, scanToCR, if_neg hc, List.length_cons, List.append_eq]
    rw [ih (fun x hx => h x (List.mem_cons_of_mem c hx))]

theorem drop_past_line (l1 r : List Nat) :
    (l1 ++ 13 :: r).drop (l1.length + 1) = r := by
  induction l1 with
  | nil => simp
  | cons c t ih =>
    simp only [List.cons_append, List.length_cons, List.drop_succ_cons]
    exact ih

theorem findLabelLoop_none_of_le (lbl code : DosStr) (f pos : Nat)
    (h : code.length ≤ pos) : findLabelLoop lbl code f pos = none := by
  cases f with
  | zero => simp only [findLabelLoop]
  | succ f =>
    unfold findLabelLoop
    rw [if_neg (by omega)]

/-- The first loop iteration of `find_label` reads to the end of the first
line and skips its newline before any operator is examined: the first
`findLabelCheck` happens just past the first newline. -/
theorem findLabel_first_check (lbl line1 rest : DosStr)
    (hlbl : lbl ≠ bytes ("restart")) (h13 : ∀ c ∈ line1, c ≠ 13) :
    findLabel (line1 ++ 13 :: rest) lbl =
      findLabelCheck lbl (line1 ++ 13 :: rest)
        (line1 ++ 13 :: rest).length (line1.length + 1) := by
  unfold findLabel
  rw [if_neg hlbl]
  have hlen : (line1 ++ 13 :: rest).length = line1.length + 1 + rest.length := by
    simp only [List.length_append, List.length_cons]
    omega
  unfold findLabelLoop
  rw [if_pos (by omega)]
  rw [show readToEOLPos (line1 ++ 13 :: rest) 0 = line1.length from by
    unfold readToEOLPos
    rw [List.drop_zero, scanToCR_append_cr line1 rest h13]
    omega]
  rw [show skipNewLinePos (line1 ++ 13 :: rest) line1.length = line1.length + 1 from by
    unfold skipNewLinePos
    rw [List.getElem?_append_right (le_refl _)]
    simp]

/-- C10: `find_label` special-cases the literal target `restart` to offset
0 on any code; for any other target, the search reads to the end of the
first line and past its newline before examining any operator, so the
result does not depend on the first line's content (in particular a
`:label` declared on line one cannot be matched), and a program consisting
only of `:label` on its first line never finds that label. -/
theorem c10_find_label :
    (∀ code : DosStr, findLabel code (bytes ("restart")) = some 0) ∧
    (∀ lbl line1 rest : DosStr, lbl ≠ bytes ("restart") → (∀ c ∈ line1, c ≠ 13) →
      findLabel (line1 ++ 13 :: rest) lbl =
        findLabelCheck lbl (line1 ++ 13 :: rest)
          (line1 ++ 13 :: rest).length (line1.length + 1)) ∧
    (∀ lbl line1 line1' rest : DosStr, lbl ≠ bytes ("restart") →
      (∀ c ∈ line1, c ≠ 13) → (∀ c ∈ line1', c ≠ 13) →
      line1.length = line1'.length →
      findLabel (line1 ++ 13 :: rest) lbl = findLabel (line1' ++ 13 :: rest) lbl) ∧
    (∀ lbl : DosStr, lbl ≠ bytes ("restart") → (∀ c ∈ lbl, c ≠ 13) →
      findLabel (58 :: (lbl ++ [13])) lbl = none) := by
  refine ⟨?_, ?_, ?_, ?_⟩
  · intro code
    unfold findLabel
    rw [if_pos rfl]
  · intro lbl line1 rest hlbl h13
    exact findLabel_first_check lbl line1 rest hlbl h13
  · intro lbl line1 line1' rest hlbl h13 h13' hlen1
    rw [findLabel_first_check lbl line1 rest hlbl h13,
      findLabel_first_check lbl line1' rest hlbl h13']
    have hlen : (line1 ++ 13 :: rest).length = (line1' ++ 13 :: rest).length := by
      simp only [List.length_append, List.length_cons, hlen1]
    have hdrop : (line1 ++ 13 :: rest).drop (line1.length + 1) =
        (line1' ++ 13 :: rest).drop (line1.length + 1) := by
      rw [drop_past_line, hlen1, drop_past_line]
    rw [← hlen1, ← hlen]
    exact findLabelCheck_congr lbl _ _ (line1.length + 1)
      (line1 ++ 13 :: rest).length hlen hdrop
      (findLabelLoop_congr lbl _ _ (line1.length + 1) hlen hdrop _)
      (line1.length + 1) (le_refl _)
  · intro lbl hlbl h13
    have hsplit : (58 : Nat) :: (lbl ++ [13]) = (58 :: lbl) ++ 13 :: [] := by simp
    have h58 : ∀ c ∈ (58 : Nat) :: lbl, c ≠ 13 := by
      intro c hc
      rcases List.mem_cons.mp hc with h | h
      · omega
      · exact h13 c h
    rw [hsplit, findLabel_first_check lbl (58 :: lbl) [] hlbl h58]
    have hlen : ((58 :: lbl) ++ 13 :: []).length = lbl.length + 2 := by
      simp only [List.length_append, List.length_cons, List.length_nil]
    have hpos : (58 :: lbl).length + 1 = lbl.length + 2 := by simp
    rw [hpos]
    unfold findLabelCheck
    rw [show parseOperatorAt ((58 :: lbl) ++ 13 :: []) (lbl.length + 2) =
        (OopOperator.eof, lbl.length + 2) from by
      unfold parseOperatorAt
      rw [if_pos (by omega)]]
    exact findLabelLoop_none_of_le _ _ _ _ (by omega)

/-- Witness for C10: the label `stuck` declared on the first line behaves
exactly as if the first line were the unrelated text `banana`, and the
one-line program `:stuck` does not find its own label. -/
theorem c10_find_label_witness :
    findLabel ((bytes (":stuck")) ++ 13 :: (bytes ("x"))) (bytes ("stuck")) =
      findLabel ((bytes ("banana")) ++ 13 :: (bytes ("x"))) (bytes ("stuck")) ∧
    findLabel (58 :: (bytes ("stuck") ++ [13])) (bytes ("stuck")) = none :=
  ⟨c10_find_label.2.2.1 (bytes ("stuck")) (bytes (":stuck")) (bytes ("banana"))
      (bytes ("x")) (by decide) (by decide) (by decide) (by decide),
   c10_find_label.2.2.2 (bytes ("stuck")) (by decide) (by decide)⟩

/-! ## Status removal (`BoardSimulator::remove_status_for_pos`) -/

/-- The follower/leader index fixup in step 2 of `remove_status_for_pos`
(`check_removal_index.cmp(&(status.follower as usize))`): indices above the
removed one shift down, an index equal to it becomes `-1`, negative ones
are untouched. -/
def removalAdjustRef (r : Nat) (f : Int) : Int :=
  if 0 ≤ f then
    if r < f.toNat then f - 1
    else if r = f.toNat then -1
    else f
  else f

/-- Step 2 of `remove_status_for_pos` applied to one remaining status:
follower/leader fixup plus the bound-index shift. -/
def removalAdjustStatus (r : Nat) (st : StatusElement) : StatusElement :=
  { st with
    follower := removalAdjustRef r st.follower
    leader := removalAdjustRef r st.leader
    code_source :=
      match st.code_source with
      | CodeSource.bound idx =>
        if r < idx then CodeSource.bound (idx - 1) else CodeSource.bound idx
      | CodeSource.owned c => CodeSource.owned c }

/-- Step 1 of `remove_status_for_pos`: walk the statuses, give the removed
status's owned code to the first status bound to it, and point every later
binder at that first binder's (pre-removal) index. `i` is the enumeration
index and the `Option Nat` is `new_bound_index_opt`. -/
def retargetBoundAux (r : Nat) (code : DosStr) :
    List StatusElement → Nat → Option Nat → List StatusElement
  | [], _, _ => []
  | st :: rest, i, none =>
    if st.code_source = CodeSource.bound r then
      { st with code_source := CodeSource.owned code } ::
        retargetBoundAux r code rest (i + 1) (some i)
    else
      st :: retargetBoundAux r code rest (i + 1) none
  | st :: rest, i, some ni =>
    if st.code_source = CodeSource.bound r then
      { st with code_source := CodeSource.bound ni } ::
        retargetBoundAux r code rest (i + 1) (some ni)
    else
      st :: retargetBoundAux r code rest (i + 1) (some ni)

/-- One removal from the `remove_status_for_pos` loop body: replace the
removed status's code with empty owned code, migrate owned code to the
binders (step 1), erase the status, and fix up the remaining references
(step 2). -/
def removeOneStatus (r : Nat) (statuses : List StatusElement) : List StatusElement :=
  let st := statuses.getD r StatusElement.default
  let statuses1 :=
    match st.code_source with
    | CodeSource.owned code =>
      retargetBoundAux r code
        (statuses.set r { st with code_source := CodeSource.owned [] }) 0 none
    | CodeSource.bound _ => statuses
  (statuses1.eraseIdx r).map (removalAdjustStatus r)

theorem retargetBoundAux_length (r : Nat) (code : DosStr) :
    ∀ (l : List StatusElement) (i : Nat) (st : Option Nat),
      (retargetBoundAux r code l i st).length = l.length := by
  intro l
  induction l with
  | nil => intro i st; cases st <;> rfl
  | cons s rest ih =>
    intro i st
    cases st <;> unfold retargetBoundAux <;> split <;>
      simp only [List.length_cons, ih]

theorem removeOneStatus_length (r : Nat) (statuses : List StatusElement)
    (h : r < statuses.length) :
    (removeOneStatus r statuses).length = statuses.length - 1 := by
  simp only [removeOneStatus]
  split <;>
    simp [List.length_eraseIdx, retargetBoundAux_length, h]

/-- The `while check_removal_index < len` loop of `remove_status_for_pos`:
returns the final status list and the removed indices in order. The cursor
advances past non-matching statuses and stays put after a removal (several
statuses may share the position). -/
def removeStatusForPosLoop (remove_x remove_y : Int)
    (statuses : List StatusElement) (idx : Nat) : List StatusElement × List Nat :=
  if h : idx < statuses.length then
    let elem := statuses.getD idx StatusElement.default
    if ((elem.location_x : Int), (elem.location_y : Int)) = (remove_x, remove_y) then
      let next := removeStatusForPosLoop remove_x remove_y (removeOneStatus idx statuses) idx
      (next.1, idx :: next.2)
    else
      removeStatusForPosLoop remove_x remove_y statuses (idx + 1)
  else (statuses, [])
termination_by statuses.length - idx
decreasing_by
  · rw [removeOneStatus_length idx statuses h]
    omega
  · omega

/-- `BoardSimulator::remove_status_for_pos` from `board_simulator.rs` lines
196-270 (on the status list alone; the simulator's other fields are not
touched by it). -/
def removeStatusForPos (remove_x remove_y : Int)
    (statuses : List StatusElement) : List StatusElement × List Nat :=
  removeStatusForPosLoop remove_x remove_y statuses 0

/-- Index-carrying map (used to state what removal does to each status in
terms of its pre-removal index). -/
def mapWithIdx {α β : Type} (f : Nat → α → β) : List α → Nat → List β
  | [], _ => []
  | a :: l, i => f i a :: mapWithIdx f l (i + 1)

/-- C4 spec-side index fixup, written from the claim's words: references
strictly greater than the removed index decrement by one, references equal
to it become −1, negative references are untouched. -/
def c4AdjustIdx (r : Nat) (f : Int) : Int :=
  if 0 ≤ f then
    if (r : Int) < f then f - 1
    else if (r : Int) = f then -1
    else f
  else f

/-- C4 spec-side binder information: if the removed status owned its code,
the first status bound to it (by pre-removal index) together with that
code. -/
def c4BInfo (r : Nat) (statuses : List StatusElement) : Option (Nat × DosStr) :=
  match (statuses.getD r StatusElement.default).code_source with
  | CodeSource.owned code =>
    (List.findIdx? (fun s => decide (s.code_source = CodeSource.bound r))
      statuses).map (fun b => (b, code))
  | CodeSource.bound _ => none

/-- C4 spec-side transformation of the status at pre-removal index `i`,
written from the claim's words: follower/leader fixup, bound indices above
the removed one shift down, the first binder inherits the owned code, and
every other binder is retargeted to that binder's (post-removal) index. -/
def c4SpecStatus (r : Nat) (binfo : Option (Nat × DosStr)) (i : Nat)
    (st : StatusElement) : StatusElement :=
  { st with
    follower := c4AdjustIdx r st.follower
    leader := c4AdjustIdx r st.leader
    code_source :=
      match st.code_source, binfo with
      | CodeSource.bound idx, some (b, code) =>
        if idx = r then
          (if i = b then CodeSource.owned code
           else CodeSource.bound (if r < b then b - 1 else b))
        else if r < idx then CodeSource.bound (idx - 1)
        else CodeSource.bound idx
      | CodeSource.bound idx, none =>
        if r < idx then CodeSource.bound (idx - 1) else CodeSource.bound idx
      | CodeSource.owned c, _ => CodeSource.owned c }

theorem removalAdjustRef_eq_c4AdjustIdx (r : Nat) (f : Int) :
    removalAdjustRef r f = c4AdjustIdx r f := by
  unfold removalAdjustRef c4AdjustIdx
  split_ifs <;> omega

theorem c4SpecStatus_none_eq (r : Nat) (i : Nat) (st : StatusElement) :
    c4SpecStatus r none i st = removalAdjustStatus r st := by
  unfold c4SpecStatus removalAdjustStatus
  rw [removalAdjustRef_eq_c4AdjustIdx, removalAdjustRef_eq_c4AdjustIdx]
  cases st.code_source <;> rfl

theorem list_ext_getD {α : Type} (d : α) :
    ∀ (l1 l2 : List α), l1.length = l2.length →
      (∀ j, l1.getD j d = l2.getD j d) → l1 = l2 := by
  intro l1
  induction l1 with
  | nil =>
    intro l2 hlen _
    cases l2
    · rfl
    · simp at hlen
  | cons a t ih =>
    intro l2 hlen hj
    cases l2 with
    | nil => simp at hlen
    | cons b u =>
      have ha : a = b := hj 0
      have ht : t = u := by
        refine ih u (by simpa using hlen) ?_
        intro j
        exact hj (j + 1)
      rw [ha, ht]

theorem eraseIdx_congr_at {α : Type} (d : α) :
    ∀ (l1 l2 : List α) (r : Nat), l1.length = l2.length →
      (∀ j, j ≠ r → l1.getD j d = l2.getD j d) →
      l1.eraseIdx r = l2.eraseIdx r := by
  intro l1
  induction l1 with
  | nil =>
    intro l2 r hlen _
    cases l2
    · rfl
    · simp at hlen
  | cons a t ih =>
    intro l2 r hlen hj
    cases l2 with
    | nil => simp at hlen
    | cons b u =>
      cases r with
      | zero =>
        simp only [List.eraseIdx_cons_zero]
        refine list_ext_getD d t u (by simpa using hlen) ?_
        intro j
        exact hj (j + 1) (by omega)
      | succ r =>
        have ha : a = b := hj 0 (by omega)
        simp only [List.eraseIdx_cons_succ, ha]
        rw [ih u r (by simpa using hlen) (fun j hjr => hj (j + 1) (by omega))]

theorem getD_map_lt {α β : Type} (f : α → β) (d : β) (d0 : α) :
    ∀ (l : List α) (j : Nat), j < l.length →
      (l.map f).getD j d = f (l.getD j d0) := by
  intro l
  induction l with
  | nil => intro j h; simp at h
  | cons a t ih =>
    intro j h
    cases j with
    | zero => rfl
    | succ j => exact ih j (by simpa using h)

theorem getD_mapWithIdx {α β : Type} (f : Nat → α → β) (d : β) (d0 : α) :
    ∀ (l : List α) (i0 j : Nat), j < l.length →
      (mapWithIdx f l i0).getD j d = f (i0 + j) (l.getD j d0) := by
  intro l
  induction l with
  | nil => intro i0 j h; simp at h
  | cons a t ih =>
    intro i0 j h
    cases j with
    | zero => rfl
    | succ j =>
      simp only [mapWithIdx, List.getD_cons_succ]
      rw [ih (i0 + 1) j (by simpa using h)]
      congr 1
      omega

theorem mapWithIdx_length {α β : Type} (f : Nat → α → β) :
    ∀ (l : List α) (i0 : Nat), (mapWithIdx f l i0).length = l.length := by
  intro l
  induction l with
  | nil => intro i0; rfl
  | cons a t ih => intro i0; simp [mapWithIdx, ih]

theorem eraseIdx_set_same {α : Type} (a : α) :
    ∀ (l : List α) (r : Nat), (l.set r a).eraseIdx r = l.eraseIdx r := by
  intro l
  induction l with
  | nil => intro r; rfl
  | cons b t ih =>
    intro r
    cases r with
    | zero => simp
    | succ r => simp [ih]

theorem map_eraseIdx {α β : Type} (f : α → β) :
    ∀ (l : List α) (r : Nat), (l.eraseIdx r).map f = (l.map f).eraseIdx r := by
  intro l
  induction l with
  | nil => intro r; rfl
  | cons a t ih =>
    intro r
    cases r with
    | zero => simp
    | succ r => simp [ih]

theorem mapWithIdx_congr {α β : Type} (f g : Nat → α → β)
    (h : ∀ i a, f i a = g i a) :
    ∀ (l : List α) (i0 : Nat), mapWithIdx f l i0 = mapWithIdx g l i0 := by
  intro l
  induction l with
  | nil => intro i0; rfl
  | cons a t ih => intro i0; simp [mapWithIdx, h, ih]

theorem mapWithIdx_eq_map {α β : Type} (f : Nat → α → β) (g : α → β) :
    ∀ (l : List α) (i0 : Nat), (∀ i a, i0 ≤ i → f i a = g a) →
      mapWithIdx f l i0 = l.map g := by
  intro l
  induction l with
  | nil => intro i0 _; rfl
  | cons a t ih =>
    intro i0 h
    simp only [mapWithIdx, List.map_cons, h i0 a (le_refl _)]
    rw [ih (i0 + 1) (fun i a hi => h i a (by omega))]

theorem retargetBoundAux_some (r : Nat) (code : DosStr) (ni : Nat) :
    ∀ (l : List StatusElement) (i0 : Nat),
      retargetBoundAux r code l i0 (some ni) =
        l.map (fun s =>
          if s.code_source = CodeSource.bound r then
            { s with code_source := CodeSource.bound ni }
          else s) := by
  intro l
  induction l with
  | nil => intro i0; rfl
  | cons s t ih =>
    intro i0
    unfold retargetBoundAux
    split <;> simp only [List.map_cons, ih]
    · rename_i hs
      rw [if_pos hs]
    · rename_i hs
      rw [if_neg hs]

/-- Step 1 of removal in closed form: if no status is bound to the removed
index, nothing changes; otherwise the first binder (at absolute index
`i0 + k`) receives the owned code and every other binder is pointed at it. -/
theorem retargetBoundAux_none (r : Nat) (code : DosStr) :
    ∀ (l : List StatusElement) (i0 : Nat),
      retargetBoundAux r code l i0 none =
        (match List.findIdx? (fun s => decide (s.code_source = CodeSource.bound r)) l with
         | none => l
         | some k =>
           mapWithIdx (fun i s =>
             if s.code_source = CodeSource.bound r then
               (if i = i0 + k then { s with code_source := CodeSource.owned code }
                else { s with code_source := CodeSource.bound (i0 + k) })
             else s) l i0) := by
  intro l
  induction l with
  | nil => intro i0; rfl
  | cons s t ih =>
    intro i0
    by_cases hs : s.code_source = CodeSource.bound r
    · rw [show List.findIdx? (fun s => decide (s.code_source = CodeSource.bound r))
          (s :: t) = some 0 from by
        rw [List.findIdx?_cons]
        simp [hs]]
      unfold retargetBoundAux
      rw [if_pos hs]
      rw [retargetBoundAux_some r code i0 t (i0 + 1)]
      simp only [mapWithIdx]
      congr 1
      · rw [if_pos hs, if_pos (show i0 = i0 + 0 from by omega)]
      · rw [mapWithIdx_eq_map _
          (fun a => if a.code_source = CodeSource.bound r then
            { a with code_source := CodeSource.bound i0 } else a) t (i0 + 1)
          (fun i a hi => by
            beta_reduce
            simp only [Nat.add_zero]
            by_cases hb : a.code_source = CodeSource.bound r
            · rw [if_pos hb, if_pos hb, if_neg (show ¬ i = i0 from by omega)]
            · rw [if_neg hb, if_neg hb])]
    · unfold retargetBoundAux
      rw [if_neg hs]
      rw [ih (i0 + 1)]
      rw [List.findIdx?_cons]
      rw [show (decide (s.code_source = CodeSource.bound r)) = false from by simp [hs]]
      simp only [Bool.false_eq_true, reduceIte]
      rw [List.findIdx?_succ]
      cases hfind : List.findIdx? (fun s => decide (s.code_source = CodeSource.bound r)) t with
      | none => rfl
      | some k =>
        simp only [Option.map_some', mapWithIdx]
        rw [show i0 + 1 + k = i0 + (k + 1) from by omega]
        congr 1
        rw [if_neg hs]

theorem findIdx?_set_congr {α : Type} (p : α → Bool) (a d : α) :
    ∀ (l : List α) (r i : Nat), r < l.length → p a = p (l.getD r d) →
      List.findIdx? p (l.set r a) i = List.findIdx? p l i := by
  intro l
  induction l with
  | nil => intro r i hr _; simp at hr
  | cons x t ih =>
    intro r i hr hp
    cases r with
    | zero =>
      simp only [List.set_cons_zero, List.findIdx?_cons]
      rw [show p a = p x from hp]
    | succ r =>
      simp only [List.set_cons_succ, List.findIdx?_cons]
      rw [ih r (i + 1) (by simpa using hr) hp]

theorem adj_after_retarget (r b : Nat) (code : DosStr) (j : Nat) (s : StatusElement) :
    removalAdjustStatus r
      (if s.code_source = CodeSource.bound r then
        (if j = b then { s with code_source := CodeSource.owned code }
         else { s with code_source := CodeSource.bound b })
       else s) =
    c4SpecStatus r (some (b, code)) j s := by
  by_cases hb : s.code_source = CodeSource.bound r
  · rw [if_pos hb]
    by_cases hjb : j = b
    · rw [if_pos hjb]
      simp only [removalAdjustStatus, c4SpecStatus,
        removalAdjustRef_eq_c4AdjustIdx, hb, hjb, if_pos rfl, reduceIte]
    · rw [if_neg hjb]
      simp only [removalAdjustStatus, c4SpecStatus,
        removalAdjustRef_eq_c4AdjustIdx, hb, if_pos rfl, if_neg hjb, reduceIte,
        apply_ite (CodeSource.bound)]
  · rw [if_neg hb]
    cases hcs2 : s.code_source with
    | owned c =>
      simp only [removalAdjustStatus, c4SpecStatus,
        removalAdjustRef_eq_c4AdjustIdx, hcs2]
    | bound idx =>
      have hir : ¬ idx = r := by
        intro h
        rw [hcs2, h] at hb
        exact hb rfl
      simp only [removalAdjustStatus, c4SpecStatus,
        removalAdjustRef_eq_c4AdjustIdx, hcs2, if_neg hir]

/-- One removal in closed spec form: the status list after removing index
`r` is the pre-removal list with the claim's per-status transformation
applied and entry `r` erased. -/
theorem removeOneStatus_eq_spec (r : Nat) (statuses : List StatusElement)
    (hr : r < statuses.length) :
    removeOneStatus r statuses =
      List.eraseIdx (mapWithIdx (c4SpecStatus r (c4BInfo r statuses)) statuses 0) r := by
  simp only [removeOneStatus, c4BInfo]
  cases hcs : (statuses.getD r StatusElement.default).code_source with
  | bound b0 =>
    rw [map_eraseIdx,
      mapWithIdx_eq_map (c4SpecStatus r none) (removalAdjustStatus r) statuses 0
        (fun i a _ => c4SpecStatus_none_eq r i a)]
  | owned code =>
    simp only []
    rw [retargetBoundAux_none]
    rw [findIdx?_set_congr (fun s => decide (s.code_source = CodeSource.bound r))
      _ StatusElement.default statuses r 0 hr (by beta_reduce; rw [hcs]; simp)]
    cases hfind : List.findIdx?
        (fun s => decide (s.code_source = CodeSource.bound r)) statuses with
    | none =>
      simp only [Option.map_none']
      rw [eraseIdx_set_same, map_eraseIdx,
        mapWithIdx_eq_map (c4SpecStatus r none) (removalAdjustStatus r) statuses 0
          (fun i a _ => c4SpecStatus_none_eq r i a)]
    | some b =>
      simp only [Option.map_some']
      rw [map_eraseIdx]
      apply eraseIdx_congr_at StatusElement.default
      · simp [mapWithIdx_length]
      · intro j hj
        by_cases hjlen : j < statuses.length
        · rw [getD_map_lt _ _ StatusElement.default _ j (by
            simp [mapWithIdx_length, hjlen])]
          rw [getD_mapWithIdx _ _ StatusElement.default _ 0 j (by
            simpa using hjlen)]
          rw [getD_mapWithIdx _ _ StatusElement.default _ 0 j hjlen]
          rw [getD_set_ne statuses r j _ StatusElement.default (fun h => hj h.symm)]
          simp only [Nat.zero_add]
          exact adj_after_retarget r b code j (statuses.getD j StatusElement.default)
        · have h1 : statuses.length ≤ j := by omega
          rw [List.getD_eq_default, List.getD_eq_default]
          · simp [mapWithIdx_length]
            omega
          · simp [mapWithIdx_length]
            omega

theorem getD_eraseIdx_lt {α : Type} (d : α) :
    ∀ (l : List α) (r j : Nat), j < r → (l.eraseIdx r).getD j d = l.getD j d := by
  intro l
  induction l with
  | nil => intro r j _; rfl
  | cons a t ih =>
    intro r j hj
    cases r with
    | zero => omega
    | succ r =>
      cases j with
      | zero => rfl
      | succ j =>
        simp only [List.eraseIdx_cons_succ, List.getD_cons_succ]
        exact ih r j (by omega)

theorem getD_eraseIdx_ge {α : Type} (d : α) :
    ∀ (l : List α) (r j : Nat), r ≤ j → (l.eraseIdx r).getD j d = l.getD (j + 1) d := by
  intro l
  induction l with
  | nil => intro r j _; rfl
  | cons a t ih =>
    intro r j hj
    cases r with
    | zero => rfl
    | succ r =>
      cases j with
      | zero => omega
      | succ j =>
        simp only [List.eraseIdx_cons_succ, List.getD_cons_succ]
        exact ih r j (by omega)

theorem c4SpecStatus_location (r : Nat) (b : Option (Nat × DosStr)) (i : Nat)
    (st : StatusElement) :
    (c4SpecStatus r b i st).location_x = st.location_x ∧
    (c4SpecStatus r b i st).location_y = st.location_y := ⟨rfl, rfl⟩

theorem removeStatusForPosLoop_ge (x y : Int) (statuses : List StatusElement)
    (idx : Nat) (h : statuses.length ≤ idx) :
    removeStatusForPosLoop x y statuses idx = (statuses, []) := by
  rw [removeStatusForPosLoop, dif_neg (by omega)]

theorem removeStatusForPosLoop_skip (x y : Int) (statuses : List StatusElement)
    (r : Nat) :
    ∀ (n idx : Nat), idx ≤ r → r - idx = n →
      (∀ j, idx ≤ j → j < r →
        ¬(((statuses.getD j StatusElement.default).location_x : Int) = x ∧
          ((statuses.getD j StatusElement.default).location_y : Int) = y)) →
      removeStatusForPosLoop x y statuses idx =
        removeStatusForPosLoop x y statuses r := by
  intro n
  induction n with
  | zero =>
    intro idx h1 h2 _
    rw [show idx = r from by omega]
  | succ n ih =>
    intro idx h1 h2 hno
    have hlt : idx < r := by omega
    by_cases hlen : idx < statuses.length
    · rw [removeStatusForPosLoop]
      rw [dif_pos hlen]
      rw [if_neg (by
        simp only [Prod.mk.injEq]
        exact hno idx (le_refl _) hlt)]
      exact ih (idx + 1) (by omega) (by omega) (fun j hj1 hj2 => hno j (by omega) hj2)
    · rw [removeStatusForPosLoop_ge x y statuses idx (by omega),
        removeStatusForPosLoop_ge x y statuses r (by omega)]

/-- C4: removing the unique status sitting at an overwritten cell removes
exactly that index, and transforms every remaining status as the claim
describes: follower/leader indices above the removed index decrement,
indices equal to it become −1, bound indices above it decrement, and when
the removed status owned code, its first binder (if any) inherits the code
while every other binder is retargeted to that binder's index. -/
theorem c4_remove_status (x y : Int) (statuses : List StatusElement) (r : Nat)
    (hr : r < statuses.length)
    (hmatch : (((statuses.getD r StatusElement.default).location_x : Int) = x ∧
               ((statuses.getD r StatusElement.default).location_y : Int) = y))
    (hothers : ∀ j, j < statuses.length → j ≠ r →
      ¬((((statuses.getD j StatusElement.default).location_x : Int) = x) ∧
        (((statuses.getD j StatusElement.default).location_y : Int) = y))) :
    removeStatusForPos x y statuses =
      (List.eraseIdx (mapWithIdx (c4SpecStatus r (c4BInfo r statuses)) statuses 0) r,
       [r]) := by
  unfold removeStatusForPos
  rw [removeStatusForPosLoop_skip x y statuses r (r - 0) 0 (by omega) (by omega)
    (fun j hj1 hj2 => hothers j (by omega) (by omega))]
  rw [removeStatusForPosLoop]
  rw [dif_pos hr]
  rw [if_pos (by
    simp only [Prod.mk.injEq]
    exact hmatch)]
  rw [removeOneStatus_eq_spec r statuses hr]
  have hNlen : (List.eraseIdx (mapWithIdx (c4SpecStatus r (c4BInfo r statuses))
      statuses 0) r).length = statuses.length - 1 := by
    simp [List.length_eraseIdx, mapWithIdx_length, hr]
  rw [removeStatusForPosLoop_skip x y _
    (List.eraseIdx (mapWithIdx (c4SpecStatus r (c4BInfo r statuses)) statuses 0)
      r).length
    ((List.eraseIdx (mapWithIdx (c4SpecStatus r (c4BInfo r statuses)) statuses 0)
      r).length - r) r (by omega) (by omega) ?_]
  · rw [removeStatusForPosLoop_ge _ _ _ _ (le_refl _)]
  · intro j hj1 hj2
    rw [hNlen] at hj2
    have hj3 : j + 1 < statuses.length := by omega
    rw [getD_eraseIdx_ge StatusElement.default _ r j hj1]
    rw [getD_mapWithIdx _ _ StatusElement.default _ 0 (j + 1) (by omega)]
    simp only [Nat.zero_add]
    intro hcon
    exact hothers (j + 1) hj3 (by omega)
      ⟨by rw [← (c4SpecStatus_location r (c4BInfo r statuses) (j + 1)
          (statuses.getD (j + 1) StatusElement.default)).1]; exact hcon.1,
       by rw [← (c4SpecStatus_location r (c4BInfo r statuses) (j + 1)
          (statuses.getD (j + 1) StatusElement.default)).2]; exact hcon.2⟩

/-- Witness statuses for C4: index 1 sits at the removed cell (7,8), owns
code, and indices 0 and 2 are bound to it; all reference kinds
(follower/leader above, equal, below the removed index, bound above) are
exercised. -/
def c4WitStatuses : List StatusElement :=
  [{ StatusElement.default with
      location_x := 5
      location_y := 5
      follower := 3
      leader := 1
      code_source := CodeSource.bound 1 },
   { StatusElement.default with
      location_x := 7
      location_y := 8
      code_source := CodeSource.owned (bytes ("#end")) },
   { StatusElement.default with
      location_x := 1
      location_y := 2
      follower := 1
      leader := 3
      code_source := CodeSource.bound 1 },
   { StatusElement.default with
      location_x := 3
      location_y := 4
      follower := 0
      code_source := CodeSource.bound 3 }]

theorem c4_witness :
    removeStatusForPos 7 8 c4WitStatuses =
      (List.eraseIdx
        (mapWithIdx (c4SpecStatus 1 (c4BInfo 1 c4WitStatuses)) c4WitStatuses 0) 1,
       [1]) :=
  c4_remove_status 7 8 c4WitStatuses 1 (by decide) (by decide) (by decide)

/-! ## Engine time-limit handling (`ZztEngine::step`) -/

/-- `BoardMessage` from `board_message.rs`, restricted to the variants the
embedded code paths produce. -/
inductive BoardMessage where
  | openScroll (title : DosStr) (content_lines : List DosStr)
  | pauseGame
deriving DecidableEq, Repr

/-- Rust `as u8` on an `i16` coordinate (two's-complement truncation). -/
def u8cast (v : Int) : Nat := (v.emod 256).toNat

/-- The status walk inside `BoardSimulator::move_tile`: every status at the
source position is moved to the destination and its under-tile replaced by
the destination tile; the `under_element_id`/`under_colour` locals keep the
previous under-tile of the last status moved (0/0 when none). -/
def moveStatusesAux (from_x from_y to_x to_y : Int) (to_tile : BoardTile) :
    List StatusElement → Nat × Nat → List StatusElement × (Nat × Nat)
  | [], under => ([], under)
  | st :: rest, under =>
    if st.location_x = u8cast from_x ∧ st.location_y = u8cast from_y then
      let st2 := { st with
        location_x := u8cast to_x
        location_y := u8cast to_y
        under_element_id := to_tile.element_id
        under_colour := to_tile.colour }
      let next := moveStatusesAux from_x from_y to_x to_y to_tile rest
        (st.under_element_id, st.under_colour)
      (st2 :: next.1, next.2)
    else
      let next := moveStatusesAux from_x from_y to_x to_y to_tile rest under
      (st :: next.1, next.2)

/-- `BoardSimulator::move_tile` from `board_simulator.rs` lines 293-333. -/
def move_tile (sim : BoardSim) (from_x from_y to_x to_y : Int) : BoardSim :=
  if from_x = to_x ∧ from_y = to_y then sim
  else
    match get_tile sim from_x from_y with
    | none => sim
    | some from_tile =>
      match get_tile sim to_x to_y with
      | none => sim
      | some to_tile =>
        let sim1 := (set_tile sim to_x to_y from_tile).1
        let moved := moveStatusesAux from_x from_y to_x to_y to_tile
          sim1.status_elements (0, 0)
        let sim2 := { sim1 with status_elements := moved.1 }
        (set_tile sim2 from_x from_y
          { element_id := moved.2.1, colour := moved.2.2 }).1

/-- `BoardSimulator::get_player_location`: the player is always status 0
(the source indexes the list unconditionally; an empty status list, a panic
in the source, yields the default status here). -/
def get_player_location (sim : BoardSim) : Int × Int :=
  let player_status := sim.status_elements.getD 0 StatusElement.default
  ((player_status.location_x : Int), (player_status.location_y : Int))

/-- `BoardSimulator::restart_player_on_board` from `board_simulator.rs`
lines 408-413: move the player tile to the board-enter position, queue a
pause, and reset the whole-seconds counter. -/
def restart_player_on_board (sim : BoardSim) (board_messages : List BoardMessage) :
    BoardSim × List BoardMessage :=
  let loc := get_player_location sim
  let sim1 := move_tile sim loc.1 loc.2
    (sim.board_meta_data.player_enter_x : Int) (sim.board_meta_data.player_enter_y : Int)
  ({ sim1 with world_header := { sim1.world_header with time_passed := 0 } },
   board_messages ++ [BoardMessage.pauseGame])

/-- The `should_check_time_elapsed` block of `ZztEngine::step`
(`engine.rs` lines 892-919), parameterised on the already-converted
wall-clock centitick value `(global_time_passed_seconds * 100.) as i16 % 6000`
(the float conversion itself is outside the embedding). -/
def checkTimeElapsed (sim : BoardSim) (new_time_passed_ticks : Int)
    (board_messages : List BoardMessage) : BoardSim × List BoardMessage :=
  let diff0 := new_time_passed_ticks - sim.world_header.time_passed_ticks
  let diff := if diff0 < 0 then diff0 + 6000 else diff0
  if 100 ≤ diff then
    let sim1 := { sim with world_header := { sim.world_header with
      time_passed := sim.world_header.time_passed + 1
      time_passed_ticks := new_time_passed_ticks } }
    if 0 < sim1.board_meta_data.time_limit then
      let time_left := sim1.board_meta_data.time_limit - sim1.world_header.time_passed
      let board_messages1 :=
        if time_left = 10 then
          board_messages ++ [BoardMessage.openScroll []
            [bytes ("Running out of time!")]]
        else board_messages
      if time_left < 0 then
        let sim2 := { sim1 with world_header := { sim1.world_header with
          player_health := max (sim1.world_header.player_health - 10) 0 } }
        restart_player_on_board sim2 board_messages1
      else (sim1, board_messages1)
    else (sim1, board_messages)
  else (sim, board_messages)

theorem set_tile_pres (sim : BoardSim) (x y : Int) (t : BoardTile) :
    (set_tile sim x y t).1.world_header = sim.world_header ∧
    (set_tile sim x y t).1.board_meta_data = sim.board_meta_data ∧
    (set_tile sim x y t).1.status_elements = sim.status_elements := by
  simp only [set_tile]
  split <;> exact ⟨rfl, rfl, rfl⟩

theorem move_tile_pres (sim : BoardSim) (a b c d : Int) :
    (move_tile sim a b c d).world_header = sim.world_header ∧
    (move_tile sim a b c d).board_meta_data = sim.board_meta_data := by
  unfold move_tile
  split
  · exact ⟨rfl, rfl⟩
  · split
    · exact ⟨rfl, rfl⟩
    · split
      · exact ⟨rfl, rfl⟩
      · simp only [set_tile]
        split_ifs <;> exact ⟨rfl, rfl⟩

/-- `diff` as computed by the time block: current minus stored centiticks,
wrapped up by 6000 when negative. -/
def timeElapsedDiff (sim : BoardSim) (ticks : Int) : Int :=
  let d := ticks - sim.world_header.time_passed_ticks
  if d < 0 then d + 6000 else d

/-- The board time remaining after the increment (`time_limit - time_passed`
with the freshly incremented counter). -/
def timeLeftAfter (sim : BoardSim) : Int :=
  sim.board_meta_data.time_limit - (sim.world_header.time_passed + 1)

/-- C9: processing a `check_time_elapsed` request increments the
whole-seconds counter exactly when the wrapped centitick difference is at
least 100; with a time limit set, "Running out of time!" is emitted exactly
when ten seconds remain, and once the limit is exceeded the player's health
drops by 10 clamped at 0 and the restart-on-zap path runs (pause message,
seconds counter reset). -/
theorem c9_check_time (sim : BoardSim) (ticks : Int) (msgs : List BoardMessage) :
    (¬ 100 ≤ timeElapsedDiff sim ticks →
      checkTimeElapsed sim ticks msgs = (sim, msgs)) ∧
    (100 ≤ timeElapsedDiff sim ticks → ¬ 0 < sim.board_meta_data.time_limit →
      checkTimeElapsed sim ticks msgs =
        ({ sim with world_header := { sim.world_header with
            time_passed := sim.world_header.time_passed + 1
            time_passed_ticks := ticks } }, msgs)) ∧
    (100 ≤ timeElapsedDiff sim ticks → 0 < sim.board_meta_data.time_limit →
      (checkTimeElapsed sim ticks msgs).2 =
        msgs ++
          (if timeLeftAfter sim = 10 then
            [BoardMessage.openScroll [] [bytes ("Running out of time!")]]
           else []) ++
          (if timeLeftAfter sim < 0 then [BoardMessage.pauseGame] else []) ∧
      (timeLeftAfter sim < 0 →
        (checkTimeElapsed sim ticks msgs).1.world_header.player_health =
          max (sim.world_header.player_health - 10) 0 ∧
        0 ≤ (checkTimeElapsed sim ticks msgs).1.world_header.player_health ∧
        (checkTimeElapsed sim ticks msgs).1.world_header.time_passed = 0) ∧
      (¬ timeLeftAfter sim < 0 →
        (checkTimeElapsed sim ticks msgs).1.world_header.time_passed =
          sim.world_header.time_passed + 1 ∧
        (checkTimeElapsed sim ticks msgs).1.world_header.time_passed_ticks = ticks ∧
        (checkTimeElapsed sim ticks msgs).1.world_header.player_health =
          sim.world_header.player_health)) := by
  refine ⟨?_, ?_, ?_⟩
  · intro hd
    unfold checkTimeElapsed
    dsimp only
    rw [if_neg (by unfold timeElapsedDiff at hd; exact hd)]
  · intro hd hl
    unfold checkTimeElapsed
    dsimp only
    rw [if_pos (by unfold timeElapsedDiff at hd; exact hd)]
    rw [if_neg hl]
  · intro hd hl
    unfold checkTimeElapsed
    dsimp only
    rw [if_pos (by unfold timeElapsedDiff at hd; exact hd)]
    rw [if_pos hl]
    unfold timeLeftAfter
    by_cases h10 : sim.board_meta_data.time_limit - (sim.world_header.time_passed + 1) = 10 <;>
      by_cases hneg : sim.board_meta_data.time_limit - (sim.world_header.time_passed + 1) < 0
    · exact absurd hneg (by omega)
    · rw [if_pos h10, if_pos h10, if_neg hneg, if_neg hneg]
      refine ⟨by simp, fun hcon => absurd hcon (by omega), ?_⟩
      intro _
      exact ⟨rfl, rfl, rfl⟩
    · rw [if_neg h10, if_neg h10, if_pos hneg, if_pos hneg]
      unfold restart_player_on_board
      dsimp only
      refine ⟨by simp, ?_, fun hcon => absurd hneg (by omega)⟩
      intro _
      refine ⟨?_, ?_, rfl⟩
      · rw [(move_tile_pres _ _ _ _ _).1]
      · rw [(move_tile_pres _ _ _ _ _).1]
        dsimp only
        omega
    · rw [if_neg h10, if_neg h10, if_neg hneg, if_neg hneg]
      refine ⟨by simp, fun hcon => absurd hcon hneg, ?_⟩
      intro _
      exact ⟨rfl, rfl, rfl⟩

/-- Witness simulator for C9: five-second limit already exceeded
(`time_passed` is 5, so after the increment one second more than the limit
has passed). -/
def c9WitSim : BoardSim where
  world_header :=
    { WorldHeader.zzt_default with time_passed := 5, time_passed_ticks := 0 }
  board_meta_data := { BoardMetaData.default with time_limit := 5 }
  status_elements := []
  tiles := []
  behaviours := []

theorem c9_witness :
    100 ≤ timeElapsedDiff c9WitSim 150 ∧
    0 < c9WitSim.board_meta_data.time_limit ∧
    ((checkTimeElapsed c9WitSim 150 []).2 =
      [] ++
        (if timeLeftAfter c9WitSim = 10 then
          [BoardMessage.openScroll [] [bytes ("Running out of time!")]]
         else []) ++
        (if timeLeftAfter c9WitSim < 0 then [BoardMessage.pauseGame] else []) ∧
     (timeLeftAfter c9WitSim < 0 →
       (checkTimeElapsed c9WitSim 150 []).1.world_header.player_health =
         max (c9WitSim.world_header.player_health - 10) 0 ∧
       0 ≤ (checkTimeElapsed c9WitSim 150 []).1.world_header.player_health ∧
       (checkTimeElapsed c9WitSim 150 []).1.world_header.time_passed = 0) ∧
     (¬ timeLeftAfter c9WitSim < 0 →
       (checkTimeElapsed c9WitSim 150 []).1.world_header.time_passed =
         c9WitSim.world_header.time_passed + 1 ∧
       (checkTimeElapsed c9WitSim 150 []).1.world_header.time_passed_ticks = 150 ∧
       (checkTimeElapsed c9WitSim 150 []).1.world_header.player_health =
         c9WitSim.world_header.player_health)) :=
  ⟨by decide, by decide, (c9_check_time c9WitSim 150 []).2.2 (by decide) (by decide)⟩

/-! ## The OOP execution continuation (`OopExecutionState`) -/

/-- `Direction` from `direction.rs`. -/
inductive Direction where
  | west
  | east
  | north
  | south
  | idle
deriving DecidableEq, Repr

/-- `Direction::to_offset`. -/
def Direction.to_offset : Direction → Int × Int
  | Direction.west => (-1, 0)
  | Direction.east => (1, 0)
  | Direction.north => (0, -1)
  | Direction.south => (0, 1)
  | Direction.idle => (0, 0)

/-- `BlockedStatus` from `behaviour.rs`. -/
inductive BlockedStatus where
  | blocked
  | notBlocked
deriving DecidableEq, Repr

/-- `LabelOperation` from `behaviour.rs`. -/
inductive LabelOperation where
  | jump
  | zap
  | restore
deriving DecidableEq, Repr

/-- `PlayerItemType` from `behaviour.rs`. -/
inductive PlayerItemType where
  | ammo
  | torches
  | gems
  | health
  | score
  | time
deriving DecidableEq, Repr

/-- `TileTypeDesc` from `oop_parser.rs`. -/
structure TileTypeDesc where
  element_id : Nat
  colour : Option Nat
deriving DecidableEq, Repr

/-- `Action` from `behaviour.rs` (full variant list; `u8`/`i16`/`usize`
fields become `Nat`/`Int`/`Nat`). -/
inductive Action where
  | setColour (x y : Int) (colour : Nat)
  | setLeader (status_index : Nat) (leader : Int)
  | setFollower (status_index : Nat) (follower : Int)
  | setStep (status_index : Nat) (step_x step_y : Int)
  | pushTile (x y offset_x offset_y : Int)
  | moveTile (from_x from_y to_x to_y offset_x offset_y : Int)
      (check_push is_player : Bool)
  | setCodeCurrentInstruction (status_index : Nat) (code_current_instruction : Int)
  | setCode (status_index : Nat) (code : DosStr)
  | bindCodeToIndex (status_index bind_to_index : Nat)
  | setTile (x y : Int) (tile : BoardTile) (status_element : Option StatusElement)
  | setTileElementIdAndColour (x y : Int) (element_id colour : Option Nat)
  | setAsPlayerTile (x y : Int)
  | othersApplyLabelOperation (current_status_index : Option Nat)
      (receiver_name_opt : Option DosStr) (label : DosStr) (operation : LabelOperation)
  | sendBoardMessage (msg : BoardMessage)
  | modifyPlayerItem (item_type : PlayerItemType) (offset : Int)
      (require_exact_amount : Bool)
  | modifyPlayerKeys (index : Nat) (value : Bool)
  | setTorchCycles (v : Int)
  | setEnergyCycles (v : Int)
  | setFlag (name : DosStr)
  | clearFlag (name : DosStr)
  | setStatusLocation (x y : Int) (status_index : Nat)
  | setStatusParam1 (value : Nat) (status_index : Nat)
  | setStatusParam2 (value : Nat) (status_index : Nat)
  | setStatusParam3 (value : Nat) (status_index : Nat)
  | reprocessSameStatusIndexOnRemoval
  | checkRestartOnZapped
  | checkTimeElapsedA
  | setCycle (status_index : Nat) (cycle : Int)
deriving DecidableEq, Repr

/-- `ApplyActionResultReport` from `behaviour.rs`
(`StatusIndicesWithMinimum` modelled as its list of indices). -/
structure ApplyActionResultReport where
  move_was_blocked : BlockedStatus
  take_player_item_failed : Bool
  removed_status_indices : List Nat
  reprocess_same_status_index_on_removal : Bool
deriving DecidableEq, Repr

/-- `ParseActionOutcome` from `oop_parser.rs`. -/
structure ParseActionOutcome where
  finish_immediately : Bool
  dont_progress : Bool
deriving DecidableEq, Repr

/-- `OopAsyncAction` from `oop_parser.rs`. -/
inductive OopAsyncAction where
  | move (instruction_when_not_blocked : Int)
  | tryMove
  | take
  | put (direction : Direction) (tile_type : TileTypeDesc)
deriving DecidableEq, Repr

/-- `OopExecutionState` from `oop_parser.rs`. -/
structure OopExecutionState where
  delete_after : Bool
  override_working_status_index : Option Nat
  executed_operation_count : Nat
  text_message_content_lines : List DosStr
  action_to_check_on_next_step : Option OopAsyncAction
  current_start_of_action_pos : Option Int
deriving DecidableEq, Repr

/-- `OopExecutionState::new`. -/
def OopExecutionState.new (delete_after : Bool)
    (override_working_status_index : Option Nat) : OopExecutionState where
  delete_after := delete_after
  override_working_status_index := override_working_status_index
  executed_operation_count := 0
  text_message_content_lines := []
  action_to_check_on_next_step := none
  current_start_of_action_pos := none

/-- `OopParser` from `oop_parser.rs`: the code (with an `owned` flag
standing for the `Cow` being `Owned`, i.e. the code was modified) and the
cursor. -/
structure OopParser where
  code : DosStr
  owned : Bool
  pos : Int
deriving DecidableEq, Repr

/-- `OopParser::new` (the commented-out source TODO about clamping a
negative `pos` is dead code and not part of the behaviour). -/
def OopParser.new (code : DosStr) (pos : Int) : OopParser where
  code := code
  owned := false
  pos := pos

/-- `OopParser::read_to_end_of_line` on the parser state. -/
def OopParser.read_to_end_of_line (p : OopParser) : DosStr × OopParser :=
  let rest := p.code.drop p.pos.toNat
  let k := scanToCR rest
  (rest.take k, { p with pos := p.pos + k })

/-- `OopParser::skip_new_line` on the parser state. -/
def OopParser.skip_new_line (p : OopParser) : OopParser :=
  match p.code[p.pos.toNat]? with
  | some c => if c = 13 then { p with pos := p.pos + 1 } else p
  | none => p

/-- `BoardSimulator::get_status_index_code`: follow the bound chain to the
owning status. A cyclic chain makes the source loop forever, which is
modelled by `none` (the chain is followed for more steps than there are
statuses). -/
def get_status_index_code (sim : BoardSim) : Nat → Nat → Option DosStr
  | 0, _ => none
  | fuel + 1, idx =>
    match (sim.status_elements.getD idx StatusElement.default).code_source with
    | CodeSource.owned code => some code
    | CodeSource.bound i => get_status_index_code sim fuel i

/-- `BoardSimulator::get_status_code`. -/
def get_status_code (sim : BoardSim) (status : StatusElement) : Option DosStr :=
  match status.code_source with
  | CodeSource.owned code => some code
  | CodeSource.bound index =>
    get_status_index_code sim (sim.status_elements.length + 1) index

/-- `ActionContinuationResult` from `behaviour.rs`. -/
structure ActionContinuationResult where
  actions : List Action
  finished : Bool
deriving DecidableEq, Repr

/-- `OopExecutionState::apply_outcome_result` from `oop_parser.rs` lines
240-267: an `Ok` outcome may rewind the cursor (`dont_progress`) and may
finish; an `Err` pushes an open-scroll board message holding the one-line
diagnostic and finishes. `none` models the source panic when
`current_start_of_action_pos` is unexpectedly absent. The result is
`(is_finished, state, parser, actions)`. -/
def apply_outcome_result (state : OopExecutionState)
    (outcome_result : Except DosStr ParseActionOutcome)
    (p : OopParser) (actions : List Action) :
    Option (Bool × OopExecutionState × OopParser × List Action) :=
  match outcome_result with
  | Except.ok outcome =>
    if outcome.dont_progress then
      match state.current_start_of_action_pos with
      | some start_pos =>
        some (outcome.finish_immediately,
          { state with current_start_of_action_pos := none },
          { p with pos := start_pos }, actions)
      | none => none
    else
      some (outcome.finish_immediately, state, p, actions)
  | Except.error error_string =>
    some (true, state, p,
      actions ++ [Action.sendBoardMessage (BoardMessage.openScroll [] [error_string])])

/-- What one call to `OopParser::parse_action` / `parse_command` does, as
seen from `next_step`: the outcome, the parser afterwards, the actions it
pushed, and the `OopExecutionState` fields it may write (it never touches
`executed_operation_count` or `current_start_of_action_pos`; no assignment
to either exists outside `next_step` itself). `next_step` is parameterised
over these two functions, so every claim proved about it holds for the real
parser as for any other. -/
structure OopParseEffect where
  result : Except DosStr ParseActionOutcome
  parser : OopParser
  actions : List Action
  delete_after : Bool
  override_working_status_index : Option Nat
  text_message_content_lines : List DosStr
  action_to_check_on_next_step : Option OopAsyncAction

/-- The oracle signature for `parse_action`/`parse_command`. -/
def OopParseFn : Type :=
  OopParser → OopExecutionState → Nat → BoardSim → OopParseEffect

/-- Merge an oracle's effect back into the execution state (the two fields
the parser cannot write are kept). -/
def OopParseEffect.mergeState (eff : OopParseEffect)
    (state : OopExecutionState) : OopExecutionState where
  delete_after := eff.delete_after
  override_working_status_index := eff.override_working_status_index
  executed_operation_count := state.executed_operation_count
  text_message_content_lines := eff.text_message_content_lines
  action_to_check_on_next_step := eff.action_to_check_on_next_step
  current_start_of_action_pos := state.current_start_of_action_pos

/-- The element ids that `create_tile_action` spawns fresh cycle-3
statuses for (Bear, BlinkWall, Bomb, Bullet, Clockwise, Counter,
Duplicator, Head, Lion, Object, Passage, Pusher, Ruffian, Scroll, Segment,
Shark, Slime, SpinningGun, Tiger, Transporter). -/
def statusSpawnIds : List Nat :=
  [34, 29, 13, 18, 16, 17, 12, 44, 41, 36, 11, 40, 35, 10, 45, 38, 37, 39, 42, 30]

/-- `create_tile_action` from `oop_parser.rs` lines 53-108: defaults the
colour to `0x0f`, and attaches a fresh status element for the creature-like
element kinds (cycle 3) and the star (cycle 1, param2 255). -/
def create_tile_action (tile_desc : TileTypeDesc) (x y : Nat) : Action :=
  let colour := tile_desc.colour.getD 0x0f
  let tile : BoardTile := { element_id := tile_desc.element_id, colour := colour }
  let status_element : Option StatusElement :=
    if tile_desc.element_id ∈ statusSpawnIds then
      some { StatusElement.default with location_x := x, location_y := y, cycle := 3 }
    else if tile_desc.element_id = 15 then
      some { StatusElement.default with
        location_x := x, location_y := y, cycle := 1, param2 := 255 }
    else none
  Action.setTile (x : Int) (y : Int) tile status_element

/-- The body of one `next_step` call (the `action_to_check_on_next_step`
dispatch, `oop_parser.rs` lines 295-366): returns
`(is_finished, state, parser, actions)`, or `none` for a source panic. -/
def OopExecutionState.next_step_core (parseActionFn parseCommandFn : OopParseFn)
    (state : OopExecutionState) (report : ApplyActionResultReport)
    (working_status_index : Nat) (status : StatusElement) (sim : BoardSim)
    (parser0 : OopParser) :
    Option (Bool × OopExecutionState × OopParser × List Action) :=
  match state.action_to_check_on_next_step with
  | some (OopAsyncAction.move instruction_when_not_blocked) =>
    let parser1 :=
      if report.move_was_blocked = BlockedStatus.notBlocked then
        { parser0 with pos := instruction_when_not_blocked }
      else parser0
    some (true, { state with action_to_check_on_next_step := none }, parser1, [])
  | some OopAsyncAction.tryMove =>
    let state1 := { state with action_to_check_on_next_step := none }
    if report.move_was_blocked = BlockedStatus.blocked then
      let eff := parseCommandFn parser0 state1 working_status_index sim
      apply_outcome_result (eff.mergeState state1) eff.result eff.parser eff.actions
    else
      let parser1 := (parser0.read_to_end_of_line).2.skip_new_line
      some (true, state1, parser1, [])
  | some (OopAsyncAction.put direction tile_type) =>
    let off := direction.to_offset
    let dest_x := (status.location_x : Int) + off.1
    let dest_y := (status.location_y : Int) + off.2
    let acts :=
      match get_tile sim dest_x dest_y with
      | some dest_tile =>
        if dest_tile.element_id = tile_type.element_id then
          match tile_type.colour with
          | some colour => [Action.setColour dest_x dest_y colour]
          | none => []
        else
          [create_tile_action tile_type (u8cast dest_x) (u8cast dest_y)]
      | none => []
    some (false, { state with action_to_check_on_next_step := none }, parser0, acts)
  | some OopAsyncAction.take =>
    let state1 := { state with action_to_check_on_next_step := none }
    if report.take_player_item_failed then
      let eff := parseCommandFn parser0 state1 working_status_index sim
      apply_outcome_result (eff.mergeState state1) eff.result eff.parser eff.actions
    else
      let parser1 := (parser0.read_to_end_of_line).2.skip_new_line
      some (false, state1, parser1, [])
  | none =>
    let state1 := { state with current_start_of_action_pos := some parser0.pos }
    let eff := parseActionFn parser0 state1 working_status_index sim
    apply_outcome_result (eff.mergeState state1) eff.result eff.parser eff.actions

/-- The tail of `next_step` (`oop_parser.rs` lines 368-393): bump the
operation count, force a finish past 64 operations, prepend the cursor
update when the cursor moved, and append the code update when the code was
modified. -/
def OopExecutionState.next_step_finish (working_status_index : Nat)
    (old_instruction : Int)
    (stepped : Bool × OopExecutionState × OopParser × List Action) :
    OopExecutionState × ActionContinuationResult :=
  let state3 := { stepped.2.1 with
    executed_operation_count := stepped.2.1.executed_operation_count + 1 }
  let is_finished2 :=
    if 64 < state3.executed_operation_count then true else stepped.1
  let acts3 :=
    if stepped.2.2.1.pos ≠ old_instruction then
      Action.setCodeCurrentInstruction working_status_index stepped.2.2.1.pos ::
        stepped.2.2.2
    else stepped.2.2.2
  let acts4 :=
    if stepped.2.2.1.owned then
      acts3 ++ [Action.setCode working_status_index stepped.2.2.1.code]
    else acts3
  (state3, { actions := acts4, finished := is_finished2 })

/-- `OopExecutionState::next_step` from `oop_parser.rs` lines 270-394,
parameterised over the `parse_action` and `parse_command` bodies
(`parseActionFn`, `parseCommandFn`).  `none` models the source panics
(missing `current_start_of_action_pos`, cyclic bound code). -/
def OopExecutionState.next_step (parseActionFn parseCommandFn : OopParseFn)
    (state : OopExecutionState) (report : ApplyActionResultReport)
    (status_index : Nat) (sim : BoardSim) :
    Option (OopExecutionState × ActionContinuationResult) :=
  let working_status_index := state.override_working_status_index.getD status_index
  let status := sim.status_elements.getD working_status_index StatusElement.default
  if status.code_current_instruction < 0 then
    some (state, { actions := [], finished := true })
  else
    match get_status_code sim status with
    | none => none
    | some code =>
      match OopExecutionState.next_step_core parseActionFn parseCommandFn state
          report working_status_index status sim
          (OopParser.new code status.code_current_instruction) with
      | none => none
      | some stepped =>
        some (OopExecutionState.next_step_finish working_status_index
          status.code_current_instruction stepped)



/-! ### C6: the 64-operation cap -/

theorem apply_outcome_result_count (state : OopExecutionState)
    (res : Except DosStr ParseActionOutcome) (p : OopParser)
    (actions : List Action)
    (out : Bool × OopExecutionState × OopParser × List Action)
    (h : apply_outcome_result state res p actions = some out) :
    out.2.1.executed_operation_count = state.executed_operation_count := by
  cases res with
  | ok outcome =>
    simp only [apply_outcome_result] at h
    split at h
    · split at h
      · cases h; rfl
      · cases h
    · cases h; rfl
  | error e =>
    simp only [apply_outcome_result] at h
    cases h; rfl

theorem next_step_core_count (pa pc : OopParseFn) (state : OopExecutionState)
    (report : ApplyActionResultReport) (wsi : Nat) (status : StatusElement)
    (sim : BoardSim) (p0 : OopParser)
    (out : Bool × OopExecutionState × OopParser × List Action)
    (h : OopExecutionState.next_step_core pa pc state report wsi status sim p0
      = some out) :
    out.2.1.executed_operation_count = state.executed_operation_count := by
  unfold OopExecutionState.next_step_core at h
  match hact : state.action_to_check_on_next_step with
  | some (OopAsyncAction.move instr) =>
    rw [hact] at h; dsimp only at h; cases h; rfl
  | some OopAsyncAction.tryMove =>
    rw [hact] at h; dsimp only at h
    split at h
    · have hm := apply_outcome_result_count _ _ _ _ _ h
      exact hm
    · cases h; rfl
  | some (OopAsyncAction.put dir tt) =>
    rw [hact] at h; dsimp only at h; cases h; rfl
  | some OopAsyncAction.take =>
    rw [hact] at h; dsimp only at h
    split at h
    · have hm := apply_outcome_result_count _ _ _ _ _ h
      exact hm
    · cases h; rfl
  | none =>
    rw [hact] at h; dsimp only at h
    have hm := apply_outcome_result_count _ _ _ _ _ h
    exact hm

theorem next_step_finish_facts (wsi : Nat) (old : Int)
    (stepped : Bool × OopExecutionState × OopParser × List Action) :
    (OopExecutionState.next_step_finish wsi old stepped).1.executed_operation_count
      = stepped.2.1.executed_operation_count + 1 ∧
    ((OopExecutionState.next_step_finish wsi old stepped).2.finished = false →
      stepped.2.1.executed_operation_count + 1 ≤ 64) := by
  unfold OopExecutionState.next_step_finish
  dsimp only
  refine ⟨rfl, ?_⟩
  intro hf
  by_cases hc : 64 < stepped.2.1.executed_operation_count + 1
  · rw [if_pos hc] at hf
    exact Bool.noConfusion hf
  · omega

theorem next_step_count (pa pc : OopParseFn) (st : OopExecutionState)
    (report : ApplyActionResultReport) (si : Nat) (sim : BoardSim)
    (out : OopExecutionState × ActionContinuationResult)
    (h : OopExecutionState.next_step pa pc st report si sim = some out)
    (hf : out.2.finished = false) :
    out.1.executed_operation_count = st.executed_operation_count + 1 ∧
    st.executed_operation_count < 64 := by
  unfold OopExecutionState.next_step at h
  dsimp only at h
  split at h
  · cases h
    exact absurd hf (by simp)
  · split at h
    · exact Option.noConfusion h
    · split at h
      · exact Option.noConfusion h
      · rename_i stepped hcore
        cases h
        have hc := next_step_core_count _ _ _ _ _ _ _ _ _ hcore
        have hfin := next_step_finish_facts
          (st.override_working_status_index.getD si)
          ((sim.status_elements.getD (st.override_working_status_index.getD si)
            StatusElement.default).code_current_instruction) stepped
        have h2 := hfin.2 hf
        refine ⟨?_, by omega⟩
        rw [hfin.1, hc]

/-- The engine's continuation loop around `next_step` (the
`ActionContinuation` processing driven from `process_status` /
`apply_action_result`): keep calling `next_step` until it reports
`finished`.  The report and simulator seen by each call are arbitrary
(oracles `repO`, `simO`); `fuel` bounds the number of calls considered.
`none` means the fuel ran out before the run finished; `some none` is a
source panic inside `next_step`; `some (some k)` means the run finished
after `k` calls. -/
def runScriptFuel (pa pc : OopParseFn) (repO : Nat → ApplyActionResultReport)
    (simO : Nat → BoardSim) (si : Nat) :
    Nat → OopExecutionState → Nat → Option (Option Nat)
  | 0, _, _ => none
  | fuel + 1, st, calls =>
    match OopExecutionState.next_step pa pc st (repO calls) si (simO calls) with
    | none => some none
    | some (st2, res) =>
      if res.finished = true then some (some (calls + 1))
      else runScriptFuel pa pc repO simO si fuel st2 (calls + 1)

theorem runScriptFuel_total (pa pc : OopParseFn)
    (repO : Nat → ApplyActionResultReport) (simO : Nat → BoardSim) (si : Nat) :
    ∀ (fuel : Nat) (st : OopExecutionState) (calls : Nat),
      65 ≤ st.executed_operation_count + fuel → 1 ≤ fuel →
      runScriptFuel pa pc repO simO si fuel st calls ≠ none := by
  intro fuel
  induction fuel with
  | zero => intro st calls h1 h2; omega
  | succ fuel ih =>
    intro st calls h1 h2
    rw [runScriptFuel]
    split
    · exact fun hx => Option.noConfusion hx
    · rename_i st2 res hstep
      split
      · exact fun hx => Option.noConfusion hx
      · rename_i hf
        have hcnt := next_step_count pa pc st (repO calls) si (simO calls)
          (st2, res) hstep (by simp at hf; exact hf)
        dsimp only at hcnt
        exact ih st2 (calls + 1) (by omega) (by omega)

/-- C6: a single run of a script continuation executes at most 64
operations before being forced to finish.  Per call: once the execution
state records 64 executed operations, `next_step` reports `finished`
whatever the parser does; and an unfinished call always records exactly one
more executed operation, starting from fewer than 64.  Globally: from a
fresh execution state, 65 calls of the continuation loop always suffice for
the run to end (by finishing or by a source panic), for every behaviour of
`parse_action`/`parse_command` — so the interpreter terminates even on
scripts that loop forever. -/
theorem c6_operation_cap :
    (∀ (pa pc : OopParseFn) (st : OopExecutionState)
      (report : ApplyActionResultReport) (si : Nat) (sim : BoardSim)
      (out : OopExecutionState × ActionContinuationResult),
      OopExecutionState.next_step pa pc st report si sim = some out →
      (64 ≤ st.executed_operation_count → out.2.finished = true) ∧
      (out.2.finished = false →
        out.1.executed_operation_count = st.executed_operation_count + 1 ∧
        st.executed_operation_count < 64)) ∧
    (∀ (pa pc : OopParseFn) (repO : Nat → ApplyActionResultReport)
      (simO : Nat → BoardSim) (si : Nat) (st : OopExecutionState) (calls : Nat),
      st.executed_operation_count = 0 →
      runScriptFuel pa pc repO simO si 65 st calls ≠ none) := by
  constructor
  · intro pa pc st report si sim out h
    constructor
    · intro hge
      by_cases hf : out.2.finished = true
      · exact hf
      · have := next_step_count pa pc st report si sim out h (by simp at hf; exact hf)
        omega
    · exact next_step_count pa pc st report si sim out h
  · intro pa pc repO simO si st calls h0
    exact runScriptFuel_total pa pc repO simO si 65 st calls (by omega) (by omega)

/-- A `parse_action`/`parse_command` oracle that makes no progress at all:
the outcome is `Ok` with nothing set, so the continuation would loop
forever were it not for the operation cap. -/
def c6WitFn : OopParseFn := fun p _ _ _ =>
  { result := Except.ok { finish_immediately := false, dont_progress := false }
    parser := p
    actions := []
    delete_after := false
    override_working_status_index := none
    text_message_content_lines := []
    action_to_check_on_next_step := none }

def c6WitReport : ApplyActionResultReport where
  move_was_blocked := BlockedStatus.notBlocked
  take_player_item_failed := false
  removed_status_indices := []
  reprocess_same_status_index_on_removal := false

/-- A simulator with one status owning a tiny script. -/
def c6WitSim : BoardSim :=
  { BoardSim.new WorldHeader.zzt_default with
    status_elements := [StatusElement.default] }

def c6WitState0 : OopExecutionState := OopExecutionState.new false none

def c6WitState64 : OopExecutionState :=
  { c6WitState0 with executed_operation_count := 64 }

def c6WitOut64 : OopExecutionState × ActionContinuationResult :=
  (OopExecutionState.next_step c6WitFn c6WitFn c6WitState64 c6WitReport 0
    c6WitSim).getD (c6WitState64, { actions := [], finished := false })

theorem c6_operation_cap_witness :
    (OopExecutionState.next_step c6WitFn c6WitFn c6WitState64 c6WitReport 0
        c6WitSim = some c6WitOut64 ∧
      64 ≤ c6WitState64.executed_operation_count ∧
      c6WitOut64.2.finished = true) ∧
    (c6WitState0.executed_operation_count = 0 ∧
      runScriptFuel c6WitFn c6WitFn (fun _ => c6WitReport) (fun _ => c6WitSim)
        0 65 c6WitState0 0 ≠ none) :=
  ⟨⟨rfl, by decide,
    ((c6_operation_cap.1 c6WitFn c6WitFn c6WitState64 c6WitReport 0 c6WitSim
      c6WitOut64 rfl).1 (by decide))⟩,
   ⟨rfl, c6_operation_cap.2 c6WitFn c6WitFn (fun _ => c6WitReport)
      (fun _ => c6WitSim) 0 c6WitState0 0 rfl⟩⟩


/-! ### C5: script runtime errors -/

/-- C5: what `next_step` actually does when `parse_action` reports a script
runtime error `e` (bad direction word, unknown command, and so on): the
continuation finishes and an open-scroll board message holding the one-line
diagnostic is emitted, but the erroring status's script cursor is NOT set
to −1: the only cursor action in the result is
`setCodeCurrentInstruction wsi eff.parser.pos`, which stores the position
the parser had reached, so the program is not halted.  (The −1 assignment
described by the specification exists in the source only as a commented-out
TODO in `OopParser::new`.) -/
theorem c5_error_path (pa pc : OopParseFn) (st : OopExecutionState)
    (report : ApplyActionResultReport) (si : Nat) (sim : BoardSim)
    (wsi : Nat) (status : StatusElement) (code : DosStr)
    (eff : OopParseEffect) (e : DosStr)
    (hwsi : wsi = st.override_working_status_index.getD si)
    (hstatus : status = sim.status_elements.getD wsi StatusElement.default)
    (hasync : st.action_to_check_on_next_step = none)
    (hcur : ¬ status.code_current_instruction < 0)
    (hcode : get_status_code sim status = some code)
    (heff : eff = pa (OopParser.new code status.code_current_instruction)
      { st with current_start_of_action_pos := some status.code_current_instruction }
      wsi sim)
    (herr : eff.result = Except.error e) :
    ∃ st2 res,
      OopExecutionState.next_step pa pc st report si sim = some (st2, res) ∧
      res.finished = true ∧
      Action.sendBoardMessage (BoardMessage.openScroll [] [e]) ∈ res.actions ∧
      res.actions =
        (if eff.parser.pos ≠ status.code_current_instruction then
          [Action.setCodeCurrentInstruction wsi eff.parser.pos] else []) ++
        eff.actions ++
        [Action.sendBoardMessage (BoardMessage.openScroll [] [e])] ++
        (if eff.parser.owned then [Action.setCode wsi eff.parser.code] else []) := by
  subst hwsi
  subst hstatus
  subst heff
  unfold OopExecutionState.next_step
  dsimp only
  rw [if_neg hcur, hcode]
  dsimp only
  unfold OopExecutionState.next_step_core
  rw [hasync]
  rw [hasync] at herr
  dsimp only [OopParser.new]
  dsimp only [OopParser.new] at herr
  unfold apply_outcome_result
  rw [herr]
  dsimp only
  refine ⟨_, _, rfl, ?_, ?_, ?_⟩
  · dsimp only
    split <;> rfl
  · dsimp only
    split_ifs <;> simp
  · dsimp only
    split_ifs <;> simp

/-- An oracle producing the diagnostic `BAD` with the parser three bytes
further on (as a failed parse of a word would leave it). -/
def c5WitFn : OopParseFn := fun p _ _ _ =>
  { result := Except.error [66, 65, 68]
    parser := { p with pos := p.pos + 3 }
    actions := []
    delete_after := false
    override_working_status_index := none
    text_message_content_lines := []
    action_to_check_on_next_step := none }

def c5WitSim : BoardSim :=
  { BoardSim.new WorldHeader.zzt_default with
    status_elements := [{ StatusElement.default with
      code_source := CodeSource.owned [35, 103, 111, 32, 120, 13] }] }

def c5WitState : OopExecutionState := OopExecutionState.new false none

def c5WitReport : ApplyActionResultReport where
  move_was_blocked := BlockedStatus.notBlocked
  take_player_item_failed := false
  removed_status_indices := []
  reprocess_same_status_index_on_removal := false

def c5WitEff : OopParseEffect :=
  c5WitFn (OopParser.new [35, 103, 111, 32, 120, 13] 0)
    { c5WitState with current_start_of_action_pos := some 0 } 0 c5WitSim

theorem c5_error_path_witness :
    ∃ st2 res,
      OopExecutionState.next_step c5WitFn c5WitFn c5WitState c5WitReport 0
        c5WitSim = some (st2, res) ∧
      res.finished = true ∧
      Action.sendBoardMessage (BoardMessage.openScroll [] [[66, 65, 68]])
        ∈ res.actions ∧
      res.actions =
        (if c5WitEff.parser.pos ≠
            (c5WitSim.status_elements.getD 0
              StatusElement.default).code_current_instruction then
          [Action.setCodeCurrentInstruction 0 c5WitEff.parser.pos] else []) ++
        c5WitEff.actions ++
        [Action.sendBoardMessage (BoardMessage.openScroll [] [[66, 65, 68]])] ++
        (if c5WitEff.parser.owned then [Action.setCode 0 c5WitEff.parser.code]
          else []) :=
  c5_error_path c5WitFn c5WitFn c5WitState c5WitReport 0 c5WitSim 0
    (c5WitSim.status_elements.getD 0 StatusElement.default)
    [35, 103, 111, 32, 120, 13] c5WitEff [66, 65, 68]
    rfl rfl rfl (by decide) rfl rfl rfl


/-! ### C3: the cycle guard in `process_status` -/

/-- `BoardSimulatorStepState::process_status` from `board_simulator.rs`
lines 1068-1088, parameterised over the behaviour table and the action
reducer: `do_nothing` is `ActionResult::do_nothing()`, `stepO` is
`behaviour_for_pos(..).step(..)` and `applyO` is
`sim.apply_action_result(..)`.  The function never inspects the step
result, so it is polymorphic in its type `R` (and in the reducer's result
type `S`). -/
def process_status {R S : Type} (do_nothing : R)
    (stepO : Nat → BoardSim → R)
    (applyO : Int → Int → R → Nat → Option Nat → S)
    (global_cycle : Nat) (status_index : Nat) (sim : BoardSim) : S :=
  let status_element := sim.status_elements.getD status_index StatusElement.default
  let tile_x : Int := status_element.location_x
  let tile_y : Int := status_element.location_y
  let step_result : R :=
    if 0 < status_element.cycle then
      if (Int.tmod ((global_cycle : Int) -
          Int.tmod (status_index : Int) status_element.cycle)
          status_element.cycle) = 0 then
        stepO status_index sim
      else do_nothing
    else do_nothing
  applyO tile_x tile_y step_result global_cycle (some status_index)

/-- The specification's wording of the guard: the cycle is positive and
`(global_cycle − (index mod cycle)) mod cycle` is zero. -/
def c3ShouldStep (global_cycle status_index : Nat) (cycle : Int) : Prop :=
  0 < cycle ∧
    Int.tmod ((global_cycle : Int) - Int.tmod (status_index : Int) cycle) cycle = 0

instance (gc i : Nat) (cy : Int) : Decidable (c3ShouldStep gc i cy) := by
  unfold c3ShouldStep; infer_instance

/-- C3: in its partial step, the status at index `i` runs its behaviour's
`step` function exactly when its cycle is positive and
`(global_cycle − (i mod cycle)) mod cycle = 0` — the result handed to the
action reducer is the behaviour's step result when the guard holds and
`ActionResult::do_nothing()` otherwise; in particular a status whose cycle
is `0` never steps. -/
theorem c3_cycle_guard {R S : Type} (do_nothing : R)
    (stepO : Nat → BoardSim → R)
    (applyO : Int → Int → R → Nat → Option Nat → S)
    (gc i : Nat) (sim : BoardSim) :
    (process_status do_nothing stepO applyO gc i sim =
      applyO (sim.status_elements.getD i StatusElement.default).location_x
        (sim.status_elements.getD i StatusElement.default).location_y
        (if c3ShouldStep gc i (sim.status_elements.getD i StatusElement.default).cycle
          then stepO i sim else do_nothing)
        gc (some i)) ∧
    ((sim.status_elements.getD i StatusElement.default).cycle = 0 →
      process_status do_nothing stepO applyO gc i sim =
        applyO (sim.status_elements.getD i StatusElement.default).location_x
          (sim.status_elements.getD i StatusElement.default).location_y
          do_nothing gc (some i)) := by
  constructor
  · unfold process_status c3ShouldStep
    dsimp only
    split_ifs with h1 h2 h3 h4 h5 <;> first | rfl | (exfalso; tauto)
  · intro hz
    unfold process_status
    dsimp only
    rw [hz]
    rfl

theorem c3_cycle_guard_witness :
    ((0 : Int) = 0 ∧
      process_status (0 : Nat) (fun _ _ => 1)
        (fun _ _ r _ _ => r) 0 0
        { BoardSim.new WorldHeader.zzt_default with
          status_elements := [{ StatusElement.default with cycle := 0 }] } = 0) ∧
    process_status (0 : Nat) (fun _ _ => 1) (fun _ _ r _ _ => r) 6 3
      { BoardSim.new WorldHeader.zzt_default with
        status_elements := [StatusElement.default, StatusElement.default,
          StatusElement.default, { StatusElement.default with cycle := 3 }] } =
      (if c3ShouldStep 6 3 3 then 1 else 0) :=
  ⟨⟨rfl, (c3_cycle_guard (0 : Nat) (fun _ _ => 1) (fun _ _ r _ _ => r) 0 0
      { BoardSim.new WorldHeader.zzt_default with
        status_elements := [{ StatusElement.default with cycle := 0 }] }).2
      (by decide)⟩,
   (c3_cycle_guard (0 : Nat) (fun _ _ => 1) (fun _ _ r _ _ => r) 6 3
      { BoardSim.new WorldHeader.zzt_default with
        status_elements := [StatusElement.default, StatusElement.default,
          StatusElement.default, { StatusElement.default with cycle := 3 }] }).1⟩


/-! ### C8: bullets dying against blocked cells -/

/-- `Behaviour::blocked` for the modelled behaviour kinds: the trait
default is `Blocked` (`behaviour.rs` lines 463-465) and among the kinds
here only `Empty` (`misc.rs`) and `Fake` (`terrains.rs`) override it to
`NotBlocked`; none of them consults `is_player`. -/
def Behaviour.blocked : Behaviour → Bool → BlockedStatus
  | Behaviour.emptyB, _ => BlockedStatus.notBlocked
  | Behaviour.fakeB, _ => BlockedStatus.notBlocked
  | _, _ => BlockedStatus.blocked

/-- `Behaviour::blocked_for_bullets`: the trait default forwards to
`blocked(false)` (`behaviour.rs` lines 468-470); only `Water` overrides it
(bullets fly over water, `terrains.rs` lines 26-28). -/
def Behaviour.blocked_for_bullets : Behaviour → BlockedStatus
  | Behaviour.waterB => BlockedStatus.notBlocked
  | b => b.blocked false

/-- `Behaviour::destructable`: the trait default is `false`; overridden to
`true` by `Empty`, `Bullet`, `Breakable` and `Fake` among the modelled
kinds. -/
def Behaviour.destructable : Behaviour → Bool
  | Behaviour.emptyB => true
  | Behaviour.bulletB => true
  | Behaviour.breakableB => true
  | Behaviour.fakeB => true
  | _ => false

/-- `BoardSimulator::behaviour_for_element_id` (`board_simulator.rs` lines
273-282): a missing or unset entry falls back to `DEFAULT_BEHAVIOUR`. -/
def behaviour_for_element_id (sim : BoardSim) (element_id : Nat) : Behaviour :=
  match sim.behaviours.getD element_id none with
  | some b => b
  | none => Behaviour.defaultB

/-- `BoardSimulator::behaviour_for_pos` (`board_simulator.rs` lines
284-291). -/
def behaviour_for_pos (sim : BoardSim) (x y : Int) : Behaviour :=
  match get_tile sim x y with
  | some tile => behaviour_for_element_id sim tile.element_id
  | none => Behaviour.defaultB

/-- `DamageType` from `behaviour.rs`. -/
inductive DamageType where
  | shot (by_player : Bool)
  | bombed
  | other
deriving DecidableEq, Repr

/-- The shape of a `Behaviour::damage` call as the bullet step uses it: the
actions the callee pushes.  The bullet scenarios below never reach a
destructable target, so the callee stays uninterpreted. -/
def DamageFn : Type :=
  Behaviour → Int → Int → DamageType → BoardSim → List Action

/-- `ActionResult` from `behaviour.rs`; the continuation trait object is
recorded as a flag only (`apply_action_result` below declines continuation
runs, and no behaviour modelled here returns one). -/
structure ActionResult where
  actions : List Action
  has_continuation : Bool
deriving DecidableEq, Repr

/-- `ActionResult::do_nothing()`. -/
def ActionResult.do_nothing : ActionResult where
  actions := []
  has_continuation := false

/-- The ricochet-deflection scan at the top of `BulletBehaviour::step`
(`misc.rs` lines 96-133): the final `(new_step_x, new_step_y)`. -/
def bullet_new_step (status : StatusElement) (sim : BoardSim) : Int × Int :=
  let lx : Int := status.location_x
  let ly : Int := status.location_y
  match get_tile sim (lx + status.step_x) (ly + status.step_y) with
  | some dest_tile =>
    if dest_tile.element_id = ET_RICOCHET then (-status.step_x, -status.step_y)
    else if (behaviour_for_pos sim (lx + status.step_x) (ly + status.step_y)).blocked_for_bullets
        = BlockedStatus.blocked then
      match get_tile sim (lx + status.step_y) (ly + status.step_x) with
      | some cw_dest_tile =>
        if cw_dest_tile.element_id = ET_RICOCHET then (-status.step_y, -status.step_x)
        else
          match get_tile sim (lx - status.step_y) (ly - status.step_x) with
          | some ccw_dest_tile =>
            if ccw_dest_tile.element_id = ET_RICOCHET then (status.step_y, status.step_x)
            else (status.step_x, status.step_y)
          | none => (status.step_x, status.step_y)
      | none => (status.step_x, status.step_y)
    else (status.step_x, status.step_y)
  | none => (status.step_x, status.step_y)

/-- `BulletBehaviour::step` from `misc.rs` lines 92-199, with
`Behaviour::damage` as an oracle (`damageO`). -/
def bullet_step (damageO : DamageFn) (status : StatusElement)
    (status_index : Nat) (sim : BoardSim) : ActionResult :=
  if status.step_x ≠ 0 ∨ status.step_y ≠ 0 then
    let lx : Int := status.location_x
    let ly : Int := status.location_y
    let new_step := bullet_new_step status sim
    let next_x := lx + new_step.1
    let next_y := ly + new_step.2
    let dest_behaviour := behaviour_for_pos sim next_x next_y
    if dest_behaviour.blocked_for_bullets = BlockedStatus.blocked then
      let acts1 := [Action.setTile lx ly
        { element_id := status.under_element_id, colour := status.under_colour }
        none]
      let acts2 :=
        if dest_behaviour.destructable then
          acts1 ++ damageO dest_behaviour next_x next_y
            (DamageType.shot (status.param1 = 0)) sim
        else acts1
      { actions := acts2 ++ [Action.reprocessSameStatusIndexOnRemoval],
        has_continuation := false }
    else
      let acts1 :=
        match get_tile sim next_x next_y with
        | some dest_tile =>
          [Action.setColour lx ly
            (Nat.lor (if dest_tile.element_id = ET_WATER then 0x70 else 0x00) 0x0f)]
        | none => []
      let acts2 := acts1 ++
        [Action.moveTile lx ly next_x next_y new_step.1 new_step.2 false false]
      let acts3 :=
        if new_step.1 ≠ status.step_x ∨ new_step.2 ≠ status.step_y then
          acts2 ++ [Action.setStep status_index new_step.1 new_step.2]
        else acts2
      { actions := acts3, has_continuation := false }
  else
    { actions := [], has_continuation := false }

/-- `ApplyActionResultReport::new()`. -/
def ApplyActionResultReport.new : ApplyActionResultReport where
  move_was_blocked := BlockedStatus.notBlocked
  take_player_item_failed := false
  removed_status_indices := []
  reprocess_same_status_index_on_removal := false

/-- Fuel-structural twin of `removeStatusForPosLoop` (definitionally
evaluable; `removeStatusForPosGo_spec` identifies the two). -/
def removeStatusForPosGo (remove_x remove_y : Int) :
    Nat → List StatusElement → Nat → List StatusElement × List Nat
  | 0, statuses, _ => (statuses, [])
  | fuel + 1, statuses, idx =>
    if idx < statuses.length then
      let elem := statuses.getD idx StatusElement.default
      if ((elem.location_x : Int), (elem.location_y : Int)) = (remove_x, remove_y) then
        let next := removeStatusForPosGo remove_x remove_y fuel
          (removeOneStatus idx statuses) idx
        (next.1, idx :: next.2)
      else
        removeStatusForPosGo remove_x remove_y fuel statuses (idx + 1)
    else (statuses, [])

theorem removeStatusForPosGo_spec (remove_x remove_y : Int) :
    ∀ (fuel : Nat) (statuses : List StatusElement) (idx : Nat),
      statuses.length - idx ≤ fuel →
      removeStatusForPosGo remove_x remove_y fuel statuses idx =
        removeStatusForPosLoop remove_x remove_y statuses idx := by
  intro fuel
  induction fuel with
  | zero =>
    intro statuses idx h
    rw [removeStatusForPosGo, removeStatusForPosLoop_ge _ _ _ _ (by omega)]
  | succ fuel ih =>
    intro statuses idx h
    by_cases hlt : idx < statuses.length
    · simp only [removeStatusForPosGo]
      rw [if_pos hlt]
      rw [removeStatusForPosLoop, dif_pos hlt]
      dsimp only
      by_cases hmatch :
          (((statuses.getD idx StatusElement.default).location_x : Int),
            ((statuses.getD idx StatusElement.default).location_y : Int))
          = (remove_x, remove_y)
      · rw [if_pos hmatch, if_pos hmatch]
        rw [ih (removeOneStatus idx statuses) idx
          (by rw [removeOneStatus_length idx statuses hlt]; omega)]
      · rw [if_neg hmatch, if_neg hmatch]
        exact ih statuses (idx + 1) (by omega)
    · simp only [removeStatusForPosGo]
      rw [if_neg hlt]
      rw [removeStatusForPosLoop_ge _ _ _ _ (by omega)]

/-- `BoardSimulator::remove_status_for_pos` again, through the evaluable
loop. -/
def removeStatusForPosC (remove_x remove_y : Int)
    (statuses : List StatusElement) : List StatusElement × List Nat :=
  removeStatusForPosGo remove_x remove_y statuses.length statuses 0

/-- The evaluable form agrees with the `removeStatusForPos` the C4
development is about. -/
theorem removeStatusForPosC_eq (remove_x remove_y : Int)
    (statuses : List StatusElement) :
    removeStatusForPosC remove_x remove_y statuses =
      removeStatusForPos remove_x remove_y statuses :=
  removeStatusForPosGo_spec remove_x remove_y statuses.length statuses 0 (by omega)

/-- `BoardSimulator::apply_action` (`board_simulator.rs` lines 704-955) for
the action kinds a bullet step can produce (`SetTile`, `SetColour`,
`MoveTile` without push, `SetStep`, `ReprocessSameStatusIndexOnRemoval`,
`SendBoardMessage`); the remaining kinds, and pushing moves (which go
through `push_tile`), are not modelled and yield `none`. -/
def apply_action (sim : BoardSim) (action : Action)
    (report : ApplyActionResultReport) (msgs : List BoardMessage) :
    Option (BoardSim × ApplyActionResultReport × List BoardMessage) :=
  match action with
  | Action.setTile x y tile status_element =>
    let sim1 := (set_tile sim x y tile).1
    let removed := removeStatusForPosC x y sim1.status_elements
    let sim2 := { sim1 with status_elements := removed.1 }
    let report1 := { report with
      removed_status_indices := report.removed_status_indices ++ removed.2 }
    let sim3 :=
      match status_element with
      | some st => { sim2 with status_elements := sim2.status_elements ++ [st] }
      | none => sim2
    some (sim3, report1, msgs)
  | Action.setColour x y colour =>
    match get_tile sim x y with
    | some t => some ((set_tile sim x y { t with colour := colour }).1, report, msgs)
    | none => some (sim, report, msgs)
  | Action.moveTile from_x from_y to_x to_y _ _ check_push _ =>
    if check_push then none
    else some (move_tile sim from_x from_y to_x to_y, report, msgs)
  | Action.setStep status_index step_x step_y =>
    if status_index < sim.status_elements.length then
      let st := sim.status_elements.getD status_index StatusElement.default
      let st2 := { st with step_x := step_x, step_y := step_y }
      let sim2 := { sim with
        status_elements := sim.status_elements.set status_index st2 }
      some (sim2, report, msgs)
    else none
  | Action.reprocessSameStatusIndexOnRemoval =>
    some (sim, { report with reprocess_same_status_index_on_removal := true }, msgs)
  | Action.sendBoardMessage msg => some (sim, report, msgs ++ [msg])
  | _ => none

/-- The action loop of `apply_action_result`. -/
def apply_actions (sim : BoardSim) (actions : List Action)
    (report : ApplyActionResultReport) (msgs : List BoardMessage) :
    Option (BoardSim × ApplyActionResultReport × List BoardMessage) :=
  match actions with
  | [] => some (sim, report, msgs)
  | a :: rest =>
    match apply_action sim a report msgs with
    | some (sim2, report2, msgs2) => apply_actions sim2 rest report2 msgs2
    | none => none

/-- `BoardSimulator::apply_action_result` (`board_simulator.rs` lines
635-693): apply the actions against a fresh report; a continuation
together with a processing status index would enter the continuation loop,
which no behaviour modelled here produces. -/
def apply_action_result (sim : BoardSim) (action_result : ActionResult)
    (processing_status_index : Option Nat) (msgs : List BoardMessage) :
    Option (BoardSim × ApplyActionResultReport × List BoardMessage) :=
  match apply_actions sim action_result.actions ApplyActionResultReport.new msgs with
  | none => none
  | some (sim2, report, msgs2) =>
    match processing_status_index with
    | some _ =>
      if action_result.has_continuation then none else some (sim2, report, msgs2)
    | none => some (sim2, report, msgs2)

/-- `Behaviour::step` for the modelled kinds: only the bullet overrides the
trait default, which does nothing (`Empty`, `BoardEdge`, the terrains and
the fallback behaviour all keep it). -/
def Behaviour.step (damageO : DamageFn) :
    Behaviour → StatusElement → Nat → BoardSim → ActionResult
  | Behaviour.bulletB, status, status_index, sim =>
    bullet_step damageO status status_index sim
  | _, _, _, _ => ActionResult.do_nothing

/-- `process_status` with the modelled behaviour table and reducer plugged
into the generic skeleton. -/
def process_statusC (damageO : DamageFn) (global_cycle status_index : Nat)
    (sim : BoardSim) (msgs : List BoardMessage) :
    Option (BoardSim × ApplyActionResultReport × List BoardMessage) :=
  process_status ActionResult.do_nothing
    (fun i s =>
      let st := s.status_elements.getD i StatusElement.default
      (behaviour_for_pos s (st.location_x : Int) (st.location_y : Int)).step
        damageO st i s)
    (fun _ _ r _ psi => apply_action_result sim r psi msgs)
    global_cycle status_index sim

/-- The index-tracking part of `BoardSimulatorStepState`. -/
structure BoardStepState where
  global_cycle : Nat
  processing_status_index_opt : Option Nat
deriving DecidableEq, Repr

/-- `BoardSimulatorStepState::partial_step` (`board_simulator.rs` lines
1029-1062): pick the next status index, process it, then subtract the
number of removed indices below the current index — or at it, when the
reprocess-same-index latch was set.  The `usize` decrement is guarded
(underflow is a Rust debug panic, `none` here). -/
def partial_stepC (damageO : DamageFn) (process_same_status : Bool)
    (state : BoardStepState) (sim : BoardSim) (msgs : List BoardMessage) :
    Option (BoardStepState × Bool × BoardSim × List BoardMessage) :=
  let status_index :=
    match state.processing_status_index_opt with
    | some i => if process_same_status then i else i + 1
    | none => 0
  let state1 := { state with processing_status_index_opt := some status_index }
  if status_index < sim.status_elements.length then
    match process_statusC damageO state.global_cycle status_index sim msgs with
    | none => none
    | some (sim2, report, msgs2) =>
      let removed_below_or_at := report.removed_status_indices.countP
        (fun r => decide (r < status_index) ||
          (report.reprocess_same_status_index_on_removal && decide (r = status_index)))
      if removed_below_or_at ≤ status_index then
        let state2 := { state1 with
          processing_status_index_opt := some (status_index - removed_below_or_at) }
        some (state2, false, sim2, msgs2)
      else none
  else
    some (state1, true, sim, msgs)

/-- One complete board step: `engine.rs` lines 886-890 call `partial_step`
until it reports done, pausing as soon as a board message is sent. -/
def run_board_step (damageO : DamageFn) :
    Nat → BoardStepState → BoardSim → List BoardMessage →
    Option (BoardSim × List BoardMessage)
  | 0, _, _, _ => none
  | fuel + 1, state, sim, msgs =>
    if msgs.isEmpty then
      match partial_stepC damageO false state sim msgs with
      | none => none
      | some (state2, is_done, sim2, msgs2) =>
        if is_done then some (sim2, msgs2)
        else run_board_step damageO fuel state2 sim2 msgs2
    else some (sim, msgs)


/-- The behaviour table `load_zzt_behaviours` registers, restricted to the
modelled kinds (entries this development does not model are left `none`,
falling back to the default behaviour exactly as unregistered kinds do in
the source; `Solid` and `Normal` are unregistered in the source too). -/
def c8Behaviours : List (Option Behaviour) :=
  (List.range 33).map (fun i =>
    if i = ET_EMPTY then some Behaviour.emptyB
    else if i = ET_BOARD_EDGE then some Behaviour.boardEdgeB
    else if i = ET_BULLET then some Behaviour.bulletB
    else if i = ET_WATER then some Behaviour.waterB
    else if i = ET_BREAKABLE then some Behaviour.breakableB
    else if i = ET_BOULDER then some Behaviour.boulderB
    else if i = ET_FAKE then some Behaviour.fakeB
    else if i = ET_RICOCHET then some Behaviour.ricochetB
    else none)

def c8BulletTile : BoardTile where
  element_id := ET_BULLET
  colour := 0x0f

def c8SolidTile : BoardTile where
  element_id := ET_SOLID
  colour := 0x0e

/-- A player-shot bullet status moving east. -/
def c8Bullet (x : Nat) : StatusElement :=
  { StatusElement.default with
    location_x := x
    location_y := 10
    step_x := 1
    step_y := 0
    cycle := 1
    param1 := 0 }

/-- A status that never steps (cycle 0), standing in for the player slot so
that no removal ever touches index 0. -/
def c8Dummy : StatusElement :=
  { StatusElement.default with
    location_x := 30
    location_y := 20
    cycle := 0 }

def c8SetTiles (sim : BoardSim) (l : List (Int × Int × BoardTile)) : BoardSim :=
  l.foldl (fun s p => (set_tile s p.1 p.2.1 p.2.2).1) sim

/-- Four adjacent east-moving player bullets with a solid wall directly in
front of the leading one. -/
def c8BoardWall : BoardSim :=
  c8SetTiles
    { BoardSim.new WorldHeader.zzt_default with
      behaviours := c8Behaviours
      status_elements := [c8Dummy, c8Bullet 5, c8Bullet 4, c8Bullet 3, c8Bullet 2] }
    [(2, 10, c8BulletTile), (3, 10, c8BulletTile), (4, 10, c8BulletTile),
     (5, 10, c8BulletTile), (6, 10, c8SolidTile)]

/-- The same four bullets with nothing ahead. -/
def c8BoardFree : BoardSim :=
  c8SetTiles
    { BoardSim.new WorldHeader.zzt_default with
      behaviours := c8Behaviours
      status_elements := [c8Dummy, c8Bullet 5, c8Bullet 4, c8Bullet 3, c8Bullet 2] }
    [(2, 10, c8BulletTile), (3, 10, c8BulletTile), (4, 10, c8BulletTile),
     (5, 10, c8BulletTile)]

def c8DamageO : DamageFn := fun _ _ _ _ _ => []

def c8StepWall : Option (BoardSim × List BoardMessage) :=
  run_board_step c8DamageO 10
    { global_cycle := 1, processing_status_index_opt := none } c8BoardWall []

def c8StepFree : Option (BoardSim × List BoardMessage) :=
  run_board_step c8DamageO 10
    { global_cycle := 1, processing_status_index_opt := none } c8BoardFree []

/-- Observation of a step result: the status positions and steps, the
tiles at (6,10) and (2,10), and the emitted messages. -/
structure C8Obs where
  status_view : List (Nat × Nat × Int × Int)
  tile6 : Option BoardTile
  tile2 : Option BoardTile
  msgs : List BoardMessage
deriving DecidableEq, Repr

def c8View (r : BoardSim × List BoardMessage) : C8Obs where
  status_view := r.1.status_elements.map
    (fun s => (s.location_x, s.location_y, s.step_x, s.step_y))
  tile6 := get_tile r.1 6 10
  tile2 := get_tile r.1 2 10
  msgs := r.2

theorem bullet_new_step_id (status : StatusElement) (sim : BoardSim)
    (dest_tile : BoardTile)
    (hdest : get_tile sim ((status.location_x : Int) + status.step_x)
      ((status.location_y : Int) + status.step_y) = some dest_tile)
    (hnr : dest_tile.element_id ≠ ET_RICOCHET)
    (hcw : ∀ t, get_tile sim ((status.location_x : Int) + status.step_y)
      ((status.location_y : Int) + status.step_x) = some t →
      t.element_id ≠ ET_RICOCHET)
    (hccw : ∀ t, get_tile sim ((status.location_x : Int) - status.step_y)
      ((status.location_y : Int) - status.step_x) = some t →
      t.element_id ≠ ET_RICOCHET) :
    bullet_new_step status sim = (status.step_x, status.step_y) := by
  unfold bullet_new_step
  dsimp only
  rw [hdest]
  dsimp only
  rw [if_neg hnr]
  by_cases hb : (behaviour_for_pos sim ((status.location_x : Int) + status.step_x)
      ((status.location_y : Int) + status.step_y)).blocked_for_bullets
      = BlockedStatus.blocked
  · rw [if_pos hb]
    cases hcwt : get_tile sim ((status.location_x : Int) + status.step_y)
        ((status.location_y : Int) + status.step_x) with
    | none => rfl
    | some t =>
      dsimp only
      rw [if_neg (hcw t hcwt)]
      cases hccwt : get_tile sim ((status.location_x : Int) - status.step_y)
          ((status.location_y : Int) - status.step_x) with
      | none => rfl
      | some u =>
        dsimp only
        rw [if_neg (hccw u hccwt)]
  · rw [if_neg hb]

/-- C8: a bullet whose (undeflected) forward cell is blocked for bullets
replaces its own tile with its under-tile (a `SetTile` with no fresh
status, which deletes the bullet's status through
`remove_status_for_pos`), damages that cell as a player shot exactly when
its `param1` is `0` (and only when the cell is destructable), and sets the
reprocess-same-status-index-on-removal latch — and nothing else.
Consequently, on a row of four adjacent east-moving player bullets whose
leader faces a solid wall, one complete board step removes exactly the
leading bullet while the three others each advance one cell (the wall
intact, no messages); the same row with a free path keeps all four
bullets, so the row's length is preserved — never alternate-dying. -/
theorem c8_bullet_row :
    (∀ (damageO : DamageFn) (status : StatusElement) (status_index : Nat)
      (sim : BoardSim) (dest_tile : BoardTile),
      status.step_x ≠ 0 ∨ status.step_y ≠ 0 →
      get_tile sim ((status.location_x : Int) + status.step_x)
        ((status.location_y : Int) + status.step_y) = some dest_tile →
      dest_tile.element_id ≠ ET_RICOCHET →
      (∀ t, get_tile sim ((status.location_x : Int) + status.step_y)
        ((status.location_y : Int) + status.step_x) = some t →
        t.element_id ≠ ET_RICOCHET) →
      (∀ t, get_tile sim ((status.location_x : Int) - status.step_y)
        ((status.location_y : Int) - status.step_x) = some t →
        t.element_id ≠ ET_RICOCHET) →
      (behaviour_for_pos sim ((status.location_x : Int) + status.step_x)
        ((status.location_y : Int) + status.step_y)).blocked_for_bullets
        = BlockedStatus.blocked →
      bullet_step damageO status status_index sim =
        { actions :=
            Action.setTile (status.location_x : Int) (status.location_y : Int)
              { element_id := status.under_element_id,
                colour := status.under_colour } none ::
            ((if (behaviour_for_pos sim ((status.location_x : Int) + status.step_x)
                  ((status.location_y : Int) + status.step_y)).destructable then
                damageO
                  (behaviour_for_pos sim ((status.location_x : Int) + status.step_x)
                    ((status.location_y : Int) + status.step_y))
                  ((status.location_x : Int) + status.step_x)
                  ((status.location_y : Int) + status.step_y)
                  (DamageType.shot (status.param1 = 0)) sim
              else []) ++ [Action.reprocessSameStatusIndexOnRemoval]),
          has_continuation := false }) ∧
    (c8StepWall.map c8View = some
      { status_view := [(30, 20, 0, 0), (5, 10, 1, 0), (4, 10, 1, 0), (3, 10, 1, 0)]
        tile6 := some c8SolidTile
        tile2 := some { element_id := ET_EMPTY, colour := 0 }
        msgs := [] }) ∧
    (c8StepFree.map c8View = some
      { status_view := [(30, 20, 0, 0), (6, 10, 1, 0), (5, 10, 1, 0), (4, 10, 1, 0),
          (3, 10, 1, 0)]
        tile6 := some c8BulletTile
        tile2 := some { element_id := ET_EMPTY, colour := 0 }
        msgs := [] }) := by
  refine ⟨?_, by decide, by decide⟩
  intro damageO status status_index sim dest_tile hstep hdest hnr hcw hccw hblocked
  unfold bullet_step
  rw [if_pos hstep]
  dsimp only
  rw [bullet_new_step_id status sim dest_tile hdest hnr hcw hccw]
  dsimp only
  rw [if_pos hblocked]
  by_cases hd : (behaviour_for_pos sim ((status.location_x : Int) + status.step_x)
      ((status.location_y : Int) + status.step_y)).destructable = true
  · rw [if_pos hd, if_pos hd]
    simp
  · rw [if_neg hd, if_neg hd]
    simp

theorem c8_bullet_row_witness :
    (behaviour_for_pos c8BoardWall 6 10).blocked_for_bullets
      = BlockedStatus.blocked ∧
    bullet_step c8DamageO (c8Bullet 5) 1 c8BoardWall =
      { actions := [Action.setTile 5 10 { element_id := 0, colour := 0 } none,
          Action.reprocessSameStatusIndexOnRemoval],
        has_continuation := false } := by
  constructor
  · decide
  · have h := c8_bullet_row.1 c8DamageO (c8Bullet 5) 1 c8BoardWall c8SolidTile
      (by decide) (by decide) (by decide)
      (by intro t ht
          have hv : get_tile c8BoardWall
              (((c8Bullet 5).location_x : Int) + (c8Bullet 5).step_y)
              (((c8Bullet 5).location_y : Int) + (c8Bullet 5).step_x)
              = some { element_id := 0, colour := 0 } := by decide
          rw [hv] at ht
          cases ht; decide)
      (by intro t ht
          have hv : get_tile c8BoardWall
              (((c8Bullet 5).location_x : Int) - (c8Bullet 5).step_y)
              (((c8Bullet 5).location_y : Int) - (c8Bullet 5).step_x)
              = some { element_id := 0, colour := 0 } := by decide
          rw [hv] at ht
          cases ht; decide)
      (by decide)
    rw [h]
    decide

end Ruzzt
